import Mathlib

/-!
# aws-sso-config: token acquisition and config synchronization

A shallow embedding of `providers/aws/config.go`, `providers/aws/provider.go`,
`providers/aws/profiles.go`, `providers/config`, `command/config/shared`,
`command/generate/generator.go`, `command/generate/generate.go` and
`internal/pager/pager.go`.

Everything the Go code reaches outside the process (the user database, the
token cache, the JSON decoder, the clock, the OIDC backend, the browser) is a
field of `World`; the AWS config file lives on a `Disk`, and the SSO backend
is an `SSOClient`.  Every function returns its Go result together with the
list of effects it performed, in program order.
-/

namespace AwsSsoConfig

/-! ## Library functions used by the code -/

namespace strings

/-- Go `strings.HasSuffix`. -/
def HasSuffix (s suffix : String) : Bool :=
  suffix.data.isSuffixOf s.data

/-- Substring test on character lists. -/
def containsList : List Char → List Char → Bool
  | [], sub => sub.isEmpty
  | c :: cs, sub => sub.isPrefixOf (c :: cs) || containsList cs sub

/-- Go `strings.Contains`. -/
def Contains (s substr : String) : Bool :=
  containsList s.data substr.data

end strings

namespace filepath

/-- Go `filepath.Join` of a clean directory and a relative path.  The result
is only used as the key under which `World` answers `os.ReadDir` and
`os.ReadFile`. -/
def Join (dir name : String) : String :=
  dir ++ "/" ++ name

end filepath

/-- Go `time.Time`, as the instant in nanoseconds counted from the zero
value of the type. -/
structure Time where
  nanos : Int
  deriving DecidableEq, Repr

namespace Time

/-- Go `Time.IsZero`. -/
def IsZero (t : Time) : Bool :=
  t.nanos == 0

/-- Go `t.After(u)`: `t` is strictly later than `u`. -/
def After (t u : Time) : Bool :=
  decide (u.nanos < t.nanos)

end Time

namespace aws

/-- Go `aws.ToString`: a nil pointer reads as the empty string. -/
def ToString (p : Option String) : String :=
  p.getD ""

/-- Go `aws.Config` (only the field the code sets). -/
structure Config where
  Region : String
  deriving DecidableEq, Repr

/-- Go `aws.String`: a pointer to the given string. -/
def String (s : String) : Option String :=
  some s

end aws

/-! ## Application configuration (`providers/config`) -/

namespace appconfig

/-- Go `SSOConfig`. -/
structure SSOConfig where
  StartURL : String
  Region : String
  Role : String
  deriving DecidableEq, Repr

/-- Go `AWSConfig`. -/
structure AWSConfig where
  DefaultRegion : String
  ConfigFile : String
  deriving DecidableEq, Repr

/-- Go `Config`. -/
structure Config where
  SSO : SSOConfig
  AWS : AWSConfig
  deriving DecidableEq, Repr

/-- Go `(*Config).SSOStartURL`. -/
def Config.SSOStartURL (c : Config) : String :=
  c.SSO.StartURL

/-- Go `(*Config).SSORegion`. -/
def Config.SSORegion (c : Config) : String :=
  c.SSO.Region

/-- Go `(*Config).SSORole`. -/
def Config.SSORole (c : Config) : String :=
  c.SSO.Role

/-- Go `(*Config).DefaultRegion`. -/
def Config.DefaultRegion (c : Config) : String :=
  c.AWS.DefaultRegion

/-- Go `(*Config).ConfigFile`. -/
def Config.ConfigFile (c : Config) : String :=
  c.AWS.ConfigFile

/-- Go `(*SSOConfig).Validate`: the error, if any. -/
def SSOConfig.Validate (s : SSOConfig) : Option String :=
  if s.StartURL = "" then some "SSO start URL is required"
  else if s.Region = "" then some "SSO region is required"
  else none

/-- Go `(*AWSConfig).Validate`: the error, if any. -/
def AWSConfig.Validate (a : AWSConfig) : Option String :=
  if a.DefaultRegion = "" then some "AWS default region is required"
  else if a.ConfigFile = "" then some "AWS config file path is required"
  else none

/-- Go `(*Config).Validate`: the error, if any. -/
def Config.Validate (c : Config) : Option String :=
  match c.SSO.Validate with
  | some err => some err
  | none =>
    match c.AWS.Validate with
    | some err => some err
    | none => none

end appconfig

/-! ## OIDC messages (`ssooidc`) -/

namespace ssooidc

/-- Go `ssooidc.RegisterClientInput`. -/
structure RegisterClientInput where
  ClientName : Option String
  ClientType : Option String
  Scopes : List String
  deriving DecidableEq, Repr

/-- Go `ssooidc.RegisterClientOutput`. -/
structure RegisterClientOutput where
  ClientId : Option String
  ClientSecret : Option String
  deriving DecidableEq, Repr

/-- Go `ssooidc.StartDeviceAuthorizationInput`. -/
structure StartDeviceAuthorizationInput where
  ClientId : Option String
  ClientSecret : Option String
  StartUrl : Option String
  deriving DecidableEq, Repr

/-- Go `ssooidc.StartDeviceAuthorizationOutput`. -/
structure StartDeviceAuthorizationOutput where
  DeviceCode : Option String
  VerificationUriComplete : Option String
  deriving DecidableEq, Repr

/-- Go `ssooidc.CreateTokenInput`. -/
structure CreateTokenInput where
  ClientId : Option String
  ClientSecret : Option String
  DeviceCode : Option String
  GrantType : Option String
  deriving DecidableEq, Repr

/-- Go `ssooidc.CreateTokenOutput`. -/
structure CreateTokenOutput where
  AccessToken : Option String
  deriving DecidableEq, Repr

end ssooidc

open ssooidc

/-- Go interface `SSOOIDCClient`.  A call returns either an output or an
error, given by its message (`err.Error()`); the code tests `err` only, and
a nil error comes with a non-nil output.  `CreateToken` is the one
operation called repeatedly: its first argument is the number of the call
within a polling run, counted from 1, so the function is the sequence of
responses of the backend. -/
structure SSOOIDCClient where
  RegisterClient : RegisterClientInput → Except String RegisterClientOutput
  StartDeviceAuthorization :
    StartDeviceAuthorizationInput → Except String StartDeviceAuthorizationOutput
  CreateToken : Nat → CreateTokenInput → Except String CreateTokenOutput

/-- Go `SSOCacheEntry`. -/
structure SSOCacheEntry where
  AccessToken : String
  ExpiresAt : Time
  deriving DecidableEq, Repr

/-! ## SSO messages (`sso`, `sso/types`) -/

namespace types

/-- Go `types.AccountInfo`. -/
structure AccountInfo where
  AccountId : Option String
  AccountName : Option String
  EmailAddress : Option String
  deriving DecidableEq, Repr

/-- Go `types.RoleInfo`. -/
structure RoleInfo where
  AccountId : Option String
  RoleName : Option String
  deriving DecidableEq, Repr

end types

namespace sso

/-- Go `sso.ListAccountsInput`. -/
structure ListAccountsInput where
  AccessToken : Option String
  MaxResults : Option Nat
  NextToken : Option String
  deriving DecidableEq, Repr

/-- Go `sso.ListAccountsOutput`; a nil slice is the empty list. -/
structure ListAccountsOutput where
  AccountList : List types.AccountInfo
  NextToken : Option String
  deriving DecidableEq, Repr

/-- Go `sso.ListAccountRolesInput`. -/
structure ListAccountRolesInput where
  AccessToken : Option String
  AccountId : Option String
  MaxResults : Option Nat
  NextToken : Option String
  deriving DecidableEq, Repr

/-- Go `sso.ListAccountRolesOutput`; a nil slice is the empty list. -/
structure ListAccountRolesOutput where
  RoleList : List types.RoleInfo
  NextToken : Option String
  deriving DecidableEq, Repr

end sso

/-! ## Effects -/

/-- The lines the code prints with `fmt.Printf` / `fmt.Println`. -/
inductive Notice where
  /-- Line "Failed to register client: %v" -/
  | failedToRegisterClient (err : String)
  /-- Line "Failed to start device authorization: %v" -/
  | failedToStartDeviceAuthorization (err : String)
  /-- Line "Opening browser for AWS SSO login...\n%v" -/
  | openingBrowser (url : String)
  /-- Line "Failed to open browser automatically. Please manually open: %v" -/
  | failedToOpenBrowser (url : String)
  /-- Line "Waiting for authorization... (this may take a few moments)" -/
  | waitingForAuthorization
  /-- Line "Authorization successful!" (after a check mark) -/
  | authorizationSuccessful
  /-- Line "Still waiting for authorization... (attempt %d/%d)" -/
  | stillWaiting (attempt maxAttempts : Nat)
  /-- Line "Authorization error: %v" -/
  | authorizationError (err : String)
  /-- Line "Authorization timeout. Please try again." -/
  | authorizationTimeout
  /-- Line "File %s does not exist" -/
  | fileDoesNotExist (file : String)
  /-- Line "Fetching list of all accounts for user" -/
  | fetchingAccounts
  /-- Line "Error fetching accounts: %v" -/
  | errorFetchingAccounts (err : String)
  /-- Line "Adding profile %v" -/
  | addingProfile (profileName : String)
  deriving DecidableEq, Repr

/-- One effect of the program on its surroundings. -/
inductive Event where
  /-- Call of `user.Current()`. -/
  | userCurrent
  /-- Call of `os.ReadDir(dir)`. -/
  | readDir (dir : String)
  /-- Call of `os.ReadFile(path)`. -/
  | readFile (path : String)
  /-- Call of `context.WithTimeout(context.Background(), seconds)`. -/
  | withTimeout (seconds : Nat)
  /-- The deferred `cancel()` of the context. -/
  | cancel
  /-- Call of `RegisterClient` on the OIDC client. -/
  | registerClient (input : RegisterClientInput)
  /-- Call of `StartDeviceAuthorization` on the OIDC client. -/
  | startDeviceAuthorization (input : StartDeviceAuthorizationInput)
  /-- Call of `browser.OpenURL(url)` or of `BrowserOpener(url)`. -/
  | openBrowser (url : String)
  /-- Call of the injected `TokenPoller`. -/
  | tokenPoller (register : RegisterClientOutput)
      (deviceAuth : StartDeviceAuthorizationOutput)
  /-- Call of `CreateToken` on the OIDC client. -/
  | createToken (input : CreateTokenInput)
  /-- Call of `time.Sleep(seconds)`. -/
  | sleep (seconds : Nat)
  /-- A printed line. -/
  | print (notice : Notice)
  /-- Call of `ListAccounts` on the SSO client. -/
  | listAccounts (input : sso.ListAccountsInput)
  /-- Call of `ListAccountRoles` on the SSO client. -/
  | listAccountRoles (input : sso.ListAccountRolesInput)
  /-- Call of `configparser.NewConfigParserFromFile(path)`. -/
  | parseConfigFile (path : String)
  /-- Call of `SaveWithDelimiter(path, "=")` on the parser. -/
  | saveConfigFile (path : String)
  /-- Call of `os.Stat(path)`. -/
  | stat (path : String)
  /-- Run of the external `diff file1 file2`. -/
  | runDiff (file1 file2 : String)
  /-- Call of `os.Rename(oldpath, newpath)`. -/
  | rename (oldpath newpath : String)
  /-- Call of `log.Fatal`: the message is logged and the process exits with
  status 1. -/
  | logFatal (msg : String)
  /-- Call of `UI.Error(msg)`. -/
  | uiError (msg : String)
  deriving DecidableEq, Repr

namespace Event

/-- True on `RegisterClient` calls. -/
def isRegisterClient : Event → Bool
  | registerClient _ => true
  | _ => false

/-- True on `StartDeviceAuthorization` calls. -/
def isStartDeviceAuthorization : Event → Bool
  | startDeviceAuthorization _ => true
  | _ => false

/-- True on browser opens. -/
def isOpenBrowser : Event → Bool
  | openBrowser _ => true
  | _ => false

/-- True on `TokenPoller` calls. -/
def isTokenPoller : Event → Bool
  | tokenPoller _ _ => true
  | _ => false

/-- True on `CreateToken` calls. -/
def isCreateToken : Event → Bool
  | createToken _ => true
  | _ => false

/-- True on `ListAccounts` calls. -/
def isListAccounts : Event → Bool
  | listAccounts _ => true
  | _ => false

/-- True on `ListAccountRoles` calls. -/
def isListAccountRoles : Event → Bool
  | listAccountRoles _ => true
  | _ => false

/-- True on the effects that write to the disk: saving a file and renaming. -/
def isDiskWrite : Event → Bool
  | saveConfigFile _ => true
  | rename _ _ => true
  | _ => false

/-- True on sleeps. -/
def isSleep : Event → Bool
  | sleep _ => true
  | _ => false

/-- True on the effects of the device-authorization flow: the three OIDC
calls, the browser and the token poller. -/
def isFlow (e : Event) : Bool :=
  e.isRegisterClient || e.isStartDeviceAuthorization || e.isOpenBrowser ||
    e.isTokenPoller || e.isCreateToken

end Event

/-- Everything outside the process. -/
structure World where
  /-- Result of `user.Current()`: the home directory, or an error. -/
  userCurrent : Option String
  /-- Result of `os.ReadDir`: the entry names in listing order, or an error. -/
  readDir : String → Option (List String)
  /-- Result of `os.ReadFile`: the content, or an error. -/
  readFile : String → Option String
  /-- Result of `json.Unmarshal` into an `SSOCacheEntry`: the decoded record (a field
  absent from the JSON keeps its zero value), or an error. -/
  unmarshal : String → Option SSOCacheEntry
  /-- Reading of `time.Now()`; one scan of the cache directory is taken to
  happen at one instant. -/
  now : Time
  /-- Client built by `ssooidc.NewFromConfig`. -/
  newSSOOIDCClient : aws.Config → SSOOIDCClient
  /-- Result of `browser.OpenURL`: `none` on success, the error otherwise. -/
  openURL : String → Option String

/-! ## `providers/aws/config.go`: the token cache -/

/-- The `for _, entry := range entries` loop of `getCurrentToken`. -/
def getCurrentToken.loop (w : World) (dir : String) :
    List String → Option String × List Event
  | [] => (none, [])
  | name :: entries =>
    if !strings.HasSuffix name ".json" then
      getCurrentToken.loop w dir entries
    else
      let filename := filepath.Join dir name
      let next := getCurrentToken.loop w dir entries
      match w.readFile filename with
      | none => (next.1, Event.readFile filename :: next.2)
      | some byteValue =>
        match w.unmarshal byteValue with
        | none => (next.1, Event.readFile filename :: next.2)
        | some cacheEntry =>
          if cacheEntry.AccessToken = "" || cacheEntry.ExpiresAt.IsZero then
            (next.1, Event.readFile filename :: next.2)
          else if w.now.After cacheEntry.ExpiresAt then
            (next.1, Event.readFile filename :: next.2)
          else
            (some cacheEntry.AccessToken, [Event.readFile filename])

/-- Go `getCurrentToken`. -/
def getCurrentToken (w : World) : Option String × List Event :=
  match w.userCurrent with
  | none => (none, [Event.userCurrent])
  | some home =>
    let dir := filepath.Join home ".aws/sso/cache"
    match w.readDir dir with
    | none => (none, [Event.userCurrent, Event.readDir dir])
    | some entries =>
      let r := getCurrentToken.loop w dir entries
      (r.1, Event.userCurrent :: Event.readDir dir :: r.2)

/-! ## `providers/aws/config.go`: the device-authorization flow -/

/-- The constant `maxAttempts` of `pollForToken`. -/
def maxAttempts : Nat := 30

/-- The constant `interval` of `pollForToken`, in seconds. -/
def interval : Nat := 5

/-- The test `strings.Contains(err.Error(), "authorization_pending") ||
strings.Contains(err.Error(), "slow_down")` of `pollForToken`. -/
def isPending (err : String) : Bool :=
  strings.Contains err "authorization_pending" || strings.Contains err "slow_down"

/-- The variables `token` and `err` of `pollForToken` (a nil pointer and a
nil error are `none`). -/
structure PollVars where
  token : Option CreateTokenOutput
  err : Option String
  deriving DecidableEq, Repr

/-- The `for attempt := 1; attempt <= maxAttempts; attempt++` loop of
`pollForToken`, over the values of `attempt` still to run; the second
argument holds `token` and `err` as the previous iteration left them. -/
def pollForToken.loop (client : SSOOIDCClient) (input : CreateTokenInput) :
    List Nat → PollVars → PollVars × List Event
  | [], vars => (vars, [])
  | attempt :: attempts, _ =>
    match client.CreateToken attempt input with
    | .ok token =>
      (⟨some token, none⟩,
        [Event.createToken input, Event.print Notice.authorizationSuccessful])
    | .error err =>
      if isPending err then
        let next := pollForToken.loop client input attempts ⟨none, some err⟩
        (next.1,
          Event.createToken input ::
            ((if attempt % 6 = 0 then
                [Event.print (Notice.stillWaiting attempt maxAttempts)]
              else []) ++ Event.sleep interval :: next.2))
      else
        (⟨none, some err⟩,
          [Event.createToken input, Event.print (Notice.authorizationError err)])

/-- The `CreateTokenInput` built by `pollForToken`. -/
def pollForToken.input (register : RegisterClientOutput)
    (deviceAuth : StartDeviceAuthorizationOutput) : CreateTokenInput :=
  { ClientId := register.ClientId
    ClientSecret := register.ClientSecret
    DeviceCode := deviceAuth.DeviceCode
    GrantType := aws.String "urn:ietf:params:oauth:grant-type:device_code" }

/-- Go `pollForToken`.  The final `token.AccessToken` reads a non-nil
`token`: the loop body runs at least once and leaves `err` nil only with the
output of a successful call (`pollForToken.loop_token`). -/
def pollForToken (client : SSOOIDCClient) (register : RegisterClientOutput)
    (deviceAuth : StartDeviceAuthorizationOutput) : Option String × List Event :=
  let r := pollForToken.loop client (pollForToken.input register deviceAuth)
    (List.range' 1 maxAttempts) ⟨none, none⟩
  match r.1.err with
  | some err =>
    (none,
      Event.withTimeout 10 :: (r.2 ++
        ((if strings.Contains err "authorization_pending" then
            [Event.print Notice.authorizationTimeout]
          else []) ++ [Event.cancel])))
  | none =>
    (r.1.token.bind (fun token => token.AccessToken),
      Event.withTimeout 10 :: (r.2 ++ [Event.cancel]))

/-- Go `generateToken`. -/
def generateToken (w : World) (cfg : aws.Config) :
    Option String × List Event :=
  let ssooidcClient := w.newSSOOIDCClient cfg
  let registerInput : RegisterClientInput :=
    { ClientName := aws.String "sample-client-name"
      ClientType := aws.String "public"
      Scopes := ["sso-portal:*"] }
  match ssooidcClient.RegisterClient registerInput with
  | .error err =>
    (none,
      [Event.withTimeout 300, Event.registerClient registerInput,
        Event.print (Notice.failedToRegisterClient err), Event.cancel])
  | .ok register =>
    let deviceInput : StartDeviceAuthorizationInput :=
      { ClientId := register.ClientId
        ClientSecret := register.ClientSecret
        StartUrl := aws.String "https://your-sso-portal.awsapps.com/start" }
    match ssooidcClient.StartDeviceAuthorization deviceInput with
    | .error err =>
      (none,
        [Event.withTimeout 300, Event.registerClient registerInput,
          Event.startDeviceAuthorization deviceInput,
          Event.print (Notice.failedToStartDeviceAuthorization err), Event.cancel])
    | .ok deviceAuth =>
      let url := aws.ToString deviceAuth.VerificationUriComplete
      let poll := pollForToken ssooidcClient register deviceAuth
      (poll.1,
        [Event.withTimeout 300, Event.registerClient registerInput,
          Event.startDeviceAuthorization deviceInput,
          Event.print (Notice.openingBrowser url), Event.openBrowser url] ++
        ((match w.openURL url with
          | some _ => [Event.print (Notice.failedToOpenBrowser url)]
          | none => []) ++
        (Event.print Notice.waitingForAuthorization :: (poll.2 ++ [Event.cancel]))))

/-- Go `GetToken`. -/
def GetToken (w : World) (cfg : aws.Config) : Option String × List Event :=
  let cached := getCurrentToken w
  match cached.1 with
  | some token => (some token, cached.2)
  | none =>
    let generated := generateToken w cfg
    (generated.1, cached.2 ++ generated.2)

/-- Go `GenerateTokenWithConfig`. -/
def GenerateTokenWithConfig (w : World) (cfg : aws.Config) (appCfg : appconfig.Config) :
    Option String × List Event :=
  let ssooidcClient := w.newSSOOIDCClient cfg
  let registerInput : RegisterClientInput :=
    { ClientName := aws.String "aws-sso-config-cli"
      ClientType := aws.String "public"
      Scopes := ["sso-portal:*"] }
  match ssooidcClient.RegisterClient registerInput with
  | .error err =>
    (none,
      [Event.withTimeout 300, Event.registerClient registerInput,
        Event.print (Notice.failedToRegisterClient err), Event.cancel])
  | .ok register =>
    let deviceInput : StartDeviceAuthorizationInput :=
      { ClientId := register.ClientId
        ClientSecret := register.ClientSecret
        StartUrl := aws.String appCfg.SSOStartURL }
    match ssooidcClient.StartDeviceAuthorization deviceInput with
    | .error err =>
      (none,
        [Event.withTimeout 300, Event.registerClient registerInput,
          Event.startDeviceAuthorization deviceInput,
          Event.print (Notice.failedToStartDeviceAuthorization err), Event.cancel])
    | .ok deviceAuth =>
      let url := aws.ToString deviceAuth.VerificationUriComplete
      let poll := pollForToken ssooidcClient register deviceAuth
      (poll.1,
        [Event.withTimeout 300, Event.registerClient registerInput,
          Event.startDeviceAuthorization deviceInput,
          Event.print (Notice.openingBrowser url), Event.openBrowser url] ++
        ((match w.openURL url with
          | some _ => [Event.print (Notice.failedToOpenBrowser url)]
          | none => []) ++
        (Event.print Notice.waitingForAuthorization :: (poll.2 ++ [Event.cancel]))))

/-! ## `providers/aws/provider.go` -/

/-- Go `AWSProvider`.  `BrowserOpener` returns `none` on success and the
error otherwise; `TokenPoller` returns its result and the effects it had. -/
structure AWSProvider where
  SSOOIDCClient : SSOOIDCClient
  BrowserOpener : String → Option String
  TokenPoller : AwsSsoConfig.SSOOIDCClient → RegisterClientOutput →
    StartDeviceAuthorizationOutput → Option String × List Event
  Cfg : aws.Config

/-- Go `(*AWSProvider).GenerateToken`. -/
def AWSProvider.GenerateToken (p : AWSProvider) (appCfg : appconfig.Config) :
    Option String × List Event :=
  let ssooidcClient := p.SSOOIDCClient
  let registerInput : RegisterClientInput :=
    { ClientName := aws.String "aws-sso-config-cli"
      ClientType := aws.String "public"
      Scopes := ["sso-portal:*"] }
  match ssooidcClient.RegisterClient registerInput with
  | .error _ =>
    (none, [Event.withTimeout 300, Event.registerClient registerInput, Event.cancel])
  | .ok register =>
    let deviceInput : StartDeviceAuthorizationInput :=
      { ClientId := register.ClientId
        ClientSecret := register.ClientSecret
        StartUrl := aws.String appCfg.SSOStartURL }
    match ssooidcClient.StartDeviceAuthorization deviceInput with
    | .error _ =>
      (none,
        [Event.withTimeout 300, Event.registerClient registerInput,
          Event.startDeviceAuthorization deviceInput, Event.cancel])
    | .ok deviceAuth =>
      let url := aws.ToString deviceAuth.VerificationUriComplete
      let poll := p.TokenPoller ssooidcClient register deviceAuth
      (poll.1,
        [Event.withTimeout 300, Event.registerClient registerInput,
          Event.startDeviceAuthorization deviceInput, Event.openBrowser url,
          Event.tokenPoller register deviceAuth] ++ (poll.2 ++ [Event.cancel]))

/-! ## `command/generate/generate.go`: the token step -/

/-- Go `(*DefaultTokenGenerator).GenerateTokenWithConfig`. -/
def DefaultTokenGenerator.GenerateTokenWithConfig (w : World) (cfg : aws.Config)
    (appCfg : appconfig.Config) : Option String × List Event :=
  AwsSsoConfig.GenerateTokenWithConfig w cfg appCfg

/-! ## Vocabulary of the statements about the token cache -/

/-- The record held by the directory entry `name` of `dir`: the file is read
and decoded; `none` when either step fails. -/
def cacheRecord (w : World) (dir name : String) : Option SSOCacheEntry :=
  (w.readFile (filepath.Join dir name)).bind w.unmarshal

/-- An entry that cannot supply a token: its file cannot be read, does not
decode, has an empty `accessToken`, or has a zero `expiresAt`. -/
def unusable (w : World) (dir name : String) : Bool :=
  match cacheRecord w dir name with
  | none => true
  | some e => decide (e.AccessToken = "") || e.ExpiresAt.IsZero

/-- The candidate record of an entry: the name ends in ".json", the record
decodes, its `accessToken` is non-empty and its `expiresAt` is non-zero. -/
def candidate (w : World) (dir name : String) : Option SSOCacheEntry :=
  if strings.HasSuffix name ".json" then
    (cacheRecord w dir name).filter
      (fun e => decide (e.AccessToken ≠ "") && !e.ExpiresAt.IsZero)
  else none

/-- The token of a candidate with `now < expiresAt`. -/
def acceptedBefore (w : World) (dir name : String) : Option String :=
  ((candidate w dir name).filter
    (fun e => decide (w.now.nanos < e.ExpiresAt.nanos))).map (fun e => e.AccessToken)

/-- The token of a candidate with `now ≤ expiresAt`. -/
def acceptedUpTo (w : World) (dir name : String) : Option String :=
  ((candidate w dir name).filter
    (fun e => decide (w.now.nanos ≤ e.ExpiresAt.nanos))).map (fun e => e.AccessToken)

/-- The world with the listing of every directory replaced by `entries`. -/
def World.withListing (w : World) (entries : List String) : World :=
  { w with readDir := fun _ => some entries }

/-- An OIDC client that is down: every call fails. -/
def downClient : SSOOIDCClient where
  RegisterClient := fun _ => .error "register: connection refused"
  StartDeviceAuthorization := fun _ => .error "device: connection refused"
  CreateToken := fun _ _ => .error "token: connection refused"

/-- A cache directory with the files `a.json` (token `tokA`, expiring at 100),
`b.json` (token `tokB`, expiring at 200), `c.json` (not JSON), `d.json` (a JSON
object without the two fields) and `notes.txt`, listed by `entries`, read at
time `now`. -/
def cacheWorld (entries : List String) (now : Int) : World where
  userCurrent := some "/home/u"
  readDir := fun dir => if dir = "/home/u/.aws/sso/cache" then some entries else none
  readFile := fun path =>
    if path = "/home/u/.aws/sso/cache/a.json" then some "A"
    else if path = "/home/u/.aws/sso/cache/b.json" then some "B"
    else if path = "/home/u/.aws/sso/cache/c.json" then some "C"
    else if path = "/home/u/.aws/sso/cache/d.json" then some "D"
    else if path = "/home/u/.aws/sso/cache/notes.txt" then some "A"
    else none
  unmarshal := fun content =>
    if content = "A" then some ⟨"tokA", ⟨100⟩⟩
    else if content = "B" then some ⟨"tokB", ⟨200⟩⟩
    else if content = "D" then some ⟨"", ⟨0⟩⟩
    else none
  now := ⟨now⟩
  newSSOOIDCClient := fun _ => downClient
  openURL := fun _ => none

/-! ## Vocabulary of the statements about polling -/

/-- A pending-class response: an error whose message contains
"authorization_pending" or "slow_down". -/
def pendingResponse : Except String CreateTokenOutput → Bool
  | .error err => isPending err
  | .ok _ => false

/-- The effects of one loop iteration that receives a pending-class
response: the call, the progress line on every 6th attempt, the sleep. -/
def pendingRound (input : CreateTokenInput) (attempt : Nat) : List Event :=
  Event.createToken input ::
    ((if attempt % 6 = 0 then [Event.print (Notice.stillWaiting attempt maxAttempts)]
      else []) ++ [Event.sleep interval])

/-- The effects of consecutive iterations that all receive pending-class
responses. -/
def pendingRounds (input : CreateTokenInput) : List Nat → List Event
  | [] => []
  | attempt :: attempts => pendingRound input attempt ++ pendingRounds input attempts

/-- A client whose `CreateToken` answers call `n` with `responses n`. -/
def scriptedClient (responses : Nat → Except String CreateTokenOutput) : SSOOIDCClient where
  RegisterClient := fun _ => .ok ⟨some "client-id", some "client-secret"⟩
  StartDeviceAuthorization := fun _ =>
    .ok ⟨some "device-code", some "https://device.sso.example/?user_code=ABCD"⟩
  CreateToken := fun n _ => responses n

/-- Two pending responses, then the user denies the request. -/
def deniedAtThird : Nat → Except String CreateTokenOutput
  | 1 => .error "AuthorizationPendingException: authorization_pending"
  | 2 => .error "SlowDownException: slow_down"
  | _ => .error "AccessDeniedException: access_denied"

/-- Two pending responses, then a token. -/
def grantedAtThird : Nat → Except String CreateTokenOutput
  | 1 => .error "AuthorizationPendingException: authorization_pending"
  | 2 => .error "SlowDownException: slow_down"
  | _ => .ok ⟨some "fresh-token"⟩

/-- The backend asks to slow down on every call. -/
def alwaysSlowDown : Nat → Except String CreateTokenOutput :=
  fun _ => .error "SlowDownException: slow_down"

/-! ## Vocabulary of the statements about the device-authorization flow -/

/-- The `RegisterClientInput` sent by `GenerateToken` and
`GenerateTokenWithConfig`. -/
def cliRegisterInput : RegisterClientInput :=
  { ClientName := some "aws-sso-config-cli"
    ClientType := some "public"
    Scopes := ["sso-portal:*"] }

/-- The `StartDeviceAuthorizationInput` sent after the registration
`register` under the application configuration `appCfg`. -/
def deviceInputFor (register : RegisterClientOutput) (appCfg : appconfig.Config) :
    StartDeviceAuthorizationInput :=
  { ClientId := register.ClientId
    ClientSecret := register.ClientSecret
    StartUrl := some appCfg.SSOStartURL }

/-- An OIDC client that registers and then fails to start the device
authorization. -/
def deviceDownClient : SSOOIDCClient where
  RegisterClient := fun _ => .ok ⟨some "client-id", some "client-secret"⟩
  StartDeviceAuthorization := fun _ => .error "device: connection refused"
  CreateToken := fun _ _ => .ok ⟨some "never-issued"⟩

/-- A provider over `client` whose browser opener succeeds and whose token
poller is `pollForToken`. -/
def providerOver (client : SSOOIDCClient) : AWSProvider where
  SSOOIDCClient := client
  BrowserOpener := fun _ => none
  TokenPoller := pollForToken
  Cfg := ⟨"us-east-1"⟩

/-- A world without a token cache whose OIDC client is `client`. -/
def flowWorld (client : SSOOIDCClient) : World where
  userCurrent := some "/home/u"
  readDir := fun _ => none
  readFile := fun _ => none
  unmarshal := fun _ => none
  now := ⟨0⟩
  newSSOOIDCClient := fun _ => client
  openURL := fun _ => none

/-- An application configuration. -/
def sampleAppCfg : appconfig.Config :=
  { SSO := ⟨"https://x.awsapps.com/start", "us-west-2", "AdministratorAccess"⟩
    AWS := ⟨"us-east-1", "/home/u/.aws/config"⟩ }

/-! ## The AWS config file (`go-configparser`) -/

/-- Modelled from the spec: one section of the AWS config file, a name with
"a mapping of key→string value", the keys kept in file order.  The
`go-configparser` library is not part of the sources. -/
structure Section where
  name : String
  options : List (String × String)
  deriving DecidableEq, Repr

/-- Modelled from the spec: the state of a `configparser.ConfigParser`, "an
ordered sequence of named sections (`default`, `profile <name>`, …), each a
mapping of key→string value".  The `go-configparser` library is not part of
the sources. -/
structure ConfigParser where
  sections : List Section
  deriving DecidableEq, Repr

/-- Modelled from the spec: writing `key = value` into the options of a
section: an existing key takes the new value in place, a new key is added
after the existing ones. -/
def setOption (key value : String) (options : List (String × String)) :
    List (String × String) :=
  if options.any (fun kv => kv.1 == key) then
    options.map (fun kv => if kv.1 = key then (kv.1, value) else kv)
  else options ++ [(key, value)]

namespace ConfigParser

/-- Modelled from the spec: `HasSection` of the library: a section of that
name is present. -/
def HasSection (p : ConfigParser) (sectionName : String) : Bool :=
  p.sections.any (fun s => s.name == sectionName)

/-- Modelled from the spec: `AddSection` of the library: "if the section does
not exist, create it", empty and after the existing sections; an existing
name is an error and leaves the parser as it is. -/
def AddSection (p : ConfigParser) (sectionName : String) : Except String ConfigParser :=
  if p.HasSection sectionName then .error ("section already exists: " ++ sectionName)
  else .ok ⟨p.sections ++ [⟨sectionName, []⟩]⟩

/-- Modelled from the spec: `Set` of the library: the key of the named
section takes the value, every other key and section is kept; a missing
section is an error and leaves the parser as it is. -/
def Set (p : ConfigParser) (sectionName key value : String) : Except String ConfigParser :=
  if p.HasSection sectionName then
    .ok ⟨p.sections.map (fun s =>
      if s.name = sectionName then ⟨s.name, setOption key value s.options⟩ else s)⟩
  else .error ("no section: " ++ sectionName)

/-- Modelled from the spec: `Get` of the library: the value of the key in
the named section, if both exist. -/
def Get (p : ConfigParser) (sectionName key : String) : Option String :=
  (p.sections.find? (fun s => s.name == sectionName)).bind
    (fun s => (s.options.find? (fun kv => kv.1 == key)).map (fun kv => kv.2))

/-- The parser after a call whose returned error the caller ignores: the
call changes the parser in place when it succeeds. -/
def after (p : ConfigParser) (r : Except String ConfigParser) : ConfigParser :=
  match r with
  | .ok p' => p'
  | .error _ => p

end ConfigParser

/-- What a file holds, as `configparser.NewConfigParserFromFile` reads it:
a config with the given sections, or a content that does not parse.  For a
file that the library has saved, the list is the saved parser; the headers
stand in that file in the order of `ConfigParser.Sections`. -/
inductive FileContent where
  | config (parser : ConfigParser)
  | unparsable (err : String)
  deriving DecidableEq, Repr

/-- A failing `SaveWithDelimiter`: its error and what it leaves at the path
(nothing, or a partly written file). -/
structure SaveFailure where
  err : String
  leaves : Option FileContent
  deriving DecidableEq, Repr

/-- The disk: the files, and the faults of the writes that the code
performs (`none`: the write succeeds). -/
structure Disk where
  files : String → Option FileContent
  saveError : String → Option SaveFailure
  renameError : String → String → Option String

namespace Disk

/-- The disk with `content` at `path`. -/
def write (d : Disk) (path : String) (content : Option FileContent) : Disk :=
  { d with files := fun q => if q = path then content else d.files q }

/-- The disk after a successful `os.Rename(oldpath, newpath)`. -/
def rename (d : Disk) (oldpath newpath : String) : Disk :=
  { d with files := fun q =>
      if q = newpath then d.files oldpath else if q = oldpath then none else d.files q }

end Disk

namespace configparser

/-- Go `configparser.NewConfigParserFromFile`: the parser of the file, or an
error when the file is missing or does not parse. -/
def NewConfigParserFromFile (d : Disk) (path : String) : Except String ConfigParser :=
  match d.files path with
  | none => .error ("open " ++ path ++ ": no such file or directory")
  | some (FileContent.unparsable err) => .error err
  | some (FileContent.config parser) => .ok parser

end configparser

/-- What a call comes to: it returns a value, or the process exits inside it
(`log.Fatal`). -/
inductive Outcome (α : Type) where
  | returned (value : α)
  | exited (code : Nat)
  deriving DecidableEq, Repr

/-! ## `command/generate/generator.go` -/

/-- Go interface `SSOClient`, without `GetRoleCredentials`, which the code
never calls.  A call returns either an output or an error, given by its
message. -/
structure SSOClient where
  ListAccounts : sso.ListAccountsInput → Except String sso.ListAccountsOutput
  ListAccountRoles : sso.ListAccountRolesInput → Except String sso.ListAccountRolesOutput

/-- Go `ConfigGenerator`. -/
structure ConfigGenerator where
  SSOStartURL : String
  SSORegion : String
  DefaultRegion : String
  deriving DecidableEq, Repr

/-- Go `(*ConfigGenerator).ListAccountsWithClient`.  The result is the pair
of Go results: the list (a nil slice is the empty list) and the error. -/
def ConfigGenerator.ListAccountsWithClient (_g : ConfigGenerator) (ssoClient : SSOClient)
    (token : Option String) : (List types.AccountInfo × Option String) × List Event :=
  match token with
  | none => (([], some "no SSO token provided"), [])
  | some _ =>
    let input : sso.ListAccountsInput :=
      { AccessToken := token, MaxResults := none, NextToken := none }
    match ssoClient.ListAccounts input with
    | .error err =>
      (([], some ("failed to list accounts: " ++ err)),
        [Event.withTimeout 30, Event.listAccounts input, Event.cancel])
    | .ok accountsOutput =>
      ((accountsOutput.AccountList, none),
        [Event.withTimeout 30, Event.listAccounts input, Event.cancel])

/-- Go `(*ConfigGenerator).GetAccountRolesWithClient`. -/
def ConfigGenerator.GetAccountRolesWithClient (_g : ConfigGenerator) (ssoClient : SSOClient)
    (token : Option String) (accountID : String) :
    (List types.RoleInfo × Option String) × List Event :=
  match token with
  | none => (([], some "no SSO token provided"), [])
  | some _ =>
    let input : sso.ListAccountRolesInput :=
      { AccessToken := token, AccountId := aws.String accountID, MaxResults := none,
        NextToken := none }
    match ssoClient.ListAccountRoles input with
    | .error err =>
      (([], some ("failed to list roles for account " ++ accountID ++ ": " ++ err)),
        [Event.withTimeout 30, Event.listAccountRoles input, Event.cancel])
    | .ok rolesOutput =>
      ((rolesOutput.RoleList, none),
        [Event.withTimeout 30, Event.listAccountRoles input, Event.cancel])

/-! ## `command/generate/generate.go` -/

/-- Go `showFileDiff`: both files are looked up first; the external `diff`
runs only if both exist. -/
def showFileDiff (d : Disk) (file1 file2 : String) : List Event :=
  if (d.files file1).isNone then
    [Event.stat file1, Event.print (Notice.fileDoesNotExist file1)]
  else if (d.files file2).isNone then
    [Event.stat file1, Event.stat file2, Event.print (Notice.fileDoesNotExist file2)]
  else
    [Event.stat file1, Event.stat file2, Event.runDiff file1 file2]

/-- The `for _, y := range accountsResult.AccountList` loop of
`generateAwsConfigFile`: the parser after the loop and the lines printed. -/
def generateAwsConfigFile.loop (appCfg : appconfig.Config) :
    List types.AccountInfo → ConfigParser → ConfigParser × List Event
  | [], awsConfig => (awsConfig, [])
  | y :: accounts, awsConfig =>
    let accountName := aws.ToString y.AccountName
    let profileName := accountName
    let sectionName := "profile " ++ profileName
    let added : ConfigParser × List Event :=
      if !awsConfig.HasSection sectionName then
        (awsConfig.after (awsConfig.AddSection sectionName),
          [Event.print (Notice.addingProfile profileName)])
      else (awsConfig, [])
    let c1 := added.1.after (added.1.Set sectionName "sso_account_id" (aws.ToString y.AccountId))
    let c2 := c1.after (c1.Set sectionName "sso_role_name" appCfg.SSORole)
    let c3 := c2.after (c2.Set sectionName "sso_region" appCfg.SSORegion)
    let c4 := c3.after (c3.Set sectionName "sso_start_url" appCfg.SSOStartURL)
    let c5 := c4.after (c4.Set sectionName "region" appCfg.DefaultRegion)
    let next := generateAwsConfigFile.loop appCfg accounts c5
    (next.1, added.2 ++ next.2)

/-- Go `generateAwsConfigFile`, on the disk `d`: the returned error (or the
exit of the process in `log.Fatal`), the disk afterwards, and the effects. -/
def generateAwsConfigFile (ssoClient : SSOClient) (token : Option String)
    (configFile : String) (diff : Bool) (appCfg : appconfig.Config) (d : Disk) :
    Outcome (Option String) × Disk × List Event :=
  let configFileNew := configFile ++ ".new"
  match configparser.NewConfigParserFromFile d configFile with
  | .error err =>
    (Outcome.exited 1, d, [Event.parseConfigFile configFile, Event.logFatal err])
  | .ok awsConfig =>
    let listAccountsInput : sso.ListAccountsInput :=
      { AccessToken := token, MaxResults := none, NextToken := none }
    match ssoClient.ListAccounts listAccountsInput with
    | .error err =>
      (Outcome.returned (some err), d,
        [Event.parseConfigFile configFile, Event.print Notice.fetchingAccounts,
          Event.withTimeout 30, Event.listAccounts listAccountsInput,
          Event.print (Notice.errorFetchingAccounts err), Event.cancel])
    | .ok accountsResult =>
      let updated := generateAwsConfigFile.loop appCfg accountsResult.AccountList awsConfig
      let before : List Event :=
        [Event.parseConfigFile configFile, Event.print Notice.fetchingAccounts,
          Event.withTimeout 30, Event.listAccounts listAccountsInput] ++
        (updated.2 ++ [Event.saveConfigFile configFileNew])
      match d.saveError configFileNew with
      | some failure =>
        (Outcome.returned (some ("failed to save config file: " ++ failure.err)),
          d.write configFileNew failure.leaves, before ++ [Event.cancel])
      | none =>
        let saved := d.write configFileNew (some (FileContent.config updated.1))
        let shown := if diff then showFileDiff saved configFile configFileNew else []
        match saved.renameError configFileNew configFile with
        | some err =>
          (Outcome.returned (some ("failed to rename config file: " ++ err)), saved,
            before ++ (shown ++ [Event.rename configFileNew configFile, Event.cancel]))
        | none =>
          (Outcome.returned none, saved.rename configFileNew configFile,
            before ++ (shown ++ [Event.rename configFileNew configFile, Event.cancel]))

/-- Go `cmd` of the generate command: its injected dependencies, and the
three library calls of `Run` that reach outside it.  `flagsParse` is
`c.flags.Parse(args)`, giving the values of `c.diff` and `c.configFile`;
`appconfigLoad` is `appconfig.Load` and `appconfigDefault` is
`appconfig.Default()` on this host. -/
structure cmd where
  flagsParse : List String → Except String (Bool × String)
  ssoClientFactory : aws.Config → SSOClient
  tokenGenerator : aws.Config → appconfig.Config → Option String × List Event
  configLoader : aws.Config
  appconfigLoad : String → Except String appconfig.Config
  appconfigDefault : appconfig.Config

/-- The steps of `Run` once the application configuration is loaded. -/
def cmd.runWith (c : cmd) (diff : Bool) (appCfg : appconfig.Config) (d : Disk) :
    Outcome Nat × Disk × List Event :=
  match appCfg.Validate with
  | some err => (Outcome.returned 1, d, [Event.uiError ("Configuration error: " ++ err)])
  | none =>
    let configFile := appCfg.ConfigFile
    let cfg := c.configLoader
    let token := c.tokenGenerator cfg appCfg
    let ssoClient := c.ssoClientFactory cfg
    let generated := generateAwsConfigFile ssoClient token.1 configFile diff appCfg d
    match generated.1 with
    | Outcome.exited code => (Outcome.exited code, generated.2.1, token.2 ++ generated.2.2)
    | Outcome.returned (some _) => (Outcome.returned 1, generated.2.1, token.2 ++ generated.2.2)
    | Outcome.returned none => (Outcome.returned 0, generated.2.1, token.2 ++ generated.2.2)

/-- Go `(*cmd).Run`. -/
def cmd.Run (c : cmd) (args : List String) (d : Disk) : Outcome Nat × Disk × List Event :=
  match c.flagsParse args with
  | .error _ => (Outcome.returned 1, d, [])
  | .ok (diff, configFile) =>
    if configFile ≠ "" then
      match c.appconfigLoad configFile with
      | .error err => (Outcome.returned 1, d, [Event.uiError ("Configuration error: " ++ err)])
      | .ok appCfg => c.runWith diff appCfg d
    else c.runWith diff c.appconfigDefault d

/-! ## Vocabulary of the statements about the generate command -/

/-- A provider whose browser opener fails and whose token poller answers
with a token at once. -/
def failingBrowserProvider : AWSProvider where
  SSOOIDCClient := scriptedClient grantedAtThird
  BrowserOpener := fun _ => some "browser open error"
  TokenPoller := fun _ _ _ => (some "test-access-token", [])
  Cfg := ⟨"us-east-1"⟩

/-- The account `Prod`. -/
def prodAccount : types.AccountInfo :=
  { AccountId := some "123456789012", AccountName := some "Prod", EmailAddress := none }

/-- The account `Dev`. -/
def devAccount : types.AccountInfo :=
  { AccountId := some "987654321098", AccountName := some "Dev", EmailAddress := none }

/-- An SSO client that answers every `ListAccounts` call, whatever the
token, with the one page `accounts`, and `ListAccountRoles` with one role. -/
def onePageClient (accounts : List types.AccountInfo) : SSOClient where
  ListAccounts := fun _ => .ok ⟨accounts, none⟩
  ListAccountRoles := fun input => .ok ⟨[⟨input.AccountId, some "AdministratorAccess"⟩], none⟩

/-- An SSO client whose calls all fail with "API error". -/
def failingSSOClient : SSOClient where
  ListAccounts := fun _ => .error "API error"
  ListAccountRoles := fun _ => .error "API error"

/-- An identity provider that returns the accounts over two pages: `Prod`
with the continuation token "page-2", then, for that token, `Dev`. -/
def twoPageClient : SSOClient where
  ListAccounts := fun input =>
    if input.NextToken = none then .ok ⟨[prodAccount], some "page-2"⟩
    else if input.NextToken = some "page-2" then .ok ⟨[devAccount], none⟩
    else .error "invalid continuation token"
  ListAccountRoles := fun _ => .error "API error"

/-- The listing C16 asks for: the pages of `ListAccounts` followed through
their continuation tokens, at most `fuel` pages, concatenated in order. -/
def allPages (ssoClient : SSOClient) (token : Option String) :
    Nat → Option String → List types.AccountInfo
  | 0, _ => []
  | fuel + 1, next =>
    match ssoClient.ListAccounts ⟨token, none, next⟩ with
    | .error _ => []
    | .ok page =>
      page.AccountList ++
        (match page.NextToken with
          | none => []
          | some n => allPages ssoClient token fuel (some n))

/-- A config file with the one section `[default]`, `region = us-east-1`. -/
def defaultOnly : ConfigParser :=
  ⟨[⟨"default", [("region", "us-east-1")]⟩]⟩

/-- A disk without faults that holds `parser` at "/home/u/.aws/config". -/
def diskWith (parser : ConfigParser) : Disk where
  files := fun path =>
    if path = "/home/u/.aws/config" then some (FileContent.config parser) else none
  saveError := fun _ => none
  renameError := fun _ _ => none

/-- The generate command with a token generator that yields no token and
an SSO client that answers `ListAccounts` with `Prod`, whatever the token. -/
def nilTokenCmd : cmd where
  flagsParse := fun _ => .ok (false, "")
  ssoClientFactory := fun _ => onePageClient [prodAccount]
  tokenGenerator := fun _ _ => (none, [])
  configLoader := ⟨"us-east-1"⟩
  appconfigLoad := fun _ => .error "not used"
  appconfigDefault := sampleAppCfg

/-! ## Vocabulary of the statements about the profile update -/

/-- The five keys that `generateAwsConfigFile` manages. -/
def managedKeys : List String :=
  ["sso_account_id", "sso_role_name", "sso_region", "sso_start_url", "region"]

/-- The name of the section of an account: "profile " and the account name. -/
def sectionOf (y : types.AccountInfo) : String :=
  "profile " ++ aws.ToString y.AccountName

/-- The five assignments made for an account, in the order of the code. -/
def profileOptions (appCfg : appconfig.Config) (y : types.AccountInfo) :
    List (String × String) :=
  [("sso_account_id", aws.ToString y.AccountId), ("sso_role_name", appCfg.SSORole),
    ("sso_region", appCfg.SSORegion), ("sso_start_url", appCfg.SSOStartURL),
    ("region", appCfg.DefaultRegion)]

/-- The value of `key` in a list of options. -/
def lookupOption (key : String) (options : List (String × String)) : Option String :=
  (options.find? (fun kv => kv.1 == key)).map (fun kv => kv.2)

/-- Several assignments, one after the other. -/
def setMany (kvs : List (String × String)) (options : List (String × String)) :
    List (String × String) :=
  kvs.foldl (fun o kv => setOption kv.1 kv.2 o) options

/-- The section with `f` applied to its options if it is named
`sectionName`, and as it is otherwise. -/
def modSection (sectionName : String) (f : List (String × String) → List (String × String))
    (s : Section) : Section :=
  if s.name = sectionName then ⟨s.name, f s.options⟩ else s

/-- The sections with an empty section `sectionName` added at the end if
none has that name. -/
def ensureSection (sectionName : String) (sections : List Section) : List Section :=
  if sections.any (fun s => s.name == sectionName) then sections
  else sections ++ [⟨sectionName, []⟩]

/-- The sections with the missing sections of the accounts added, in the
order of the accounts. -/
def ensureAll : List types.AccountInfo → List Section → List Section
  | [], sections => sections
  | y :: accounts, sections => ensureAll accounts (ensureSection (sectionOf y) sections)

/-- The assignments of all accounts of the list that are for this section,
applied to it in the order of the accounts. -/
def applyProfiles (appCfg : appconfig.Config) : List types.AccountInfo → Section → Section
  | [], s => s
  | y :: accounts, s =>
    applyProfiles appCfg accounts
      (modSection (sectionOf y) (setMany (profileOptions appCfg y)) s)

/-- A config with `[default]` and an existing `[profile Prod]` that holds an
old account id and a key of the user. -/
def withOldProd : ConfigParser :=
  ⟨[⟨"profile Prod", [("sso_account_id", "000000000000"), ("output", "json")]⟩,
    ⟨"default", [("region", "us-east-1")]⟩]⟩

/-! ## Vocabulary of the statements about failures of the generate command -/

/-- True on `os.Rename` calls. -/
def Event.isRename : Event → Bool
  | Event.rename _ _ => true
  | _ => false

/-- True on the creation of a timeout context. -/
def Event.isWithTimeout : Event → Bool
  | Event.withTimeout _ => true
  | _ => false

/-- A disk that holds `parser` at "/home/u/.aws/config" and on which every
rename fails. -/
def renameFailsDisk (parser : ConfigParser) : Disk where
  files := fun path =>
    if path = "/home/u/.aws/config" then some (FileContent.config parser) else none
  saveError := fun _ => none
  renameError := fun _ _ => some "permission denied"

/-- A disk without any file. -/
def emptyDisk : Disk where
  files := fun _ => none
  saveError := fun _ => none
  renameError := fun _ _ => none

/-- A disk whose "/home/u/.aws/config" does not parse. -/
def brokenConfigDisk : Disk where
  files := fun path =>
    if path = "/home/u/.aws/config" then
      some (FileContent.unparsable "could not parse line 1") else none
  saveError := fun _ => none
  renameError := fun _ _ => none

/-- The generate command with a token generator that yields a token and an
SSO client that answers `ListAccounts` with `Prod`. -/
def tokenCmd : cmd where
  flagsParse := fun _ => .ok (false, "")
  ssoClientFactory := fun _ => onePageClient [prodAccount]
  tokenGenerator := fun _ _ => (some "tok", [])
  configLoader := ⟨"us-east-1"⟩
  appconfigLoad := fun _ => .error "not used"
  appconfigDefault := sampleAppCfg

/-! ## `providers/config`: defaults -/

namespace filepath

/-- Go `filepath.Join` of several elements: empty elements are ignored and
the others are joined by the separator (the elements are taken clean and
without a separator at their end, so that the cleaning of the result changes
nothing; the result is used as the text of a path only). -/
def JoinAll (elems : List String) : String :=
  match elems.filter (fun e => e ≠ "") with
  | [] => ""
  | e :: es => es.foldl (fun acc x => acc ++ "/" ++ x) e

end filepath

namespace appconfig

/-- Go `(*SSOConfig).SetDefaults`. -/
def SSOConfig.SetDefaults (s : SSOConfig) : SSOConfig :=
  let s1 := if s.StartURL = "" then
    { s with StartURL := "https://your-sso-portal.awsapps.com/start" } else s
  let s2 := if s1.Region = "" then { s1 with Region := "us-east-1" } else s1
  if s2.Role = "" then { s2 with Role := "AdministratorAccess" } else s2

/-- Go `(*AWSConfig).SetDefaults`; `home` is what `homedir.Dir()` returns
(the empty string when it fails, the error being ignored). -/
def AWSConfig.SetDefaults (home : String) (a : AWSConfig) : AWSConfig :=
  let a1 := if a.DefaultRegion = "" then { a with DefaultRegion := "us-east-1" } else a
  if a1.ConfigFile = "" then
    { a1 with ConfigFile := filepath.JoinAll [home, ".aws", "config"] }
  else a1

/-- Go `(*Config).SetDefaults`. -/
def Config.SetDefaults (home : String) (c : Config) : Config :=
  { SSO := c.SSO.SetDefaults, AWS := c.AWS.SetDefaults home }

end appconfig

/-! ## `command/config/shared` -/

namespace shared

/-- Go constant `KeySSOStartURL`. -/
def KeySSOStartURL : String := "sso.start_url"

/-- Go constant `KeySSORegion`. -/
def KeySSORegion : String := "sso.region"

/-- Go constant `KeySSORole`. -/
def KeySSORole : String := "sso.role"

/-- Go constant `KeyAWSDefaultRegion`. -/
def KeyAWSDefaultRegion : String := "aws.default_region"

/-- Go constant `KeyAWSConfigFile`. -/
def KeyAWSConfigFile : String := "aws.config_file"

/-- Go variable `ValidKeys`. -/
def ValidKeys : List String :=
  [KeySSOStartURL, KeySSORegion, KeySSORole, KeyAWSDefaultRegion, KeyAWSConfigFile]

/-- Go `IsValidKey`. -/
def IsValidKey (key : String) : Bool :=
  ValidKeys.any (fun validKey => key == validKey)

/-- Go `GetConfigValue`: the value and the error. -/
def GetConfigValue (config : appconfig.Config) (key : String) : String × Option String :=
  if key = KeySSOStartURL then (config.SSO.StartURL, none)
  else if key = KeySSORegion then (config.SSO.Region, none)
  else if key = KeySSORole then (config.SSO.Role, none)
  else if key = KeyAWSDefaultRegion then (config.AWS.DefaultRegion, none)
  else if key = KeyAWSConfigFile then (config.AWS.ConfigFile, none)
  else ("", some ("unknown configuration key: " ++ key))

/-- Go `SetConfigValue`: the config after the call (it is changed in place)
and the error. -/
def SetConfigValue (config : appconfig.Config) (key value : String) :
    appconfig.Config × Option String :=
  if key = KeySSOStartURL then ({ config with SSO := { config.SSO with StartURL := value } }, none)
  else if key = KeySSORegion then
    ({ config with SSO := { config.SSO with Region := value } }, none)
  else if key = KeySSORole then ({ config with SSO := { config.SSO with Role := value } }, none)
  else if key = KeyAWSDefaultRegion then
    ({ config with AWS := { config.AWS with DefaultRegion := value } }, none)
  else if key = KeyAWSConfigFile then
    ({ config with AWS := { config.AWS with ConfigFile := value } }, none)
  else (config, some ("unknown configuration key: " ++ key))

end shared

/-! ## Vocabulary of the statements about the pace and the deadline of polling -/

/-- The pace of the `CreateToken` calls in a trace, for sleeps of `seconds`
seconds; `rested` says that no call was made since the last sleep, or at
all.  A call needs `rested`; a sleep needs a call since the last sleep and
lasts `seconds` seconds. -/
def paced (seconds : Nat) : Bool → List Event → Bool
  | _, [] => true
  | rested, e :: es =>
    if e.isCreateToken then rested && paced seconds false es
    else if e.isSleep then
      !rested && decide (e = Event.sleep seconds) && paced seconds true es
    else paced seconds rested es

/-- The effects of `n` consecutive loop iterations of `pollForToken` that
each receive a pending-class response, from attempt `attempt` on: the call,
the progress line on every 6th attempt, and one sleep of 5 seconds. -/
def fiveSecondRounds (input : CreateTokenInput) : Nat → Nat → List Event
  | _, 0 => []
  | attempt, n + 1 =>
    Event.createToken input ::
      ((if attempt % 6 = 0 then [Event.print (Notice.stillWaiting attempt 30)] else []) ++
        Event.sleep 5 :: fiveSecondRounds input (attempt + 1) n)

/-- One pending response, then a token. -/
def grantedAtSecond : Nat → Except String CreateTokenOutput
  | 1 => .error "AuthorizationPendingException: authorization_pending"
  | _ => .ok ⟨some "fresh-token"⟩

/-- True on the release of a timeout context. -/
def Event.isCancel : Event → Bool
  | Event.cancel => true
  | _ => false

/-- The responses seen through one context whose deadline is `seconds` after
the start of polling: call `n` starts after `n - 1` sleeps of `interval`
seconds, so once `(n - 1) * interval` reaches `seconds` the call fails with
the error of the context instead of reaching the backend. -/
def underDeadline (seconds : Nat) (responses : Nat → Except String CreateTokenOutput) :
    Nat → Except String CreateTokenOutput :=
  fun n =>
    if seconds ≤ (n - 1) * interval then
      .error "operation error SSO OIDC: CreateToken, context deadline exceeded"
    else responses n

/-! ## `internal/pager`: the choice of the pager command -/

namespace unicode

/-- Go `unicode.IsSpace`: the white space characters of Unicode. -/
def IsSpace (r : Char) : Bool :=
  let n := r.toNat
  (decide (9 ≤ n) && decide (n ≤ 13)) || n == 32 || n == 0x85 || n == 0xA0 || n == 0x1680 ||
    (decide (0x2000 ≤ n) && decide (n ≤ 0x200A)) || n == 0x2028 || n == 0x2029 ||
    n == 0x202F || n == 0x205F || n == 0x3000

end unicode

namespace strings

/-- The fields of a character list; `cur` holds the characters of the field
being read, last one first. -/
def fieldsList : List Char → List Char → List String
  | cur, [] => if cur = [] then [] else [String.mk cur.reverse]
  | cur, c :: cs =>
    if unicode.IsSpace c then
      if cur = [] then fieldsList [] cs else String.mk cur.reverse :: fieldsList [] cs
    else fieldsList (c :: cur) cs

/-- Go `strings.Fields`: the maximal runs of characters that are not white
space, in order. -/
def Fields (s : String) : List String :=
  fieldsList [] s.data

/-- The number of characters before the last `c` of a character list. -/
def lastIndexList (c : Char) : List Char → Option Nat
  | [] => none
  | x :: xs =>
    match lastIndexList c xs with
    | some i => some (i + 1)
    | none => if x = c then some 0 else none

/-- Go `strings.LastIndex(s, substr)` for a `substr` of the one character
`c`, counted in characters; `none` is the `-1` of Go. -/
def LastIndex (s : String) (c : Char) : Option Nat :=
  lastIndexList c s.data

end strings

namespace pager

/-- The keys of the Go map `allowedPagers` of `isValidPagerCommand` (all map
to `true`; a key that is absent reads as `false`). -/
def allowedPagers : List String :=
  ["less", "more", "most", "cat", "bat", "pg", "pager"]

/-- Go `containsDangerousChars`. -/
def containsDangerousChars (s : String) : Bool :=
  [";", "&", "|", "\x60", "$", "(", ")", "\x7b", "\x7d",
    "<", ">", "!", "*", "?", "[", "]", "~", "^"].any (fun char => strings.Contains s char)

/-- Go `isValidPagerCommand`; `lookPath prog` says that `exec.LookPath(prog)`
returns no error. -/
def isValidPagerCommand (lookPath : String → Bool) (pagerCmd : String) : Bool :=
  match strings.Fields pagerCmd with
  | [] => false
  | baseProg :: args =>
    if !lookPath baseProg then false
    else
      let progName :=
        match strings.LastIndex baseProg '/' with
        | some lastSlash => String.mk (baseProg.data.drop (lastSlash + 1))
        | none => baseProg
      if !allowedPagers.contains progName then false
      else if args.any containsDangerousChars then false
      else true

/-- The `for _, pager := range pagers` loop of `getPagerCommand`. -/
def getPagerCommand.loop (lookPath : String → Bool) : List String → String
  | [] => ""
  | pager :: pagers =>
    match strings.Fields pager with
    | [] => getPagerCommand.loop lookPath pagers
    | first :: _ => if lookPath first then pager else getPagerCommand.loop lookPath pagers

/-- Go `getPagerCommand`; `getenv` is `os.Getenv`. -/
def getPagerCommand (getenv : String → String) (lookPath : String → Bool) : String :=
  if getenv "PAGER" ≠ "" ∧ isValidPagerCommand lookPath (getenv "PAGER") = true then
    getenv "PAGER"
  else if getenv "AWS_SSO_CONFIG_PAGER" ≠ "" ∧
      isValidPagerCommand lookPath (getenv "AWS_SSO_CONFIG_PAGER") = true then
    getenv "AWS_SSO_CONFIG_PAGER"
  else getPagerCommand.loop lookPath ["less -R", "less", "more", "cat"]

/-- The characters that `containsDangerousChars` looks for; the three given
by their code are the backquote and the two braces. -/
def dangerousCharacters : List Char :=
  [';', '&', '|', Char.ofNat 96, '$', '(', ')', Char.ofNat 123, Char.ofNat 125,
    '<', '>', '!', '*', '?', '[', ']', '~', '^']

/-- An environment in which only `PAGER` is set. -/
def pagerOnly (value : String) : String → String :=
  fun key => if key = "PAGER" then value else ""

end pager

/-! ## `providers/aws/profiles.go`: the account id of the repository -/

namespace strings

/-- Go `strings.Trim`: `s` without its leading and trailing characters that
are in `cutset`. -/
def Trim (s cutset : String) : String :=
  String.mk (((s.data.dropWhile (fun c => cutset.data.contains c)).reverse.dropWhile
    (fun c => cutset.data.contains c)).reverse)

end strings

namespace bufio

/-- Go `bufio.MaxScanTokenSize`, the size to which the buffer of a `Scanner`
grows. -/
def MaxScanTokenSize : Nat := 64 * 1024

/-- The number of bytes of the UTF-8 encoding of the characters. -/
def byteLen (data : List Char) : Nat :=
  (data.map Char.utf8Size).sum

/-- Go `dropCR`: the data without one final carriage return. -/
def dropCR (data : List Char) : List Char :=
  if data.getLast? = some (Char.ofNat 13) then data.dropLast else data

/-- The lines of the content, each without the line feed that ends it; what
comes after the last line feed is a line unless it is empty.  `cur` holds the
characters of the line being read, last one first. -/
def rawLines : List Char → List Char → List (List Char)
  | cur, [] => if cur = [] then [] else [cur.reverse]
  | cur, c :: cs =>
    if c = Char.ofNat 10 then cur.reverse :: rawLines [] cs else rawLines (c :: cur) cs

/-- The texts that the calls of `Scan` give for a `Scanner` with the split
function `bufio.ScanLines` and its own buffer, on a content of valid UTF-8:
the lines in order, without their end-of-line marker.  A line of
`MaxScanTokenSize` bytes or more does not fit in the buffer together with its
line feed: `Scan` then returns false (the error is `ErrTooLong`) and that
line and the lines after it are not given. -/
def Scanner.tokens (content : String) : List String :=
  ((rawLines [] content.data).takeWhile
    (fun line => decide (byteLen line < MaxScanTokenSize))).map
      (fun line => String.mk (dropCR line))

end bufio

/-- The `for fileScanner.Scan()` loop of `validateAccountID`, over the lines
still to come: the value of `accountIDFromTerragrunt` after the loop. -/
def validateAccountID.loop : List String → String
  | [] => ""
  | line :: lines =>
    let lineFields := strings.Fields line
    if lineFields.length < 3 then validateAccountID.loop lines
    else if lineFields.getD 0 "" ≠ "account_id" then validateAccountID.loop lines
    else strings.Trim (lineFields.getD 2 "") "\x22"

/-- Go `validateAccountID`; `osOpen path` is the content of the file that
`os.Open(path)` opens, `none` when it returns an error.  The returned error
is given by its message; the warning of the deferred `Close` is left out. -/
def validateAccountID (osOpen : String → Option String) (accountID rootDir : String) :
    Option String :=
  let terragruntFile := filepath.JoinAll [rootDir, "terragrunt.hcl"]
  match osOpen terragruntFile with
  | none => some ("could not find terragrunt.hcl at root of git repo " ++ rootDir)
  | some content =>
    let accountIDFromTerragrunt := validateAccountID.loop (bufio.Scanner.tokens content)
    if accountIDFromTerragrunt = "" then
      some ("could not determine account id from " ++ terragruntFile)
    else if accountIDFromTerragrunt ≠ accountID then
      some ("account id " ++ accountID ++
        " determined from profile did not match entry in terragrunt file " ++ terragruntFile)
    else none

/-! ## Vocabulary of the statements about the account id -/

/-- A line with at least three whitespace-separated fields, the first of
which is "account_id". -/
def isAccountIDLine (line : String) : Bool :=
  match strings.Fields line with
  | first :: _ :: _ :: _ => first == "account_id"
  | _ => false

/-- The third field of a line without the double quotes around it (the empty
string for a line of fewer fields). -/
def accountIDOfLine (line : String) : String :=
  match strings.Fields line with
  | _ :: _ :: third :: _ => strings.Trim third "\x22"
  | _ => ""

/-- All the lines of a content, without their end-of-line marker. -/
def contentLines (content : String) : List String :=
  (bufio.rawLines [] content.data).map (fun line => String.mk (bufio.dropCR line))

/-- The `terragrunt.hcl` of the tests of the repository. -/
def sampleTerragrunt : String :=
  "\ninputs = \x7b\n  account_id = \x22123456789012\x22\n  region     = \x22eu-west-1\x22\n\x7d\n"

/-- A `terragrunt.hcl` whose first line is `MaxScanTokenSize` times the
letter x, and whose second line gives the account id. -/
def longLineTerragrunt : String :=
  String.mk (List.replicate bufio.MaxScanTokenSize 'x' ++
    Char.ofNat 10 :: "account_id = \x22123456789012\x22".data)

/-! ## Vocabulary of the statements about the report of a timeout -/

namespace strings

/-- The order of Go on strings, on character lists: the first character that
differs decides, and a proper beginning comes first.  (Go compares the bytes
of the UTF-8 encoding, which orders valid strings as their code points do.) -/
def lessEqList : List Char → List Char → Bool
  | [], _ => true
  | _ :: _, [] => false
  | a :: as, b :: bs =>
    if a.toNat < b.toNat then true
    else if b.toNat < a.toNat then false
    else lessEqList as bs

/-- Go `s <= t` on strings, the order of `sort.Strings`. -/
def LessEq (s t : String) : Bool :=
  lessEqList s.data t.data

end strings

/-- The library's `Sections()`, which `SaveWithDelimiter` goes through to
write the file: the library (not part of the sources) keeps the sections in a
Go map, without an order of their own, and gives their names sorted by
`sort.Strings`.  These are the section headers of a saved file, in the order
of the file. -/
def ConfigParser.Sections (p : ConfigParser) : List String :=
  (p.sections.map Section.name).insertionSort (fun a b => strings.LessEq a b = true)

/-- The section headers of the file at `path`, in the order of the file, for
a file that `SaveWithDelimiter` wrote. -/
def Disk.savedSections (d : Disk) (path : String) : List String :=
  match d.files path with
  | some (FileContent.config parser) => parser.Sections
  | _ => []

/-! ## `go-configparser` as `WriteSectionToConfig` meets it -/

namespace strings

/-- Go `strings.TrimSpace`: `s` without its leading and trailing white
space. -/
def TrimSpace (s : String) : String :=
  String.mk (((s.data.dropWhile unicode.IsSpace).reverse.dropWhile unicode.IsSpace).reverse)

end strings

namespace configparser

/-- The name that the library reserves for the section of the defaults. -/
def defaultSectionName : String := "DEFAULT"

/-- The state of a `configparser.ConfigParser` as `HasSection`, `AddSection`,
`Set` and `Get` tell it.  The library (not part of the sources) keeps the
sections other than `DEFAULT` in a Go map by name, and in each section the
options under a lookup key, the key in lower case without the white space
around it, so that keys that differ in case only are one option; the
`DEFAULT` section is kept apart and gives the value of an option that a
section does not hold.  An error of the library is given by a message of this
model, not by the library's own text. -/
structure ConfigParser where
  /-- Go `strings.ToLower`, which follows the case tables of Unicode. -/
  toLower : String → String
  /-- The options of each section that is present, by lookup key. -/
  config : String → Option (String → Option String)
  /-- The options of the `DEFAULT` section, by lookup key. -/
  defaults : String → Option String

namespace ConfigParser

/-- The library's `safeKey`: `strings.ToLower(strings.TrimSpace(key))`. -/
def safeKey (p : ConfigParser) (key : String) : String :=
  p.toLower (strings.TrimSpace key)

/-- The parser with the options `options` for the section `sectionName`. -/
def withSection (p : ConfigParser) (sectionName : String) (options : String → Option String) :
    ConfigParser :=
  { p with config := fun name => if name = sectionName then some options else p.config name }

/-- The options with `value`, trimmed by the library's `safeValue`, under the
lookup key of `key`: the library's `Section.Add`. -/
def add (p : ConfigParser) (options : String → Option String) (key value : String) :
    String → Option String :=
  fun lookupKey =>
    if lookupKey = p.safeKey key then some (strings.TrimSpace value) else options lookupKey

/-- The library's `HasSection`: the name is a key of the map of sections,
which the reserved name never is. -/
def HasSection (p : ConfigParser) (sectionName : String) : Bool :=
  if sectionName = defaultSectionName then false else (p.config sectionName).isSome

/-- The library's `AddSection`: an error for the reserved name and for a
name that is present, a new section without options otherwise. -/
def AddSection (p : ConfigParser) (sectionName : String) : Except String ConfigParser :=
  if sectionName = defaultSectionName then
    .error ("cannot add the default section " ++ sectionName)
  else if p.HasSection sectionName then
    .error ("section " ++ sectionName ++ " already exists")
  else .ok (p.withSection sectionName (fun _ => none))

/-- The library's `Set`: the option is added to the defaults for the
reserved name and to the named section otherwise; a missing section is an
error. -/
def Set (p : ConfigParser) (sectionName option value : String) : Except String ConfigParser :=
  if sectionName = defaultSectionName then
    .ok { p with defaults := p.add p.defaults option value }
  else
    match p.config sectionName with
    | none => .error ("no section: " ++ sectionName)
    | some options => .ok (p.withSection sectionName (p.add options option value))

/-- The library's `Get`: the value of the option in the named section, or
else in the defaults; `none` is the library's error. -/
def Get (p : ConfigParser) (sectionName option : String) : Option String :=
  if sectionName = defaultSectionName then p.defaults (p.safeKey option)
  else
    match p.config sectionName with
    | none => none
    | some options =>
      match options (p.safeKey option) with
      | some value => some value
      | none => p.defaults (p.safeKey option)

end ConfigParser

end configparser

/-! ## `command/generate/generator.go`: writing a section -/

/-- The `for key, value := range values` loop of `WriteSectionToConfig`, over
the entries of the map in the order in which the run visits them: the error
and the parser after the loop. -/
def ConfigGenerator.WriteSectionToConfig.loop (sectionName : String) :
    List (String × String) → configparser.ConfigParser →
      Option String × configparser.ConfigParser
  | [], configParser => (none, configParser)
  | (key, value) :: values, configParser =>
    match configParser.Set sectionName key value with
    | .error err =>
      (some ("failed to set " ++ key ++ "=" ++ value ++ " in section " ++ sectionName ++
        ": " ++ err), configParser)
    | .ok updated => ConfigGenerator.WriteSectionToConfig.loop sectionName values updated

/-- Go `(*ConfigGenerator).WriteSectionToConfig`.  The Go map `values` is
given by its entries in the order of the iteration (any order; the keys of a
map are distinct): the error and the parser after the call, which changes it
in place. -/
def ConfigGenerator.WriteSectionToConfig (_g : ConfigGenerator)
    (configParser : configparser.ConfigParser) (sectionName : String)
    (values : List (String × String)) : Option String × configparser.ConfigParser :=
  if !configParser.HasSection sectionName then
    match configParser.AddSection sectionName with
    | .error err =>
      (some ("failed to add section " ++ sectionName ++ ": " ++ err), configParser)
    | .ok added => ConfigGenerator.WriteSectionToConfig.loop sectionName values added
  else ConfigGenerator.WriteSectionToConfig.loop sectionName values configParser

/-! ## Vocabulary of the statements about writing a section -/

/-- The options after all entries of `values` were added, one after the
other. -/
def configparser.ConfigParser.addAll (p : configparser.ConfigParser)
    (values : List (String × String)) (options : String → Option String) :
    String → Option String :=
  values.foldl (fun o kv => p.add o kv.1 kv.2) options

/-- A lower-casing that agrees with `strings.ToLower` on text whose letters
are ASCII: the letters A to Z are mapped to a to z. -/
def asciiToLower (s : String) : String :=
  String.mk (s.data.map (fun c =>
    if 65 ≤ c.toNat ∧ c.toNat ≤ 90 then Char.ofNat (c.toNat + 32) else c))

/-- A parser that holds `[profile Prod]` with `region = us-east-1` and
`output = json`, and no defaults. -/
def prodParser : configparser.ConfigParser where
  toLower := asciiToLower
  config := fun name =>
    if name = "profile Prod" then
      some (fun lookupKey =>
        if lookupKey = "region" then some "us-east-1"
        else if lookupKey = "output" then some "json"
        else none)
    else none
  defaults := fun _ => none

/-! ## The token cache: lemmas -/

theorem getCurrentToken.loop_result (w : World) (dir : String) (entries : List String) :
    (getCurrentToken.loop w dir entries).1 = (entries.filterMap (acceptedUpTo w dir)).head? := by
  induction entries with
  | nil => rfl
  | cons name entries ih =>
    rw [List.filterMap_cons]
    unfold getCurrentToken.loop
    simp only [acceptedUpTo, candidate, cacheRecord]
    cases hs : strings.HasSuffix name ".json"
    · simpa using ih
    · cases hr : w.readFile (filepath.Join dir name) with
      | none => simpa using ih
      | some byteValue =>
        cases hu : w.unmarshal byteValue with
        | none => simpa [hu] using ih
        | some e =>
          by_cases h1 : e.AccessToken = ""
          · simpa [hu, h1, Option.filter] using ih
          · cases h2 : e.ExpiresAt.IsZero
            · by_cases h3 : e.ExpiresAt.nanos < w.now.nanos
              · have : ¬ w.now.nanos ≤ e.ExpiresAt.nanos := by omega
                simpa [hu, h1, h2, h3, this, Option.filter, Time.After] using ih
              · have : w.now.nanos ≤ e.ExpiresAt.nanos := by omega
                simp [hu, h1, h2, h3, this, Option.filter, Time.After]
            · simpa [hu, h1, h2, Option.filter] using ih

theorem getCurrentToken.loop_reads (w : World) (dir : String) (entries : List String) :
    ∀ ev ∈ (getCurrentToken.loop w dir entries).2,
      ∃ name ∈ entries, strings.HasSuffix name ".json" = true ∧
        ev = Event.readFile (filepath.Join dir name) := by
  induction entries with
  | nil => intro ev hev; simp [getCurrentToken.loop] at hev
  | cons name entries ih =>
    have hrest : ∀ ev ∈ (getCurrentToken.loop w dir entries).2,
        ∃ n ∈ name :: entries, strings.HasSuffix n ".json" = true ∧
          ev = Event.readFile (filepath.Join dir n) := by
      intro ev hev
      obtain ⟨n, hn, hs, he⟩ := ih ev hev
      exact ⟨n, List.mem_cons_of_mem _ hn, hs, he⟩
    intro ev hev
    unfold getCurrentToken.loop at hev
    cases hs : strings.HasSuffix name ".json"
    · simp only [hs, Bool.not_false, if_true] at hev
      exact hrest ev hev
    · have hhere : ∃ n ∈ name :: entries, strings.HasSuffix n ".json" = true ∧
          Event.readFile (filepath.Join dir name) = Event.readFile (filepath.Join dir n) :=
        ⟨name, List.mem_cons_self _ _, hs, rfl⟩
      simp only [hs, Bool.not_true, Bool.false_eq_true, if_false] at hev
      split at hev
      · rcases List.mem_cons.mp hev with h | h
        · exact h ▸ hhere
        · exact hrest ev h
      · split at hev
        · rcases List.mem_cons.mp hev with h | h
          · exact h ▸ hhere
          · exact hrest ev h
        · split at hev
          · rcases List.mem_cons.mp hev with h | h
            · exact h ▸ hhere
            · exact hrest ev h
          · split at hev
            · rcases List.mem_cons.mp hev with h | h
              · exact h ▸ hhere
              · exact hrest ev h
            · rcases List.mem_cons.mp hev with h | h
              · exact h ▸ hhere
              · simp at h

theorem getCurrentToken_result (w : World) (home : String) (entries : List String)
    (hu : w.userCurrent = some home)
    (hd : w.readDir (filepath.Join home ".aws/sso/cache") = some entries) :
    (getCurrentToken w).1 =
      (entries.filterMap (acceptedUpTo w (filepath.Join home ".aws/sso/cache"))).head? := by
  unfold getCurrentToken
  simp only [hu, hd]
  exact getCurrentToken.loop_result w _ entries

theorem head?_filterMap_eq_none {α β : Type} (f : α → Option β) (l : List α)
    (h : ∀ a ∈ l, f a = none) : (l.filterMap f).head? = none := by
  induction l with
  | nil => rfl
  | cons a l ih =>
    rw [List.filterMap_cons, h a (List.mem_cons_self _ _)]
    exact ih (fun b hb => h b (List.mem_cons_of_mem _ hb))

theorem head?_filterMap_skip {α β : Type} (f : α → Option β) (pre post : List α) (a : α)
    (h : f a = none) :
    ((pre ++ a :: post).filterMap f).head? = ((pre ++ post).filterMap f).head? := by
  rw [List.filterMap_append, List.filterMap_append, List.filterMap_cons, h]

theorem head?_filterMap_first {α β : Type} (f : α → Option β) (pre post : List α) (a : α)
    (b : β) (hpre : ∀ x ∈ pre, f x = none) (h : f a = some b) :
    ((pre ++ a :: post).filterMap f).head? = some b := by
  induction pre with
  | nil => simp [List.filterMap_cons, h]
  | cons x pre ih =>
    rw [List.cons_append, List.filterMap_cons, hpre x (List.mem_cons_self _ _)]
    exact ih (fun y hy => hpre y (List.mem_cons_of_mem _ hy))

theorem acceptedUpTo_none_of_unusable (w : World) (dir name : String)
    (h : unusable w dir name = true) : acceptedUpTo w dir name = none := by
  unfold unusable at h
  unfold acceptedUpTo candidate
  cases hr : cacheRecord w dir name with
  | none => simp [Option.filter]
  | some e =>
    rw [hr] at h
    simp only [Bool.or_eq_true, decide_eq_true_eq] at h
    rcases h with h | h <;> simp [Option.filter, h]

/-! ## The token cache: claims -/

/-- C1, as stated, fails: a directory whose only record expires exactly at
`now` (so every record has `expiresAt ≤ now`) still yields that record's
token, because `time.Now().After(expiresAt)` is false at equality. -/
theorem getCurrentToken_returns_token_at_expiry :
    (∀ name ∈ ["a.json"], strings.HasSuffix name ".json" = true →
      ∀ e ∈ cacheRecord (cacheWorld ["a.json"] 100) "/home/u/.aws/sso/cache" name,
        e.ExpiresAt.nanos ≤ (cacheWorld ["a.json"] 100).now.nanos) ∧
    (getCurrentToken (cacheWorld ["a.json"] 100)).1 = some "tokA" := by
  decide

/-- C1, amended: `getCurrentToken` never returns the token of a record whose
`expiresAt` is strictly before `now`.  A returned token is the `accessToken`
of a ".json" record of the listing with `now ≤ expiresAt`, and if every
".json" record has `expiresAt < now` the result is absent. -/
theorem getCurrentToken_absent_of_expired (w : World) (home : String)
    (entries : List String) (hu : w.userCurrent = some home)
    (hd : w.readDir (filepath.Join home ".aws/sso/cache") = some entries) :
    (∀ t, (getCurrentToken w).1 = some t →
      ∃ name ∈ entries, strings.HasSuffix name ".json" = true ∧
        ∃ e ∈ cacheRecord w (filepath.Join home ".aws/sso/cache") name,
          e.AccessToken = t ∧ w.now.nanos ≤ e.ExpiresAt.nanos) ∧
    ((∀ name ∈ entries, strings.HasSuffix name ".json" = true →
        ∀ e ∈ cacheRecord w (filepath.Join home ".aws/sso/cache") name,
          e.ExpiresAt.nanos < w.now.nanos) →
      (getCurrentToken w).1 = none) := by
  have key : ∀ name t, acceptedUpTo w (filepath.Join home ".aws/sso/cache") name = some t →
      strings.HasSuffix name ".json" = true ∧
        ∃ e ∈ cacheRecord w (filepath.Join home ".aws/sso/cache") name,
          e.AccessToken = t ∧ w.now.nanos ≤ e.ExpiresAt.nanos := by
    intro name t ht
    unfold acceptedUpTo candidate at ht
    cases hs : strings.HasSuffix name ".json"
    · simp [hs, Option.filter] at ht
    · cases hr : cacheRecord w (filepath.Join home ".aws/sso/cache") name with
      | none => simp [hs, hr, Option.filter] at ht
      | some e =>
        simp only [hs, hr, if_true, Option.filter] at ht
        refine ⟨rfl, e, rfl, ?_⟩
        by_cases hc : (decide (e.AccessToken ≠ "") && !e.ExpiresAt.IsZero) = true
        · rw [if_pos hc] at ht
          by_cases hle : w.now.nanos ≤ e.ExpiresAt.nanos
          · simp only [decide_eq_true hle, if_true, Option.map_some', Option.some.injEq] at ht
            exact ⟨ht, hle⟩
          · simp [hle] at ht
        · rw [if_neg hc] at ht
          simp at ht
  rw [getCurrentToken_result w home entries hu hd]
  constructor
  · intro t ht
    have hmem := List.mem_of_mem_head? ht
    obtain ⟨name, hname, hacc⟩ := List.mem_filterMap.mp hmem
    exact ⟨name, hname, key name t hacc⟩
  · intro hexp
    apply head?_filterMap_eq_none
    intro name hname
    cases hacc : acceptedUpTo w (filepath.Join home ".aws/sso/cache") name with
    | none => rfl
    | some t =>
      obtain ⟨hs, e, he, _, hle⟩ := key name t hacc
      have := hexp name hname hs e he
      omega

/-- Witness of `getCurrentToken_absent_of_expired`: one record that expired
at 100, read at 101. -/
theorem getCurrentToken_absent_of_expired_witness :
    (getCurrentToken (cacheWorld ["a.json"] 101)).1 = none :=
  (getCurrentToken_absent_of_expired (cacheWorld ["a.json"] 101) "/home/u" ["a.json"]
    (by decide) (by decide)).2 (by decide)

/-- C2: a file that cannot be read, does not decode, has an empty
`accessToken` or a zero `expiresAt` is skipped: the result is the one
`getCurrentToken` gives for the same directory without that entry (so the
entry never supplies the result and never hides a later valid file); if all
".json" files are of this kind, or the directory cannot be read, the result
is absent.  `getCurrentToken` is a total function, so none of these cases is
a failure. -/
theorem getCurrentToken_skips_unusable (w : World) (home : String)
    (hu : w.userCurrent = some home) :
    (∀ pre name post,
      w.readDir (filepath.Join home ".aws/sso/cache") = some (pre ++ name :: post) →
      unusable w (filepath.Join home ".aws/sso/cache") name = true →
      (getCurrentToken w).1 = (getCurrentToken (w.withListing (pre ++ post))).1) ∧
    (∀ entries,
      w.readDir (filepath.Join home ".aws/sso/cache") = some entries →
      (∀ name ∈ entries, strings.HasSuffix name ".json" = true →
        unusable w (filepath.Join home ".aws/sso/cache") name = true) →
      (getCurrentToken w).1 = none) ∧
    (w.readDir (filepath.Join home ".aws/sso/cache") = none →
      (getCurrentToken w).1 = none) := by
  refine ⟨?_, ?_, ?_⟩
  · intro pre name post hd hbad
    rw [getCurrentToken_result w home _ hu hd,
      getCurrentToken_result (w.withListing (pre ++ post)) home (pre ++ post) hu rfl]
    exact head?_filterMap_skip _ pre post name (acceptedUpTo_none_of_unusable w _ name hbad)
  · intro entries hd hbad
    rw [getCurrentToken_result w home _ hu hd]
    apply head?_filterMap_eq_none
    intro name hname
    cases hs : strings.HasSuffix name ".json"
    · simp [acceptedUpTo, candidate, hs, Option.filter]
    · exact acceptedUpTo_none_of_unusable w _ name (hbad name hname hs)
  · intro hd
    unfold getCurrentToken
    simp only [hu, hd]

/-- Witness of `getCurrentToken_skips_unusable`: the undecodable `c.json`
listed before the valid `a.json` does not change the result, which is the
token of `a.json`; a directory holding only `c.json` (undecodable), `d.json`
(no fields) and `e.json` (unreadable) yields no token. -/
theorem getCurrentToken_skips_unusable_witness :
    ((getCurrentToken (cacheWorld ["c.json", "a.json"] 50)).1 =
        (getCurrentToken ((cacheWorld ["c.json", "a.json"] 50).withListing ["a.json"])).1 ∧
      (getCurrentToken ((cacheWorld ["c.json", "a.json"] 50).withListing ["a.json"])).1 =
        some "tokA") ∧
    (getCurrentToken (cacheWorld ["c.json", "d.json", "e.json"] 50)).1 = none :=
  ⟨⟨(getCurrentToken_skips_unusable (cacheWorld ["c.json", "a.json"] 50) "/home/u"
      (by decide)).1 [] "c.json" ["a.json"] (by decide) (by decide), by decide⟩,
    (getCurrentToken_skips_unusable (cacheWorld ["c.json", "d.json", "e.json"] 50) "/home/u"
      (by decide)).2.1 ["c.json", "d.json", "e.json"] (by decide) (by decide)⟩

/-- C3, as stated, fails: with `a.json` expiring exactly at `now` listed
before `b.json`, the first entry with `now < expiresAt` is `b.json` (token
`tokB`), yet the code returns the token of `a.json`. -/
theorem getCurrentToken_not_first_strictly_unexpired :
    (∀ name ∈ ["a.json"],
      acceptedBefore (cacheWorld ["a.json", "b.json"] 100) "/home/u/.aws/sso/cache" name =
        none) ∧
    acceptedBefore (cacheWorld ["a.json", "b.json"] 100) "/home/u/.aws/sso/cache" "b.json" =
      some "tokB" ∧
    (getCurrentToken (cacheWorld ["a.json", "b.json"] 100)).1 = some "tokA" := by
  decide

/-- C3, amended: if some entry whose name ends in ".json" holds a record that
decodes, has a non-empty `accessToken`, a non-zero `expiresAt` and
`now ≤ expiresAt` (not after it), then `getCurrentToken` returns the token of
the first such entry in listing order; only files whose names end in ".json"
are ever read. -/
theorem getCurrentToken_first_accepted (w : World) (home : String)
    (entries : List String) (hu : w.userCurrent = some home)
    (hd : w.readDir (filepath.Join home ".aws/sso/cache") = some entries) :
    (∀ pre name post t, entries = pre ++ name :: post →
      (∀ n ∈ pre, acceptedUpTo w (filepath.Join home ".aws/sso/cache") n = none) →
      acceptedUpTo w (filepath.Join home ".aws/sso/cache") name = some t →
      (getCurrentToken w).1 = some t) ∧
    (∀ path, Event.readFile path ∈ (getCurrentToken w).2 →
      ∃ name ∈ entries, strings.HasSuffix name ".json" = true ∧
        path = filepath.Join (filepath.Join home ".aws/sso/cache") name) := by
  constructor
  · intro pre name post t he hpre hacc
    rw [getCurrentToken_result w home entries hu hd, he]
    exact head?_filterMap_first _ pre post name t hpre hacc
  · intro path hmem
    unfold getCurrentToken at hmem
    simp only [hu, hd] at hmem
    rcases List.mem_cons.mp hmem with h | hmem
    · cases h
    · rcases List.mem_cons.mp hmem with h | hmem
      · cases h
      · obtain ⟨name, hname, hs, he⟩ := getCurrentToken.loop_reads w _ entries _ hmem
        exact ⟨name, hname, hs, by injection he⟩

/-- Witness of `getCurrentToken_first_accepted`: `notes.txt` and the
undecodable `c.json` come first, then `b.json` and `a.json`, both unexpired
at time 50: the token of `b.json` is returned. -/
theorem getCurrentToken_first_accepted_witness :
    (getCurrentToken (cacheWorld ["notes.txt", "c.json", "b.json", "a.json"] 50)).1 =
      some "tokB" :=
  (getCurrentToken_first_accepted (cacheWorld ["notes.txt", "c.json", "b.json", "a.json"] 50)
    "/home/u" ["notes.txt", "c.json", "b.json", "a.json"] (by decide) (by decide)).1
    ["notes.txt", "c.json"] "b.json" ["a.json"] "tokB" (by decide) (by decide) (by decide)

/-! ## Polling: lemmas -/

theorem pollForToken.loop_cons_vars (client : SSOOIDCClient) (input : CreateTokenInput)
    (attempt : Nat) (attempts : List Nat) (v v' : PollVars) :
    pollForToken.loop client input (attempt :: attempts) v =
      pollForToken.loop client input (attempt :: attempts) v' := by
  simp only [pollForToken.loop]

theorem pollForToken.loop_pending_rounds (client : SSOOIDCClient) (input : CreateTokenInput)
    (pre : List Nat) (attempt : Nat) (post : List Nat)
    (hpre : ∀ a ∈ pre, pendingResponse (client.CreateToken a input) = true) (v : PollVars) :
    pollForToken.loop client input (pre ++ attempt :: post) v =
      ((pollForToken.loop client input (attempt :: post) v).1,
        pendingRounds input pre ++ (pollForToken.loop client input (attempt :: post) v).2) := by
  induction pre generalizing v with
  | nil => simp [pendingRounds]
  | cons a pre ih =>
    have ha := hpre a (List.mem_cons_self _ _)
    have ih' := ih (fun b hb => hpre b (List.mem_cons_of_mem _ hb))
    cases hr : client.CreateToken a input with
    | ok token => rw [hr] at ha; simp [pendingResponse] at ha
    | error err =>
      rw [hr] at ha
      simp only [pendingResponse] at ha
      rw [List.cons_append]
      conv_lhs => unfold pollForToken.loop
      simp only [hr, ha, if_true]
      rw [ih' ⟨none, some err⟩,
        pollForToken.loop_cons_vars client input attempt post ⟨none, some err⟩ v]
      simp [pendingRounds, pendingRound, List.append_assoc]

theorem pollForToken.loop_all_pending (client : SSOOIDCClient) (input : CreateTokenInput)
    (attempts : List Nat) (last : Nat) (err : String)
    (hpre : ∀ a ∈ attempts, pendingResponse (client.CreateToken a input) = true)
    (hlast : client.CreateToken last input = .error err) (hp : isPending err = true)
    (v : PollVars) :
    pollForToken.loop client input (attempts ++ [last]) v =
      (⟨none, some err⟩, pendingRounds input (attempts ++ [last])) := by
  rw [pollForToken.loop_pending_rounds client input attempts last [] hpre v]
  have hone : pollForToken.loop client input [last] v =
      (⟨none, some err⟩, pendingRound input last) := by
    simp [pollForToken.loop, hlast, hp, pendingRound]
  have happ : ∀ l : List Nat, pendingRounds input (l ++ [last]) =
      pendingRounds input l ++ pendingRound input last := by
    intro l
    induction l with
    | nil => simp [pendingRounds]
    | cons a l ihl => simp [pendingRounds, ihl, List.append_assoc]
  rw [hone, happ]

theorem countP_isCreateToken_pendingRounds (input : CreateTokenInput) (attempts : List Nat) :
    (pendingRounds input attempts).countP Event.isCreateToken = attempts.length := by
  induction attempts with
  | nil => rfl
  | cons a attempts ih =>
    simp only [pendingRounds, pendingRound, List.countP_append, ih, List.length_cons]
    split <;> simp [List.countP_cons, Event.isCreateToken] <;> omega

theorem countP_isSleep_pendingRounds (input : CreateTokenInput) (attempts : List Nat) :
    (pendingRounds input attempts).countP Event.isSleep = attempts.length := by
  induction attempts with
  | nil => rfl
  | cons a attempts ih =>
    simp only [pendingRounds, pendingRound, List.countP_append, ih, List.length_cons]
    split <;> simp [List.countP_cons, Event.isSleep] <;> omega

theorem pollForToken.loop_calls_le (client : SSOOIDCClient) (input : CreateTokenInput)
    (attempts : List Nat) (v : PollVars) :
    (pollForToken.loop client input attempts v).2.countP Event.isCreateToken ≤
      attempts.length := by
  induction attempts generalizing v with
  | nil => simp [pollForToken.loop]
  | cons a attempts ih =>
    unfold pollForToken.loop
    cases hr : client.CreateToken a input with
    | ok token => simp [List.countP_cons, Event.isCreateToken]
    | error err =>
      by_cases hp : isPending err = true
      · have := ih ⟨none, some err⟩
        simp only [hp, if_true, List.length_cons]
        split <;> simp [List.countP_cons, Event.isCreateToken] <;> omega
      · simp [hp, List.countP_cons, Event.isCreateToken]

theorem range_split_at (n k : Nat) (h1 : 1 ≤ k) (hk : k ≤ n) :
    List.range' 1 n = List.range' 1 (k - 1) ++ k :: List.range' (k + 1) (n - k) := by
  have h : n = (n - k + 1) + (k - 1) := by omega
  conv_lhs => rw [h, ← List.range'_append_1]
  have hk' : 1 + (k - 1) = k := by omega
  rw [hk', List.range'_succ]

theorem pending_before (client : SSOOIDCClient) (input : CreateTokenInput) (k : Nat)
    (hpend : ∀ j, 1 ≤ j → j < k → pendingResponse (client.CreateToken j input) = true) :
    ∀ a ∈ List.range' 1 (k - 1), pendingResponse (client.CreateToken a input) = true := by
  intro a ha
  rw [List.mem_range'_1] at ha
  exact hpend a ha.1 (by omega)

theorem pollForToken.loop_token (client : SSOOIDCClient) (input : CreateTokenInput)
    (attempt : Nat) (attempts : List Nat) (v : PollVars)
    (h : (pollForToken.loop client input (attempt :: attempts) v).1.err = none) :
    ∃ token, (pollForToken.loop client input (attempt :: attempts) v).1.token = some token := by
  induction attempts generalizing attempt v with
  | nil =>
    unfold pollForToken.loop at h ⊢
    cases hr : client.CreateToken attempt input with
    | ok token => exact ⟨token, by simp⟩
    | error err =>
      by_cases hp : isPending err = true
      · simp [hr, hp, pollForToken.loop] at h
      · simp [hr, hp] at h
  | cons a attempts ih =>
    unfold pollForToken.loop at h ⊢
    cases hr : client.CreateToken attempt input with
    | ok token => exact ⟨token, by simp⟩
    | error err =>
      by_cases hp : isPending err = true
      · simp only [hr, hp, if_true] at h ⊢
        exact ih a ⟨none, some err⟩ h
      · simp [hr, hp] at h

/-! ## The device-authorization flow: claims -/

/-- C4: `AWSProvider.GenerateToken` attempts a step only if the previous one
succeeded.  If `RegisterClient` fails, the result is absent and the trace
holds no `StartDeviceAuthorization`, browser, `TokenPoller` or `CreateToken`
effect; if `RegisterClient` succeeds and `StartDeviceAuthorization` fails, the
result is absent and the trace holds no browser, `TokenPoller` or
`CreateToken` effect.  The same holds for `GenerateTokenWithConfig`, whose
poller is `pollForToken`. -/
theorem GenerateToken_stops_at_first_failure (p : AWSProvider) (w : World)
    (cfg : aws.Config) (appCfg : appconfig.Config) :
    (∀ err, p.SSOOIDCClient.RegisterClient cliRegisterInput = .error err →
      (p.GenerateToken appCfg).1 = none ∧
      ∀ e ∈ (p.GenerateToken appCfg).2,
        e.isStartDeviceAuthorization = false ∧ e.isOpenBrowser = false ∧
          e.isTokenPoller = false ∧ e.isCreateToken = false) ∧
    (∀ register err, p.SSOOIDCClient.RegisterClient cliRegisterInput = .ok register →
      p.SSOOIDCClient.StartDeviceAuthorization (deviceInputFor register appCfg) = .error err →
      (p.GenerateToken appCfg).1 = none ∧
      ∀ e ∈ (p.GenerateToken appCfg).2,
        e.isOpenBrowser = false ∧ e.isTokenPoller = false ∧ e.isCreateToken = false) ∧
    (∀ err, (w.newSSOOIDCClient cfg).RegisterClient cliRegisterInput = .error err →
      (GenerateTokenWithConfig w cfg appCfg).1 = none ∧
      ∀ e ∈ (GenerateTokenWithConfig w cfg appCfg).2,
        e.isStartDeviceAuthorization = false ∧ e.isOpenBrowser = false ∧
          e.isTokenPoller = false ∧ e.isCreateToken = false) ∧
    (∀ register err, (w.newSSOOIDCClient cfg).RegisterClient cliRegisterInput = .ok register →
      (w.newSSOOIDCClient cfg).StartDeviceAuthorization (deviceInputFor register appCfg) =
        .error err →
      (GenerateTokenWithConfig w cfg appCfg).1 = none ∧
      ∀ e ∈ (GenerateTokenWithConfig w cfg appCfg).2,
        e.isOpenBrowser = false ∧ e.isTokenPoller = false ∧ e.isCreateToken = false) := by
  refine ⟨?_, ?_, ?_, ?_⟩
  · intro err hr
    have hr' : p.SSOOIDCClient.RegisterClient
        ⟨aws.String "aws-sso-config-cli", aws.String "public", ["sso-portal:*"]⟩ =
          .error err := hr
    simp only [AWSProvider.GenerateToken, hr']
    refine ⟨trivial, ?_⟩
    intro e he
    simp only [List.mem_cons, List.mem_singleton, List.not_mem_nil, or_false] at he
    rcases he with h | h | h <;> subst h <;> simp [Event.isStartDeviceAuthorization,
      Event.isOpenBrowser, Event.isTokenPoller, Event.isCreateToken]
  · intro register err hr hd
    have hr' : p.SSOOIDCClient.RegisterClient
        ⟨aws.String "aws-sso-config-cli", aws.String "public", ["sso-portal:*"]⟩ =
          .ok register := hr
    have hd' : p.SSOOIDCClient.StartDeviceAuthorization
        ⟨register.ClientId, register.ClientSecret, aws.String appCfg.SSOStartURL⟩ =
          .error err := hd
    simp only [AWSProvider.GenerateToken, hr', hd']
    refine ⟨trivial, ?_⟩
    intro e he
    simp only [List.mem_cons, List.mem_singleton, List.not_mem_nil, or_false] at he
    rcases he with h | h | h | h <;> subst h <;> simp [Event.isOpenBrowser,
      Event.isTokenPoller, Event.isCreateToken]
  · intro err hr
    have hr' : (w.newSSOOIDCClient cfg).RegisterClient
        ⟨aws.String "aws-sso-config-cli", aws.String "public", ["sso-portal:*"]⟩ =
          .error err := hr
    simp only [GenerateTokenWithConfig, hr']
    refine ⟨trivial, ?_⟩
    intro e he
    simp only [List.mem_cons, List.mem_singleton, List.not_mem_nil, or_false] at he
    rcases he with h | h | h | h <;> subst h <;> simp [Event.isStartDeviceAuthorization,
      Event.isOpenBrowser, Event.isTokenPoller, Event.isCreateToken]
  · intro register err hr hd
    have hr' : (w.newSSOOIDCClient cfg).RegisterClient
        ⟨aws.String "aws-sso-config-cli", aws.String "public", ["sso-portal:*"]⟩ =
          .ok register := hr
    have hd' : (w.newSSOOIDCClient cfg).StartDeviceAuthorization
        ⟨register.ClientId, register.ClientSecret, aws.String appCfg.SSOStartURL⟩ =
          .error err := hd
    simp only [GenerateTokenWithConfig, hr', hd']
    refine ⟨trivial, ?_⟩
    intro e he
    simp only [List.mem_cons, List.mem_singleton, List.not_mem_nil, or_false] at he
    rcases he with h | h | h | h | h <;> subst h <;> simp [Event.isOpenBrowser,
      Event.isTokenPoller, Event.isCreateToken]

/-- Witness of `GenerateToken_stops_at_first_failure`: a backend that is down
and a backend that registers but cannot start the device authorization, for
the provider and for `GenerateTokenWithConfig`. -/
theorem GenerateToken_stops_at_first_failure_witness :
    (AWSProvider.GenerateToken (providerOver downClient) sampleAppCfg).1 = none ∧
    (AWSProvider.GenerateToken (providerOver deviceDownClient) sampleAppCfg).1 = none ∧
    (GenerateTokenWithConfig (flowWorld downClient) ⟨"us-east-1"⟩ sampleAppCfg).1 = none ∧
    (GenerateTokenWithConfig (flowWorld deviceDownClient) ⟨"us-east-1"⟩ sampleAppCfg).1 =
      none :=
  ⟨((GenerateToken_stops_at_first_failure (providerOver downClient) (flowWorld downClient)
      ⟨"us-east-1"⟩ sampleAppCfg).1 "register: connection refused" rfl).1,
    ((GenerateToken_stops_at_first_failure (providerOver deviceDownClient)
      (flowWorld deviceDownClient) ⟨"us-east-1"⟩ sampleAppCfg).2.1
      ⟨some "client-id", some "client-secret"⟩ "device: connection refused" rfl rfl).1,
    ((GenerateToken_stops_at_first_failure (providerOver downClient) (flowWorld downClient)
      ⟨"us-east-1"⟩ sampleAppCfg).2.2.1 "register: connection refused" rfl).1,
    ((GenerateToken_stops_at_first_failure (providerOver deviceDownClient)
      (flowWorld deviceDownClient) ⟨"us-east-1"⟩ sampleAppCfg).2.2.2
      ⟨some "client-id", some "client-secret"⟩ "device: connection refused" rfl rfl).1⟩

/-! ## Polling: claims -/

/-- C5: `pollForToken` performs at most 30 `CreateToken` calls, whatever the
backend answers (a backend that always answers with a pending-class error
included). -/
theorem pollForToken_at_most_30_calls (client : SSOOIDCClient)
    (register : RegisterClientOutput) (deviceAuth : StartDeviceAuthorizationOutput) :
    (pollForToken client register deviceAuth).2.countP Event.isCreateToken ≤ 30 := by
  have h := pollForToken.loop_calls_le client (pollForToken.input register deviceAuth)
    (List.range' 1 maxAttempts) ⟨none, none⟩
  rw [List.length_range'] at h
  have hm : maxAttempts = 30 := rfl
  unfold pollForToken
  generalize pollForToken.loop client (pollForToken.input register deviceAuth)
    (List.range' 1 maxAttempts) ⟨none, none⟩ = r at h ⊢
  cases hv : r.1.err with
  | none =>
    simp only [hv, List.countP_cons, List.countP_append]
    simp [Event.isCreateToken]
    omega
  | some err =>
    simp only [hv, List.countP_cons, List.countP_append]
    split <;> simp [Event.isCreateToken] <;> omega

/-- C6: if the `k`-th `CreateToken` response (`k ≤ 30`) is an error whose
message contains neither "authorization_pending" nor "slow_down" and all
earlier responses were pending-class errors, then `pollForToken` returns
absent, makes exactly `k` `CreateToken` calls and `k - 1` sleeps, and after
the `k`-th call only prints the "Authorization error" line and releases its
context: no sleep follows. -/
theorem pollForToken_stops_at_fatal_error (client : SSOOIDCClient)
    (register : RegisterClientOutput) (deviceAuth : StartDeviceAuthorizationOutput)
    (k : Nat) (err : String) (hk1 : 1 ≤ k) (hk : k ≤ 30)
    (hpend : ∀ j, 1 ≤ j → j < k →
      pendingResponse (client.CreateToken j (pollForToken.input register deviceAuth)) = true)
    (hfatal : client.CreateToken k (pollForToken.input register deviceAuth) = .error err)
    (hnp : isPending err = false) :
    (pollForToken client register deviceAuth).1 = none ∧
    (pollForToken client register deviceAuth).2.countP Event.isCreateToken = k ∧
    (pollForToken client register deviceAuth).2.countP Event.isSleep = k - 1 ∧
    ∃ before, before.countP Event.isCreateToken = k - 1 ∧
      (pollForToken client register deviceAuth).2 =
        before ++ [Event.createToken (pollForToken.input register deviceAuth),
          Event.print (Notice.authorizationError err), Event.cancel] := by
  have hloop : pollForToken.loop client (pollForToken.input register deviceAuth)
      (List.range' 1 maxAttempts) ⟨none, none⟩ =
      (⟨none, some err⟩,
        pendingRounds (pollForToken.input register deviceAuth) (List.range' 1 (k - 1)) ++
          [Event.createToken (pollForToken.input register deviceAuth),
            Event.print (Notice.authorizationError err)]) := by
    rw [range_split_at maxAttempts k hk1 hk,
      pollForToken.loop_pending_rounds client _ _ k _ (pending_before client _ k hpend)]
    simp [pollForToken.loop, hfatal, hnp]
  have hc : strings.Contains err "authorization_pending" = false := by
    unfold isPending at hnp
    simp only [Bool.or_eq_false_iff] at hnp
    exact hnp.1
  have hcnt := countP_isCreateToken_pendingRounds (pollForToken.input register deviceAuth)
    (List.range' 1 (k - 1))
  rw [List.length_range'] at hcnt
  have hslp := countP_isSleep_pendingRounds (pollForToken.input register deviceAuth)
    (List.range' 1 (k - 1))
  rw [List.length_range'] at hslp
  unfold pollForToken
  simp only [hloop, hc]
  refine ⟨trivial, ?_, ?_, ?_⟩
  · simp [List.countP_cons, List.countP_append, hcnt, Event.isCreateToken]
    omega
  · simp [List.countP_cons, List.countP_append, hslp, Event.isSleep]
  · refine ⟨Event.withTimeout 10 ::
      pendingRounds (pollForToken.input register deviceAuth) (List.range' 1 (k - 1)), ?_, ?_⟩
    · simp [List.countP_cons, hcnt, Event.isCreateToken]
    · simp

/-- Witness of `pollForToken_stops_at_fatal_error`: two pending responses,
then "access_denied" at the third call. -/
theorem pollForToken_stops_at_fatal_error_witness :
    (pollForToken (scriptedClient deniedAtThird) ⟨some "id", some "secret"⟩
      ⟨some "code", some "url"⟩).1 = none ∧
    (pollForToken (scriptedClient deniedAtThird) ⟨some "id", some "secret"⟩
      ⟨some "code", some "url"⟩).2.countP Event.isCreateToken = 3 :=
  have h := pollForToken_stops_at_fatal_error (scriptedClient deniedAtThird)
    ⟨some "id", some "secret"⟩ ⟨some "code", some "url"⟩ 3
    "AccessDeniedException: access_denied" (by decide) (by decide)
    (by intro j h1 h3; interval_cases j <;> decide) rfl (by decide)
  ⟨h.1, h.2.1⟩

/-- C7: if the `k`-th `CreateToken` response (`k ≤ 30`) is the first success
and all earlier responses were pending-class errors, then `pollForToken`
returns exactly the access token carried by that response and makes no
further `CreateToken` call: `k` calls in all, the `k`-th being the last
effect but the success line and the release of the context. -/
theorem pollForToken_returns_first_success (client : SSOOIDCClient)
    (register : RegisterClientOutput) (deviceAuth : StartDeviceAuthorizationOutput)
    (k : Nat) (token : CreateTokenOutput) (hk1 : 1 ≤ k) (hk : k ≤ 30)
    (hpend : ∀ j, 1 ≤ j → j < k →
      pendingResponse (client.CreateToken j (pollForToken.input register deviceAuth)) = true)
    (hok : client.CreateToken k (pollForToken.input register deviceAuth) = .ok token) :
    (pollForToken client register deviceAuth).1 = token.AccessToken ∧
    (pollForToken client register deviceAuth).2.countP Event.isCreateToken = k ∧
    ∃ before, before.countP Event.isCreateToken = k - 1 ∧
      (pollForToken client register deviceAuth).2 =
        before ++ [Event.createToken (pollForToken.input register deviceAuth),
          Event.print Notice.authorizationSuccessful, Event.cancel] := by
  have hloop : pollForToken.loop client (pollForToken.input register deviceAuth)
      (List.range' 1 maxAttempts) ⟨none, none⟩ =
      (⟨some token, none⟩,
        pendingRounds (pollForToken.input register deviceAuth) (List.range' 1 (k - 1)) ++
          [Event.createToken (pollForToken.input register deviceAuth),
            Event.print Notice.authorizationSuccessful]) := by
    rw [range_split_at maxAttempts k hk1 hk,
      pollForToken.loop_pending_rounds client _ _ k _ (pending_before client _ k hpend)]
    simp [pollForToken.loop, hok]
  have hcnt := countP_isCreateToken_pendingRounds (pollForToken.input register deviceAuth)
    (List.range' 1 (k - 1))
  rw [List.length_range'] at hcnt
  unfold pollForToken
  simp only [hloop]
  refine ⟨rfl, ?_, ?_⟩
  · simp [List.countP_cons, List.countP_append, hcnt, Event.isCreateToken]
    omega
  · refine ⟨Event.withTimeout 10 ::
      pendingRounds (pollForToken.input register deviceAuth) (List.range' 1 (k - 1)), ?_, ?_⟩
    · simp [List.countP_cons, hcnt, Event.isCreateToken]
    · simp

/-- Witness of `pollForToken_returns_first_success`: two pending responses,
then a token at the third call. -/
theorem pollForToken_returns_first_success_witness :
    (pollForToken (scriptedClient grantedAtThird) ⟨some "id", some "secret"⟩
      ⟨some "code", some "url"⟩).1 = some "fresh-token" ∧
    (pollForToken (scriptedClient grantedAtThird) ⟨some "id", some "secret"⟩
      ⟨some "code", some "url"⟩).2.countP Event.isCreateToken = 3 :=
  have h := pollForToken_returns_first_success (scriptedClient grantedAtThird)
    ⟨some "id", some "secret"⟩ ⟨some "code", some "url"⟩ 3 ⟨some "fresh-token"⟩
    (by decide) (by decide) (by intro j h1 h3; interval_cases j <;> decide) rfl
  ⟨h.1, h.2.1⟩

theorem getCurrentToken_no_flow (w : World) :
    ∀ e ∈ (getCurrentToken w).2, e.isFlow = false := by
  intro e he
  unfold getCurrentToken at he
  cases hu : w.userCurrent with
  | none =>
    simp only [hu, List.mem_singleton] at he
    subst he
    rfl
  | some home =>
    cases hd : w.readDir (filepath.Join home ".aws/sso/cache") with
    | none =>
      simp only [hu, hd, List.mem_cons, List.mem_singleton, List.not_mem_nil, or_false] at he
      rcases he with h | h <;> subst h <;> rfl
    | some entries =>
      simp only [hu, hd, List.mem_cons] at he
      rcases he with h | h | h
      · subst h; rfl
      · subst h; rfl
      · obtain ⟨name, _, _, hev⟩ := getCurrentToken.loop_reads w _ entries e h
        subst hev
        rfl

theorem generateToken_starts_with_register (w : World) (cfg : aws.Config) :
    ∃ rest, (generateToken w cfg).2 =
      Event.withTimeout 300 ::
        Event.registerClient ⟨some "sample-client-name", some "public", ["sso-portal:*"]⟩ ::
          rest := by
  simp only [generateToken]
  split
  · exact ⟨_, rfl⟩
  · split
    · exact ⟨_, rfl⟩
    · exact ⟨_, rfl⟩

/-- C9: `GetToken` consults the cache first.  Whenever `getCurrentToken`
yields a token `t`, `GetToken` returns `t` and its trace holds no
`RegisterClient`, `StartDeviceAuthorization` or `CreateToken` call and no
browser open; when the cache yields absent, `GetToken` continues with
`generateToken`, whose first call is `RegisterClient`. -/
theorem GetToken_prefers_cache (w : World) (cfg : aws.Config) :
    (∀ t, (getCurrentToken w).1 = some t →
      (GetToken w cfg).1 = some t ∧ ∀ e ∈ (GetToken w cfg).2, e.isFlow = false) ∧
    ((getCurrentToken w).1 = none →
      (GetToken w cfg).1 = (generateToken w cfg).1 ∧
      (GetToken w cfg).2 = (getCurrentToken w).2 ++ (generateToken w cfg).2 ∧
      ∃ input, ∃ rest, (generateToken w cfg).2 =
        Event.withTimeout 300 :: Event.registerClient input :: rest) := by
  constructor
  · intro t ht
    unfold GetToken
    simp only [ht]
    exact ⟨trivial, getCurrentToken_no_flow w⟩
  · intro hnone
    unfold GetToken
    simp only [hnone]
    refine ⟨trivial, trivial, ?_⟩
    exact ⟨_, generateToken_starts_with_register w cfg⟩

/-- Witness of `GetToken_prefers_cache`: with the unexpired `a.json` in the
cache, `GetToken` returns its token. -/
theorem GetToken_prefers_cache_witness :
    (GetToken (cacheWorld ["a.json"] 50) ⟨"us-east-1"⟩).1 = some "tokA" :=
  ((GetToken_prefers_cache (cacheWorld ["a.json"] 50) ⟨"us-east-1"⟩).1 "tokA"
    (by decide)).1

/-- C10 fails on the code: with a valid, unexpired token in the cache (the
one `getCurrentToken` returns), the token generator of the generate command
never looks at the cache: it calls `RegisterClient`, and with the backend
down it returns no token at all. -/
theorem GenerateTokenWithConfig_skips_cache :
    (getCurrentToken (cacheWorld ["a.json"] 50)).1 = some "tokA" ∧
    (DefaultTokenGenerator.GenerateTokenWithConfig (cacheWorld ["a.json"] 50)
      ⟨"us-east-1"⟩ sampleAppCfg).1 = none ∧
    Event.registerClient cliRegisterInput ∈
      (DefaultTokenGenerator.GenerateTokenWithConfig (cacheWorld ["a.json"] 50)
        ⟨"us-east-1"⟩ sampleAppCfg).2 ∧
    Event.userCurrent ∉
      (DefaultTokenGenerator.GenerateTokenWithConfig (cacheWorld ["a.json"] 50)
        ⟨"us-east-1"⟩ sampleAppCfg).2 := by
  decide

/-! ## The provider: further claims -/

/-- C11: when `RegisterClient` and `StartDeviceAuthorization` both succeed,
the value returned by `AWSProvider.GenerateToken` is the value returned by
`TokenPoller`, and `TokenPoller` is called, whatever `BrowserOpener` returns:
replacing the browser opener by any other one leaves result and effects as
they are. -/
theorem GenerateToken_returns_poller_result (p : AWSProvider) (appCfg : appconfig.Config)
    (register : RegisterClientOutput) (deviceAuth : StartDeviceAuthorizationOutput)
    (hr : p.SSOOIDCClient.RegisterClient cliRegisterInput = .ok register)
    (hd : p.SSOOIDCClient.StartDeviceAuthorization (deviceInputFor register appCfg) =
      .ok deviceAuth) :
    (p.GenerateToken appCfg).1 = (p.TokenPoller p.SSOOIDCClient register deviceAuth).1 ∧
    Event.tokenPoller register deviceAuth ∈ (p.GenerateToken appCfg).2 ∧
    ∀ opener : String → Option String,
      AWSProvider.GenerateToken { p with BrowserOpener := opener } appCfg =
        p.GenerateToken appCfg := by
  have hr' : p.SSOOIDCClient.RegisterClient
      ⟨aws.String "aws-sso-config-cli", aws.String "public", ["sso-portal:*"]⟩ =
        .ok register := hr
  have hd' : p.SSOOIDCClient.StartDeviceAuthorization
      ⟨register.ClientId, register.ClientSecret, aws.String appCfg.SSOStartURL⟩ =
        .ok deviceAuth := hd
  refine ⟨?_, ?_, ?_⟩
  · simp only [AWSProvider.GenerateToken, hr', hd']
  · simp only [AWSProvider.GenerateToken, hr', hd']
    simp
  · intro opener
    rfl

/-- Witness of `GenerateToken_returns_poller_result`: the browser opener
fails, and the token of the poller is returned all the same. -/
theorem GenerateToken_returns_poller_result_witness :
    failingBrowserProvider.BrowserOpener "https://device.sso.example/?user_code=ABCD" =
      some "browser open error" ∧
    (failingBrowserProvider.GenerateToken sampleAppCfg).1 = some "test-access-token" :=
  ⟨rfl, (GenerateToken_returns_poller_result failingBrowserProvider sampleAppCfg
    ⟨some "client-id", some "client-secret"⟩
    ⟨some "device-code", some "https://device.sso.example/?user_code=ABCD"⟩ rfl rfl).1⟩

/-- C12: on the success path of `AWSProvider.GenerateToken`, the effects
are, in order: `RegisterClient`; `StartDeviceAuthorization` with the
`ClientId` and `ClientSecret` that `RegisterClient` returned and `StartUrl`
equal to `appCfg.SSOStartURL()`; one `BrowserOpener` call with the
`VerificationUriComplete` of the device-authorization response; and
`TokenPoller` with exactly the two outputs, followed by what the poller
itself does. -/
theorem GenerateToken_success_path (p : AWSProvider) (appCfg : appconfig.Config)
    (register : RegisterClientOutput) (deviceAuth : StartDeviceAuthorizationOutput)
    (hr : p.SSOOIDCClient.RegisterClient cliRegisterInput = .ok register)
    (hd : p.SSOOIDCClient.StartDeviceAuthorization (deviceInputFor register appCfg) =
      .ok deviceAuth) :
    (p.GenerateToken appCfg).2 =
      [Event.withTimeout 300, Event.registerClient cliRegisterInput,
        Event.startDeviceAuthorization
          { ClientId := register.ClientId
            ClientSecret := register.ClientSecret
            StartUrl := some appCfg.SSOStartURL },
        Event.openBrowser (aws.ToString deviceAuth.VerificationUriComplete),
        Event.tokenPoller register deviceAuth] ++
      ((p.TokenPoller p.SSOOIDCClient register deviceAuth).2 ++ [Event.cancel]) := by
  have hr' : p.SSOOIDCClient.RegisterClient
      ⟨aws.String "aws-sso-config-cli", aws.String "public", ["sso-portal:*"]⟩ =
        .ok register := hr
  have hd' : p.SSOOIDCClient.StartDeviceAuthorization
      ⟨register.ClientId, register.ClientSecret, aws.String appCfg.SSOStartURL⟩ =
        .ok deviceAuth := hd
  simp only [AWSProvider.GenerateToken, hr', hd']
  rfl

/-- Witness of `GenerateToken_success_path`: the browser is opened once, with
the verification URL of the backend. -/
theorem GenerateToken_success_path_witness :
    (failingBrowserProvider.GenerateToken sampleAppCfg).2.countP Event.isOpenBrowser = 1 ∧
    Event.openBrowser "https://device.sso.example/?user_code=ABCD" ∈
      (failingBrowserProvider.GenerateToken sampleAppCfg).2 := by
  rw [GenerateToken_success_path failingBrowserProvider sampleAppCfg
    ⟨some "client-id", some "client-secret"⟩
    ⟨some "device-code", some "https://device.sso.example/?user_code=ABCD"⟩ rfl rfl]
  decide

/-! ## The account enumerator: claims -/

/-- C13: with an absent token, `ListAccountsWithClient` and
`GetAccountRolesWithClient` return the error "no SSO token provided" and a
nil list, and have no effect at all: the client is not called. -/
theorem enumerator_rejects_nil_token (g : ConfigGenerator) (ssoClient : SSOClient)
    (accountID : String) :
    g.ListAccountsWithClient ssoClient none = (([], some "no SSO token provided"), []) ∧
    g.GetAccountRolesWithClient ssoClient none accountID =
      (([], some "no SSO token provided"), []) :=
  ⟨rfl, rfl⟩

/-- C15: with a token, `ListAccountsWithClient` returns an error exactly
when the client's `ListAccounts` does; the error is then "failed to list
accounts: " followed by the client's error, with a nil list; otherwise the
list is the client's `AccountList` as it is.  `GetAccountRolesWithClient`
does the same with `ListAccountRoles`, and its error names the account id. -/
theorem enumerator_propagates (g : ConfigGenerator) (ssoClient : SSOClient)
    (t accountID : String) :
    (((g.ListAccountsWithClient ssoClient (some t)).1.2 ≠ none ↔
        ∃ err, ssoClient.ListAccounts ⟨some t, none, none⟩ = .error err) ∧
      (∀ err, ssoClient.ListAccounts ⟨some t, none, none⟩ = .error err →
        (g.ListAccountsWithClient ssoClient (some t)).1 =
          ([], some ("failed to list accounts: " ++ err))) ∧
      (∀ out, ssoClient.ListAccounts ⟨some t, none, none⟩ = .ok out →
        (g.ListAccountsWithClient ssoClient (some t)).1 = (out.AccountList, none))) ∧
    (((g.GetAccountRolesWithClient ssoClient (some t) accountID).1.2 ≠ none ↔
        ∃ err, ssoClient.ListAccountRoles ⟨some t, some accountID, none, none⟩ =
          .error err) ∧
      (∀ err, ssoClient.ListAccountRoles ⟨some t, some accountID, none, none⟩ = .error err →
        (g.GetAccountRolesWithClient ssoClient (some t) accountID).1 =
          ([], some ("failed to list roles for account " ++ accountID ++ ": " ++ err))) ∧
      (∀ out, ssoClient.ListAccountRoles ⟨some t, some accountID, none, none⟩ = .ok out →
        (g.GetAccountRolesWithClient ssoClient (some t) accountID).1 =
          (out.RoleList, none))) := by
  constructor
  · cases h : ssoClient.ListAccounts ⟨some t, none, none⟩ with
    | error err => simp [ConfigGenerator.ListAccountsWithClient, h]
    | ok out => simp [ConfigGenerator.ListAccountsWithClient, h]
  · cases h : ssoClient.ListAccountRoles ⟨some t, some accountID, none, none⟩ with
    | error err => simp [ConfigGenerator.GetAccountRolesWithClient, h, aws.String]
    | ok out => simp [ConfigGenerator.GetAccountRolesWithClient, h, aws.String]

/-- Witness of `enumerator_propagates`: a failing client, and a client that
lists `Prod` and `Dev`. -/
theorem enumerator_propagates_witness :
    (ConfigGenerator.ListAccountsWithClient ⟨"https://x.awsapps.com/start", "us-west-2",
        "us-east-1"⟩ failingSSOClient (some "tok")).1 =
      ([], some "failed to list accounts: API error") ∧
    (ConfigGenerator.GetAccountRolesWithClient ⟨"https://x.awsapps.com/start", "us-west-2",
        "us-east-1"⟩ failingSSOClient (some "tok") "123456789012").1 =
      ([], some "failed to list roles for account 123456789012: API error") ∧
    (ConfigGenerator.ListAccountsWithClient ⟨"https://x.awsapps.com/start", "us-west-2",
        "us-east-1"⟩ (onePageClient [prodAccount, devAccount]) (some "tok")).1 =
      ([prodAccount, devAccount], none) :=
  ⟨(enumerator_propagates ⟨"https://x.awsapps.com/start", "us-west-2", "us-east-1"⟩
      failingSSOClient "tok" "123456789012").1.2.1 "API error" rfl,
    (enumerator_propagates ⟨"https://x.awsapps.com/start", "us-west-2", "us-east-1"⟩
      failingSSOClient "tok" "123456789012").2.2.1 "API error" rfl,
    (enumerator_propagates ⟨"https://x.awsapps.com/start", "us-west-2", "us-east-1"⟩
      (onePageClient [prodAccount, devAccount]) "tok" "123456789012").1.2.2
      ⟨[prodAccount, devAccount], none⟩ rfl⟩

/-! ## The generate command: lemmas -/

theorem generateAwsConfigFile.loop_prints (appCfg : appconfig.Config)
    (accounts : List types.AccountInfo) (awsConfig : ConfigParser) :
    ∀ e ∈ (generateAwsConfigFile.loop appCfg accounts awsConfig).2,
      ∃ profileName, e = Event.print (Notice.addingProfile profileName) := by
  induction accounts generalizing awsConfig with
  | nil => intro e he; simp [generateAwsConfigFile.loop] at he
  | cons y accounts ih =>
    intro e he
    unfold generateAwsConfigFile.loop at he
    simp only [List.mem_append] at he
    rcases he with he | he
    · split at he
      · simp only [List.mem_singleton] at he
        exact ⟨_, he⟩
      · simp at he
    · exact ih _ e he

theorem countP_isListAccounts_loop (appCfg : appconfig.Config)
    (accounts : List types.AccountInfo) (awsConfig : ConfigParser) :
    (generateAwsConfigFile.loop appCfg accounts awsConfig).2.countP Event.isListAccounts = 0 := by
  rw [List.countP_eq_zero]
  intro e he
  obtain ⟨n, hn⟩ := generateAwsConfigFile.loop_prints appCfg accounts awsConfig e he
  subst hn
  simp [Event.isListAccounts]

theorem countP_isListAccounts_showFileDiff (d : Disk) (file1 file2 : String) :
    (showFileDiff d file1 file2).countP Event.isListAccounts = 0 := by
  unfold showFileDiff
  split
  · rfl
  · split <;> rfl

theorem generateAwsConfigFile_success (ssoClient : SSOClient) (token : Option String)
    (configFile : String) (diff : Bool) (appCfg : appconfig.Config) (d : Disk)
    (awsConfig : ConfigParser) (page : sso.ListAccountsOutput)
    (hparse : d.files configFile = some (FileContent.config awsConfig))
    (hlist : ssoClient.ListAccounts ⟨token, none, none⟩ = .ok page)
    (hok : (generateAwsConfigFile ssoClient token configFile diff appCfg d).1 =
      Outcome.returned none) :
    (generateAwsConfigFile ssoClient token configFile diff appCfg d).2.1.files configFile =
      some (FileContent.config (generateAwsConfigFile.loop appCfg page.AccountList awsConfig).1) := by
  have hp : configparser.NewConfigParserFromFile d configFile = .ok awsConfig := by
    simp [configparser.NewConfigParserFromFile, hparse]
  unfold generateAwsConfigFile at hok ⊢
  simp only [hp, hlist] at hok ⊢
  cases hs : d.saveError (configFile ++ ".new") with
  | some failure => simp [hs] at hok
  | none =>
    simp only [hs] at hok ⊢
    cases hrn : (d.write (configFile ++ ".new")
        (some (FileContent.config
          (generateAwsConfigFile.loop appCfg page.AccountList awsConfig).1))).renameError
        (configFile ++ ".new") configFile with
    | some err => simp [hrn] at hok
    | none =>
      simp only [hrn]
      simp [Disk.rename, Disk.write]

/-! ## The generate command: claims -/

/-- C14 fails on the code: when the token generator yields no token, `Run`
goes on.  `generateAwsConfigFile` calls `ListAccounts` with a nil
`AccessToken`, and with a client that answers that call the config file is
rewritten and `Run` returns 0. -/
theorem Run_goes_on_without_token :
    (nilTokenCmd.tokenGenerator nilTokenCmd.configLoader sampleAppCfg).1 = none ∧
    (nilTokenCmd.Run [] (diskWith defaultOnly)).1 = Outcome.returned 0 ∧
    Event.listAccounts ⟨none, none, none⟩ ∈ (nilTokenCmd.Run [] (diskWith defaultOnly)).2.2 ∧
    (nilTokenCmd.Run [] (diskWith defaultOnly)).2.1.files "/home/u/.aws/config" =
      some (FileContent.config
        ⟨[⟨"default", [("region", "us-east-1")]⟩,
          ⟨"profile Prod",
            [("sso_account_id", "123456789012"), ("sso_role_name", "AdministratorAccess"),
              ("sso_region", "us-west-2"), ("sso_start_url", "https://x.awsapps.com/start"),
              ("region", "us-east-1")]⟩]⟩) := by
  decide

/-- C16, as stated, fails: for an identity provider that returns `Prod` on
the first page and `Dev` on the page of the continuation token, all pages
together hold both accounts, but `ListAccountsWithClient` yields `Prod`
only, and `generateAwsConfigFile` writes no profile for `Dev`. -/
theorem enumerator_drops_later_pages :
    allPages twoPageClient (some "tok") 2 none = [prodAccount, devAccount] ∧
    (ConfigGenerator.ListAccountsWithClient ⟨"https://x.awsapps.com/start", "us-west-2",
        "us-east-1"⟩ twoPageClient (some "tok")).1 = ([prodAccount], none) ∧
    (generateAwsConfigFile twoPageClient (some "tok") "/home/u/.aws/config" false
        sampleAppCfg (diskWith defaultOnly)).2.1.files "/home/u/.aws/config" =
      some (FileContent.config
        ⟨[⟨"default", [("region", "us-east-1")]⟩,
          ⟨"profile Prod",
            [("sso_account_id", "123456789012"), ("sso_role_name", "AdministratorAccess"),
              ("sso_region", "us-west-2"), ("sso_start_url", "https://x.awsapps.com/start"),
              ("region", "us-east-1")]⟩]⟩) := by
  decide

/-- C16, amended: the enumerator reads one page.  `ListAccountsWithClient`
makes exactly one `ListAccounts` call, without a continuation token, and
yields the `AccountList` of that response in order; `generateAwsConfigFile`
makes at most one `ListAccounts` call, also without a continuation token,
and the config it writes holds the profiles of the accounts of that one
response.  Continuation tokens are not followed. -/
theorem enumerator_reads_one_page (g : ConfigGenerator) (ssoClient : SSOClient)
    (t : String) (token : Option String) (configFile : String) (diff : Bool)
    (appCfg : appconfig.Config) (d : Disk) :
    (g.ListAccountsWithClient ssoClient (some t)).2 =
      [Event.withTimeout 30, Event.listAccounts ⟨some t, none, none⟩, Event.cancel] ∧
    (∀ page, ssoClient.ListAccounts ⟨some t, none, none⟩ = .ok page →
      (g.ListAccountsWithClient ssoClient (some t)).1 = (page.AccountList, none)) ∧
    (generateAwsConfigFile ssoClient token configFile diff appCfg d).2.2.countP
      Event.isListAccounts ≤ 1 ∧
    (∀ input, Event.listAccounts input ∈
        (generateAwsConfigFile ssoClient token configFile diff appCfg d).2.2 →
      input = ⟨token, none, none⟩) ∧
    (∀ awsConfig page, d.files configFile = some (FileContent.config awsConfig) →
      ssoClient.ListAccounts ⟨token, none, none⟩ = .ok page →
      (generateAwsConfigFile ssoClient token configFile diff appCfg d).1 =
        Outcome.returned none →
      (generateAwsConfigFile ssoClient token configFile diff appCfg d).2.1.files configFile =
        some (FileContent.config
          (generateAwsConfigFile.loop appCfg page.AccountList awsConfig).1)) := by
  have hloop := countP_isListAccounts_loop appCfg
  have hdiff := countP_isListAccounts_showFileDiff
  refine ⟨?_, ?_, ?_, ?_, ?_⟩
  · cases h : ssoClient.ListAccounts ⟨some t, none, none⟩ <;>
      simp [ConfigGenerator.ListAccountsWithClient, h]
  · intro page h
    simp [ConfigGenerator.ListAccountsWithClient, h]
  · cases h1 : configparser.NewConfigParserFromFile d configFile with
    | error err => simp [generateAwsConfigFile, h1, Event.isListAccounts]
    | ok awsConfig =>
      cases h2 : ssoClient.ListAccounts ⟨token, none, none⟩ with
      | error err => simp [generateAwsConfigFile, h1, h2, Event.isListAccounts]
      | ok page =>
        cases h3 : d.saveError (configFile ++ ".new") with
        | some failure =>
          simp [generateAwsConfigFile, h1, h2, h3, List.countP_cons, List.countP_append, hloop,
            Event.isListAccounts]
        | none =>
          cases h4 : (d.write (configFile ++ ".new")
              (some (FileContent.config
                (generateAwsConfigFile.loop appCfg page.AccountList awsConfig).1))).renameError
              (configFile ++ ".new") configFile <;>
            cases diff <;>
            simp [generateAwsConfigFile, h1, h2, h3, h4, List.countP_cons, List.countP_append,
              hloop, hdiff, Event.isListAccounts]
  · intro input hmem
    have hnot : ∀ l : List Event, l.countP Event.isListAccounts = 0 →
        Event.listAccounts input ∉ l := by
      intro l hl hin
      rw [List.countP_eq_zero] at hl
      exact hl _ hin rfl
    have hl := fun accounts awsConfig => hnot _ (hloop accounts awsConfig)
    have hd := fun d file1 file2 => hnot _ (hdiff d file1 file2)
    cases h1 : configparser.NewConfigParserFromFile d configFile with
    | error err => simp [generateAwsConfigFile, h1] at hmem
    | ok awsConfig =>
      cases h2 : ssoClient.ListAccounts ⟨token, none, none⟩ with
      | error err =>
        simp [generateAwsConfigFile, h1, h2] at hmem
        exact hmem
      | ok page =>
        cases h3 : d.saveError (configFile ++ ".new") with
        | some failure =>
          simp [generateAwsConfigFile, h1, h2, h3, hl] at hmem
          exact hmem
        | none =>
          cases h4 : (d.write (configFile ++ ".new")
              (some (FileContent.config
                (generateAwsConfigFile.loop appCfg page.AccountList awsConfig).1))).renameError
              (configFile ++ ".new") configFile <;>
            cases diff <;>
            simp [generateAwsConfigFile, h1, h2, h3, h4, hl, hd] at hmem <;>
            exact hmem
  · intro awsConfig page hparse hlist hok
    exact generateAwsConfigFile_success ssoClient token configFile diff appCfg d awsConfig
      page hparse hlist hok

/-- Witness of `enumerator_reads_one_page`: on the two-page provider the
written config is the one of the first page. -/
theorem enumerator_reads_one_page_witness :
    (generateAwsConfigFile twoPageClient (some "tok") "/home/u/.aws/config" false
        sampleAppCfg (diskWith defaultOnly)).2.1.files "/home/u/.aws/config" =
      some (FileContent.config
        (generateAwsConfigFile.loop sampleAppCfg [prodAccount] defaultOnly).1) :=
  (enumerator_reads_one_page ⟨"https://x.awsapps.com/start", "us-west-2", "us-east-1"⟩
    twoPageClient "tok" (some "tok") "/home/u/.aws/config" false sampleAppCfg
    (diskWith defaultOnly)).2.2.2.2 defaultOnly ⟨[prodAccount], some "page-2"⟩
    (by decide) rfl (by decide)

/-! ## The profile update: lemmas on options -/

theorem setOption_keys_of_mem (key value : String) (options : List (String × String))
    (h : key ∈ options.map Prod.fst) :
    setOption key value options =
      options.map (fun kv => if kv.1 = key then (kv.1, value) else kv) := by
  unfold setOption
  have : options.any (fun kv => kv.1 == key) = true := by
    simp only [List.any_eq_true, beq_iff_eq]
    obtain ⟨kv, hkv, hk⟩ := List.mem_map.mp h
    exact ⟨kv, hkv, hk⟩
  rw [if_pos this]

theorem setOption_of_not_mem (key value : String) (options : List (String × String))
    (h : key ∉ options.map Prod.fst) :
    setOption key value options = options ++ [(key, value)] := by
  unfold setOption
  have : ¬ options.any (fun kv => kv.1 == key) = true := by
    simp only [List.any_eq_true, beq_iff_eq, not_exists, not_and]
    intro kv hkv hk
    exact h (List.mem_map.mpr ⟨kv, hkv, hk⟩)
  rw [if_neg this]

theorem map_fst_replace (key value : String) (options : List (String × String)) :
    (options.map (fun kv => if kv.1 = key then (kv.1, value) else kv)).map Prod.fst =
      options.map Prod.fst := by
  rw [List.map_map]
  apply List.map_congr_left
  intro kv _
  simp only [Function.comp]
  split <;> rfl

theorem mem_keys_setOption (key value : String) (options : List (String × String)) :
    key ∈ (setOption key value options).map Prod.fst := by
  by_cases h : key ∈ options.map Prod.fst
  · rw [setOption_keys_of_mem key value options h, map_fst_replace]
    exact h
  · rw [setOption_of_not_mem key value options h]
    simp

theorem mem_keys_setOption_of_mem (key value k : String) (options : List (String × String))
    (h : k ∈ options.map Prod.fst) : k ∈ (setOption key value options).map Prod.fst := by
  by_cases hk : key ∈ options.map Prod.fst
  · rw [setOption_keys_of_mem key value options hk, map_fst_replace]
    exact h
  · rw [setOption_of_not_mem key value options hk]
    simp only [List.map_append, List.mem_append]
    exact Or.inl h

theorem setOption_setOption_same (key v v' : String) (options : List (String × String)) :
    setOption key v' (setOption key v options) = setOption key v' options := by
  rw [setOption_keys_of_mem key v' _ (mem_keys_setOption key v options)]
  by_cases h : key ∈ options.map Prod.fst
  · rw [setOption_keys_of_mem key v options h, setOption_keys_of_mem key v' options h,
      List.map_map]
    apply List.map_congr_left
    intro kv _
    simp only [Function.comp]
    by_cases hk : kv.1 = key <;> simp [hk]
  · rw [setOption_of_not_mem key v options h, setOption_of_not_mem key v' options h,
      List.map_append]
    congr 1
    · have : ∀ kv ∈ options, (if kv.1 = key then (kv.1, v') else kv) = kv := by
        intro kv hkv
        have : kv.1 ≠ key := fun hk => h (List.mem_map.mpr ⟨kv, hkv, hk⟩)
        simp [this]
      calc options.map (fun kv => if kv.1 = key then (kv.1, v') else kv)
          = options.map id := List.map_congr_left this
        _ = options := List.map_id _
    · simp

theorem setOption_comm (k k' v v' : String) (options : List (String × String))
    (hne : k ≠ k') (hk : k ∈ options.map Prod.fst) :
    setOption k v (setOption k' v' options) = setOption k' v' (setOption k v options) := by
  rw [setOption_keys_of_mem k v _ (mem_keys_setOption_of_mem k' v' k options hk),
    setOption_keys_of_mem k v options hk]
  by_cases hk' : k' ∈ options.map Prod.fst
  · rw [setOption_keys_of_mem k' v' options hk',
      setOption_keys_of_mem k' v' _ (by rw [map_fst_replace]; exact hk'),
      List.map_map, List.map_map]
    apply List.map_congr_left
    intro kv _
    simp only [Function.comp]
    obtain ⟨a, b⟩ := kv
    by_cases h1 : a = k
    · subst h1
      simp [hne]
    · by_cases h2 : a = k'
      · subst h2
        simp [h1]
      · simp [h1, h2]
  · rw [setOption_of_not_mem k' v' options hk',
      setOption_of_not_mem k' v' _ (by rw [map_fst_replace]; exact hk'), List.map_append]
    congr 1
    simp only [List.map_cons, List.map_nil]
    have : k' ≠ k := fun h => hne h.symm
    simp [this]

theorem setOption_setMany_comm (k v : String) (kvs options : List (String × String))
    (hnot : k ∉ kvs.map Prod.fst) (hk : k ∈ options.map Prod.fst) :
    setOption k v (setMany kvs options) = setMany kvs (setOption k v options) := by
  induction kvs generalizing options with
  | nil => rfl
  | cons kv kvs ih =>
    have hne : k ≠ kv.1 := fun h => hnot (by simp [h])
    have hrest : k ∉ kvs.map Prod.fst := fun h => hnot (by simp [h])
    simp only [setMany, List.foldl_cons] at ih ⊢
    rw [ih _ hrest (mem_keys_setOption_of_mem kv.1 kv.2 k options hk),
      setOption_comm k kv.1 v kv.2 options hne hk]

theorem setMany_overwrite (kvs kvs' options : List (String × String))
    (hkeys : kvs.map Prod.fst = kvs'.map Prod.fst) (hnodup : (kvs.map Prod.fst).Nodup) :
    setMany kvs' (setMany kvs options) = setMany kvs' options := by
  induction kvs generalizing kvs' options with
  | nil =>
    cases kvs' with
    | nil => rfl
    | cons _ _ => simp at hkeys
  | cons kv kvs ih =>
    cases kvs' with
    | nil => simp at hkeys
    | cons kv' kvs' =>
      simp only [List.map_cons, List.cons.injEq] at hkeys
      simp only [List.map_cons, List.nodup_cons] at hnodup
      obtain ⟨hk, hrest⟩ := hkeys
      simp only [setMany, List.foldl_cons] at ih ⊢
      have hcomm := setOption_setMany_comm kv'.1 kv'.2 kvs (setOption kv.1 kv.2 options)
        (by rw [← hk]; exact hnodup.1) (by rw [← hk]; exact mem_keys_setOption _ _ _)
      simp only [setMany] at hcomm
      rw [hcomm, ← hk, setOption_setOption_same, ih kvs' _ hrest hnodup.2]

theorem any_name_iff (sections : List Section) (sectionName : String) :
    sections.any (fun s => s.name == sectionName) = true ↔
      sectionName ∈ sections.map Section.name := by
  simp only [List.any_eq_true, beq_iff_eq, List.mem_map]

theorem modSection_name (sectionName : String)
    (f : List (String × String) → List (String × String)) (s : Section) :
    (modSection sectionName f s).name = s.name := by
  unfold modSection
  split <;> rfl

theorem map_name_modSection (sectionName : String)
    (f : List (String × String) → List (String × String)) (sections : List Section) :
    (sections.map (modSection sectionName f)).map Section.name =
      sections.map Section.name := by
  rw [List.map_map]
  apply List.map_congr_left
  intro s _
  exact modSection_name sectionName f s

theorem modSection_modSection (sectionName : String)
    (f g : List (String × String) → List (String × String)) (s : Section) :
    modSection sectionName g (modSection sectionName f s) =
      modSection sectionName (fun o => g (f o)) s := by
  unfold modSection
  by_cases h : s.name = sectionName <;> simp [h]

theorem mem_names_ensureSection (sectionName : String) (sections : List Section) :
    sectionName ∈ (ensureSection sectionName sections).map Section.name := by
  unfold ensureSection
  split
  · rename_i h
    exact (any_name_iff sections sectionName).mp h
  · simp

theorem names_subset_ensureSection (sectionName n : String) (sections : List Section)
    (h : n ∈ sections.map Section.name) :
    n ∈ (ensureSection sectionName sections).map Section.name := by
  unfold ensureSection
  split
  · exact h
  · simp only [List.map_append, List.mem_append]
    exact Or.inl h

theorem ensureSection_of_mem (sectionName : String) (sections : List Section)
    (h : sectionName ∈ sections.map Section.name) :
    ensureSection sectionName sections = sections := by
  unfold ensureSection
  rw [if_pos ((any_name_iff sections sectionName).mpr h)]

theorem after_Set (p : ConfigParser) (sectionName key value : String)
    (h : sectionName ∈ p.sections.map Section.name) :
    p.after (p.Set sectionName key value) =
      ⟨p.sections.map (modSection sectionName (setOption key value))⟩ := by
  have h' : p.HasSection sectionName = true := (any_name_iff _ _).mpr h
  simp only [ConfigParser.Set, h', if_true, ConfigParser.after]
  rfl

theorem generateAwsConfigFile.loop_cons (appCfg : appconfig.Config) (y : types.AccountInfo)
    (accounts : List types.AccountInfo) (awsConfig : ConfigParser) :
    (generateAwsConfigFile.loop appCfg (y :: accounts) awsConfig).1 =
      (generateAwsConfigFile.loop appCfg accounts
        ⟨(ensureSection (sectionOf y) awsConfig.sections).map
          (modSection (sectionOf y) (setMany (profileOptions appCfg y)))⟩).1 := by
  have hadded : (if !awsConfig.HasSection (sectionOf y) then
        (awsConfig.after (awsConfig.AddSection (sectionOf y)),
          [Event.print (Notice.addingProfile (aws.ToString y.AccountName))])
      else (awsConfig, [])).1 = ⟨ensureSection (sectionOf y) awsConfig.sections⟩ := by
    unfold ensureSection
    cases h : awsConfig.HasSection (sectionOf y)
    · have h' : ¬ awsConfig.sections.any (fun s => s.name == sectionOf y) = true := by
        simpa [ConfigParser.HasSection] using h
      simp [ConfigParser.AddSection, ConfigParser.after, h, h']
    · have h' : awsConfig.sections.any (fun s => s.name == sectionOf y) = true := h
      simp [h']
  have hmem := mem_names_ensureSection (sectionOf y) awsConfig.sections
  conv_lhs => unfold generateAwsConfigFile.loop
  simp only []
  have hsec : "profile " ++ aws.ToString y.AccountName = sectionOf y := rfl
  rw [hsec, hadded]
  have e1 := after_Set ⟨ensureSection (sectionOf y) awsConfig.sections⟩ (sectionOf y)
    "sso_account_id" (aws.ToString y.AccountId) hmem
  rw [e1]
  have e2 := after_Set ⟨(ensureSection (sectionOf y) awsConfig.sections).map
      (modSection (sectionOf y) (setOption "sso_account_id" (aws.ToString y.AccountId)))⟩
    (sectionOf y) "sso_role_name" appCfg.SSORole
    (by rw [map_name_modSection]; exact hmem)
  rw [e2]
  have e3 := after_Set ⟨((ensureSection (sectionOf y) awsConfig.sections).map
      (modSection (sectionOf y) (setOption "sso_account_id" (aws.ToString y.AccountId)))).map
      (modSection (sectionOf y) (setOption "sso_role_name" appCfg.SSORole))⟩
    (sectionOf y) "sso_region" appCfg.SSORegion
    (by rw [map_name_modSection, map_name_modSection]; exact hmem)
  rw [e3]
  have e4 := after_Set ⟨(((ensureSection (sectionOf y) awsConfig.sections).map
      (modSection (sectionOf y) (setOption "sso_account_id" (aws.ToString y.AccountId)))).map
      (modSection (sectionOf y) (setOption "sso_role_name" appCfg.SSORole))).map
      (modSection (sectionOf y) (setOption "sso_region" appCfg.SSORegion))⟩
    (sectionOf y) "sso_start_url" appCfg.SSOStartURL
    (by rw [map_name_modSection, map_name_modSection, map_name_modSection]; exact hmem)
  rw [e4]
  have e5 := after_Set ⟨((((ensureSection (sectionOf y) awsConfig.sections).map
      (modSection (sectionOf y) (setOption "sso_account_id" (aws.ToString y.AccountId)))).map
      (modSection (sectionOf y) (setOption "sso_role_name" appCfg.SSORole))).map
      (modSection (sectionOf y) (setOption "sso_region" appCfg.SSORegion))).map
      (modSection (sectionOf y) (setOption "sso_start_url" appCfg.SSOStartURL))⟩
    (sectionOf y) "region" appCfg.DefaultRegion
    (by
      rw [map_name_modSection, map_name_modSection, map_name_modSection, map_name_modSection]
      exact hmem)
  rw [e5]
  simp only [List.map_map]
  refine congrArg (fun l => (generateAwsConfigFile.loop appCfg accounts ⟨l⟩).1) ?_
  apply List.map_congr_left
  intro s _
  simp only [Function.comp, modSection_modSection]
  rfl

theorem ensureSection_map_modSection (sectionName t : String)
    (f : List (String × String) → List (String × String)) (sections : List Section)
    (h : sectionName ∈ sections.map Section.name) :
    ensureSection t (sections.map (modSection sectionName f)) =
      (ensureSection t sections).map (modSection sectionName f) := by
  unfold ensureSection
  by_cases ht : t ∈ sections.map Section.name
  · have h1 := (any_name_iff sections t).mpr ht
    have h2 := (any_name_iff (sections.map (modSection sectionName f)) t).mpr
      (by rw [map_name_modSection]; exact ht)
    rw [if_pos h1, if_pos h2]
  · have h1 : ¬ sections.any (fun s => s.name == t) = true :=
      fun h' => ht ((any_name_iff sections t).mp h')
    have h2 : ¬ (sections.map (modSection sectionName f)).any (fun s => s.name == t) = true :=
      fun h' => ht (by
        have := (any_name_iff _ t).mp h'
        rwa [map_name_modSection] at this)
    rw [if_neg h1, if_neg h2, List.map_append]
    have hne : ¬ t = sectionName := fun e => ht (e ▸ h)
    simp [modSection, hne]

theorem ensureAll_map_modSection (sectionName : String)
    (f : List (String × String) → List (String × String)) (accounts : List types.AccountInfo)
    (sections : List Section) (h : sectionName ∈ sections.map Section.name) :
    ensureAll accounts (sections.map (modSection sectionName f)) =
      (ensureAll accounts sections).map (modSection sectionName f) := by
  induction accounts generalizing sections with
  | nil => rfl
  | cons y accounts ih =>
    simp only [ensureAll]
    rw [ensureSection_map_modSection sectionName (sectionOf y) f sections h]
    exact ih _ (names_subset_ensureSection (sectionOf y) sectionName sections h)

theorem generateAwsConfigFile.loop_sections (appCfg : appconfig.Config)
    (accounts : List types.AccountInfo) (awsConfig : ConfigParser) :
    (generateAwsConfigFile.loop appCfg accounts awsConfig).1 =
      ⟨(ensureAll accounts awsConfig.sections).map (applyProfiles appCfg accounts)⟩ := by
  induction accounts generalizing awsConfig with
  | nil =>
    cases awsConfig
    simp [generateAwsConfigFile.loop, ensureAll, applyProfiles]
  | cons y accounts ih =>
    rw [generateAwsConfigFile.loop_cons, ih]
    simp only [ensureAll]
    rw [ensureAll_map_modSection _ _ _ _ (mem_names_ensureSection _ _), List.map_map]
    rfl

theorem applyProfiles_name (appCfg : appconfig.Config) (accounts : List types.AccountInfo)
    (s : Section) : (applyProfiles appCfg accounts s).name = s.name := by
  induction accounts generalizing s with
  | nil => rfl
  | cons y accounts ih =>
    simp only [applyProfiles]
    rw [ih, modSection_name]

theorem applyProfiles_unrelated (appCfg : appconfig.Config) (accounts : List types.AccountInfo)
    (s : Section) (h : ∀ y ∈ accounts, sectionOf y ≠ s.name) :
    applyProfiles appCfg accounts s = s := by
  induction accounts generalizing s with
  | nil => rfl
  | cons y accounts ih =>
    have hy : ¬ s.name = sectionOf y := fun e => h y (List.mem_cons_self _ _) e.symm
    simp only [applyProfiles, modSection, hy, if_false]
    exact ih s (fun z hz => h z (List.mem_cons_of_mem _ hz))

theorem ensureAll_extends (accounts : List types.AccountInfo) (sections : List Section) :
    ∃ extra, ensureAll accounts sections = sections ++ extra ∧
      ∀ e ∈ extra, e.options = [] ∧ e.name ∉ sections.map Section.name ∧
        ∃ y ∈ accounts, e.name = sectionOf y := by
  induction accounts generalizing sections with
  | nil => exact ⟨[], by simp [ensureAll], by simp⟩
  | cons y accounts ih =>
    simp only [ensureAll]
    obtain ⟨extra, he, hextra⟩ := ih (ensureSection (sectionOf y) sections)
    by_cases hy : sectionOf y ∈ sections.map Section.name
    · rw [ensureSection_of_mem _ _ hy] at he hextra ⊢
      refine ⟨extra, he, ?_⟩
      intro e hmem
      obtain ⟨h1, h2, z, hz, h3⟩ := hextra e hmem
      exact ⟨h1, h2, z, List.mem_cons_of_mem _ hz, h3⟩
    · have hens : ensureSection (sectionOf y) sections = sections ++ [⟨sectionOf y, []⟩] := by
        unfold ensureSection
        rw [if_neg (fun h' => hy ((any_name_iff _ _).mp h'))]
      rw [hens] at he hextra ⊢
      refine ⟨⟨sectionOf y, []⟩ :: extra, by rw [he]; simp, ?_⟩
      intro e hmem
      rcases List.mem_cons.mp hmem with h | h
      · subst h
        exact ⟨rfl, hy, y, List.mem_cons_self _ _, rfl⟩
      · obtain ⟨h1, h2, z, hz, h3⟩ := hextra e h
        refine ⟨h1, ?_, z, List.mem_cons_of_mem _ hz, h3⟩
        intro h'
        exact h2 (by simp only [List.map_append, List.mem_append]; exact Or.inl h')

theorem mem_names_ensureAll (accounts : List types.AccountInfo) (sections : List Section)
    (y : types.AccountInfo) (hy : y ∈ accounts) :
    sectionOf y ∈ (ensureAll accounts sections).map Section.name := by
  induction accounts generalizing sections with
  | nil => simp at hy
  | cons z accounts ih =>
    simp only [ensureAll]
    rcases List.mem_cons.mp hy with h | h
    · subst h
      obtain ⟨extra, he, _⟩ := ensureAll_extends accounts (ensureSection (sectionOf y) sections)
      rw [he, List.map_append, List.mem_append]
      exact Or.inl (mem_names_ensureSection _ _)
    · exact ih _ h

theorem ensureAll_of_present (accounts : List types.AccountInfo) (sections : List Section)
    (h : ∀ y ∈ accounts, sectionOf y ∈ sections.map Section.name) :
    ensureAll accounts sections = sections := by
  induction accounts generalizing sections with
  | nil => rfl
  | cons y accounts ih =>
    simp only [ensureAll]
    rw [ensureSection_of_mem _ _ (h y (List.mem_cons_self _ _))]
    exact ih sections (fun z hz => h z (List.mem_cons_of_mem _ hz))

theorem profileOptions_nodup (appCfg : appconfig.Config) (y : types.AccountInfo) :
    ((profileOptions appCfg y).map Prod.fst).Nodup := by
  show managedKeys.Nodup
  decide

theorem applyProfiles_collapse (appCfg : appconfig.Config) (accounts : List types.AccountInfo)
    (n : String) :
    ∃ t : Option types.AccountInfo, ∀ o,
      applyProfiles appCfg accounts ⟨n, o⟩ =
        ⟨n, match t with
          | none => o
          | some z => setMany (profileOptions appCfg z) o⟩ := by
  induction accounts with
  | nil => exact ⟨none, fun o => rfl⟩
  | cons y accounts ih =>
    obtain ⟨t, ht⟩ := ih
    by_cases hn : n = sectionOf y
    · cases t with
      | none =>
        refine ⟨some y, fun o => ?_⟩
        simp only [applyProfiles, modSection, hn, if_true]
        rw [← hn, ht]
      | some z =>
        refine ⟨some z, fun o => ?_⟩
        simp only [applyProfiles, modSection, hn, if_true]
        rw [← hn, ht]
        simp only []
        rw [setMany_overwrite (profileOptions appCfg y) (profileOptions appCfg z) o rfl
          (profileOptions_nodup appCfg _)]
    · refine ⟨t, fun o => ?_⟩
      simp only [applyProfiles, modSection, hn, if_false]
      exact ht o

theorem applyProfiles_idem (appCfg : appconfig.Config) (accounts : List types.AccountInfo)
    (s : Section) :
    applyProfiles appCfg accounts (applyProfiles appCfg accounts s) =
      applyProfiles appCfg accounts s := by
  obtain ⟨n, o⟩ := s
  obtain ⟨t, ht⟩ := applyProfiles_collapse appCfg accounts n
  rw [ht o, ht]
  cases t with
  | none => rfl
  | some z =>
    simp only []
    rw [setMany_overwrite (profileOptions appCfg z) (profileOptions appCfg z) o rfl (profileOptions_nodup appCfg _)]

theorem Get_map_applyProfiles (appCfg : appconfig.Config) (accounts : List types.AccountInfo)
    (sections : List Section) (n k : String) :
    ConfigParser.Get ⟨sections.map (applyProfiles appCfg accounts)⟩ n k =
      (sections.find? (fun s => s.name == n)).bind
        (fun s => lookupOption k (applyProfiles appCfg accounts s).options) := by
  unfold ConfigParser.Get
  simp only [List.find?_map]
  have hp : ((fun s : Section => s.name == n) ∘ applyProfiles appCfg accounts) =
      (fun s : Section => s.name == n) := by
    funext s
    simp only [Function.comp, applyProfiles_name]
  rw [hp]
  cases sections.find? (fun s => s.name == n) <;> rfl

theorem strings.lessEqList_total (s t : List Char) :
    strings.lessEqList s t = true ∨ strings.lessEqList t s = true := by
  induction s generalizing t with
  | nil => exact Or.inl (by cases t <;> rfl)
  | cons a as ih =>
    cases t with
    | nil => exact Or.inr rfl
    | cons b bs =>
      simp only [strings.lessEqList]
      by_cases h1 : a.toNat < b.toNat
      · exact Or.inl (by simp [h1])
      · by_cases h2 : b.toNat < a.toNat
        · exact Or.inr (by simp [h2])
        · simp only [h1, h2, if_false]
          exact ih bs

theorem strings.lessEqList_trans (s t u : List Char) (h1 : strings.lessEqList s t = true)
    (h2 : strings.lessEqList t u = true) : strings.lessEqList s u = true := by
  induction s generalizing t u with
  | nil => cases u <;> rfl
  | cons a as ih =>
    cases t with
    | nil => simp [strings.lessEqList] at h1
    | cons b bs =>
      cases u with
      | nil => simp [strings.lessEqList] at h2
      | cons c cs =>
        simp only [strings.lessEqList] at h1 h2 ⊢
        by_cases hab : a.toNat < b.toNat
        · by_cases hbc : b.toNat < c.toNat
          · have : a.toNat < c.toNat := by omega
            simp [this]
          · by_cases hcb : c.toNat < b.toNat
            · simp [hbc, hcb] at h2
            · have : a.toNat < c.toNat := by omega
              simp [this]
        · by_cases hba : b.toNat < a.toNat
          · simp [hab, hba] at h1
          · simp only [hab, hba, if_false] at h1
            by_cases hbc : b.toNat < c.toNat
            · have : a.toNat < c.toNat := by omega
              simp [this]
            · by_cases hcb : c.toNat < b.toNat
              · simp [hbc, hcb] at h2
              · simp only [hbc, hcb, if_false] at h2
                have hac : ¬ a.toNat < c.toNat := by omega
                have hca : ¬ c.toNat < a.toNat := by omega
                simp only [hac, hca, if_false]
                exact ih bs cs h1 h2

theorem ConfigParser.Sections_sorted (p : ConfigParser) :
    p.Sections.Sorted (fun a b => strings.LessEq a b = true) :=
  @List.sorted_insertionSort String (fun a b => strings.LessEq a b = true) _
    ⟨fun a b => strings.lessEqList_total a.data b.data⟩
    ⟨fun a b c => strings.lessEqList_trans a.data b.data c.data⟩ _

theorem ConfigParser.Sections_perm (p : ConfigParser) :
    p.Sections.Perm (p.sections.map Section.name) :=
  List.perm_insertionSort _ _

/-- C19, as stated, fails: a config file whose sections stand in the order
`[profile Prod]`, `[default]` is synchronized with the accounts `Prod` and
`Dev`; the run succeeds, and the file it saves holds the sections in the
order `[default]`, `[profile Dev]`, `[profile Prod]`: the two sections that
were in the file have changed places. -/
theorem generateAwsConfigFile_sorts_sections :
    (diskWith withOldProd).files "/home/u/.aws/config" =
      some (FileContent.config withOldProd) ∧
    withOldProd.sections.map Section.name = ["profile Prod", "default"] ∧
    (generateAwsConfigFile (onePageClient [prodAccount, devAccount]) (some "tok")
      "/home/u/.aws/config" false sampleAppCfg (diskWith withOldProd)).1 =
      Outcome.returned none ∧
    (generateAwsConfigFile (onePageClient [prodAccount, devAccount]) (some "tok")
      "/home/u/.aws/config" false sampleAppCfg (diskWith withOldProd)).2.1.savedSections
        "/home/u/.aws/config" = ["default", "profile Dev", "profile Prod"] ∧
    ¬ (["profile Prod", "default"] : List String).Sublist
      ((generateAwsConfigFile (onePageClient [prodAccount, devAccount]) (some "tok")
        "/home/u/.aws/config" false sampleAppCfg (diskWith withOldProd)).2.1.savedSections
          "/home/u/.aws/config") := by
  have h : (generateAwsConfigFile (onePageClient [prodAccount, devAccount]) (some "tok")
      "/home/u/.aws/config" false sampleAppCfg (diskWith withOldProd)).2.1.savedSections
        "/home/u/.aws/config" = ["default", "profile Dev", "profile Prod"] := by decide
  refine ⟨by decide, by decide, by decide, h, ?_⟩
  rw [h]
  decide

/-- C19, amended: after a successful `generateAwsConfigFile`, every section
that is not "profile <accountName>" for a listed account reads as before,
key by key; every section that was in the file is still there; and the saved
file holds the sections sorted by name, each section of the written config
once for each time it occurs there, so that sections keep their relative
order only where that was the order of their names. -/
theorem generateAwsConfigFile_keeps_unrelated_sections (ssoClient : SSOClient)
    (token : Option String) (configFile : String) (diff : Bool) (appCfg : appconfig.Config)
    (d : Disk) (awsConfig : ConfigParser) (page : sso.ListAccountsOutput)
    (hparse : d.files configFile = some (FileContent.config awsConfig))
    (hlist : ssoClient.ListAccounts ⟨token, none, none⟩ = .ok page)
    (hok : (generateAwsConfigFile ssoClient token configFile diff appCfg d).1 =
      Outcome.returned none) :
    ∃ written,
      (generateAwsConfigFile ssoClient token configFile diff appCfg d).2.1.files configFile =
        some (FileContent.config written) ∧
      (∀ sectionName,
        (∀ a ∈ page.AccountList, "profile " ++ aws.ToString a.AccountName ≠ sectionName) →
        ∀ key, written.Get sectionName key = awsConfig.Get sectionName key) ∧
      (∀ sectionName, awsConfig.HasSection sectionName = true →
        written.HasSection sectionName = true ∧
          sectionName ∈ (generateAwsConfigFile ssoClient token configFile diff appCfg
            d).2.1.savedSections configFile) ∧
      ((generateAwsConfigFile ssoClient token configFile diff appCfg d).2.1.savedSections
        configFile).Sorted (fun a b => strings.LessEq a b = true) ∧
      ((generateAwsConfigFile ssoClient token configFile diff appCfg d).2.1.savedSections
        configFile).Perm (written.sections.map Section.name) := by
  have hw := generateAwsConfigFile_success ssoClient token configFile diff appCfg d awsConfig
    page hparse hlist hok
  have hsaved : (generateAwsConfigFile ssoClient token configFile diff appCfg
      d).2.1.savedSections configFile =
      (generateAwsConfigFile.loop appCfg page.AccountList awsConfig).1.Sections := by
    unfold Disk.savedSections
    rw [hw]
  have hnames : ∀ n, awsConfig.HasSection n = true →
      n ∈ (generateAwsConfigFile.loop appCfg page.AccountList awsConfig).1.sections.map
        Section.name := by
    intro n hn
    rw [generateAwsConfigFile.loop_sections]
    simp only []
    rw [List.map_map]
    have : (Section.name ∘ applyProfiles appCfg page.AccountList) = Section.name := by
      funext s
      simp only [Function.comp, applyProfiles_name]
    obtain ⟨extra, he, _⟩ := ensureAll_extends page.AccountList awsConfig.sections
    rw [this, he, List.map_append, List.mem_append]
    exact Or.inl ((any_name_iff _ _).mp hn)
  refine ⟨_, hw, ?_, ?_, ?_, ?_⟩
  · intro n hun k
    rw [generateAwsConfigFile.loop_sections, Get_map_applyProfiles]
    obtain ⟨extra, he, hextra⟩ := ensureAll_extends page.AccountList awsConfig.sections
    rw [he, List.find?_append]
    have hbefore : awsConfig.Get n k =
        (awsConfig.sections.find? (fun s => s.name == n)).bind
          (fun s => lookupOption k s.options) := rfl
    rw [hbefore]
    have hx : extra.find? (fun s => s.name == n) = none := by
      rw [List.find?_eq_none]
      intro e hmem hname
      obtain ⟨_, _, y, hy, hey⟩ := hextra e hmem
      have : e.name = n := by simpa using hname
      exact hun y hy (by rw [← this, hey]; rfl)
    cases hf : awsConfig.sections.find? (fun s => s.name == n) with
    | some s0 =>
      have hs0 : s0.name = n := by simpa using List.find?_some hf
      simp only [Option.or_some, Option.some_bind]
      rw [applyProfiles_unrelated appCfg _ s0 (fun y hy => by rw [hs0]; exact hun y hy)]
    | none =>
      simp only [Option.none_or, Option.none_bind, hx]
  · intro n hn
    refine ⟨(any_name_iff _ _).mpr (hnames n hn), ?_⟩
    rw [hsaved]
    exact (ConfigParser.Sections_perm _).mem_iff.mpr (hnames n hn)
  · rw [hsaved]
    exact ConfigParser.Sections_sorted _
  · rw [hsaved]
    exact ConfigParser.Sections_perm _

/-- Witness of `generateAwsConfigFile_keeps_unrelated_sections`: `[default]`
reads as before and is still a section of the saved file. -/
theorem generateAwsConfigFile_keeps_unrelated_sections_witness :
    ∃ written,
      (generateAwsConfigFile (onePageClient [prodAccount, devAccount]) (some "tok")
        "/home/u/.aws/config" false sampleAppCfg (diskWith withOldProd)).2.1.files
          "/home/u/.aws/config" = some (FileContent.config written) ∧
      written.Get "default" "region" = some "us-east-1" ∧
      written.HasSection "default" = true := by
  obtain ⟨written, hw, hget, hhas, _⟩ := generateAwsConfigFile_keeps_unrelated_sections
    (onePageClient [prodAccount, devAccount]) (some "tok") "/home/u/.aws/config" false
    sampleAppCfg (diskWith withOldProd) withOldProd ⟨[prodAccount, devAccount], none⟩
    (by decide) rfl (by decide)
  exact ⟨written, hw,
    (hget "default" (by decide) "region").trans (by decide), (hhas "default" (by decide)).1⟩

/-- C20: the profile update is idempotent.  Applying the loop of
`generateAwsConfigFile` to its own result, with the same accounts and the
same application config, gives that result again; and a second successful
run of `generateAwsConfigFile` on the disk left by a first successful run,
with the same answer of `ListAccounts`, leaves the same config at
`configFile`. -/
theorem generateAwsConfigFile_idempotent (appCfg : appconfig.Config)
    (accounts : List types.AccountInfo) (awsConfig : ConfigParser) :
    (generateAwsConfigFile.loop appCfg accounts
      (generateAwsConfigFile.loop appCfg accounts awsConfig).1).1 =
      (generateAwsConfigFile.loop appCfg accounts awsConfig).1 ∧
    ∀ (ssoClient : SSOClient) (token : Option String) (configFile : String) (diff : Bool)
      (d : Disk) (page : sso.ListAccountsOutput),
      page.AccountList = accounts →
      d.files configFile = some (FileContent.config awsConfig) →
      ssoClient.ListAccounts ⟨token, none, none⟩ = .ok page →
      (generateAwsConfigFile ssoClient token configFile diff appCfg d).1 =
        Outcome.returned none →
      (generateAwsConfigFile ssoClient token configFile diff appCfg
        (generateAwsConfigFile ssoClient token configFile diff appCfg d).2.1).1 =
        Outcome.returned none →
      (generateAwsConfigFile ssoClient token configFile diff appCfg
        (generateAwsConfigFile ssoClient token configFile diff appCfg d).2.1).2.1.files
          configFile =
        (generateAwsConfigFile ssoClient token configFile diff appCfg d).2.1.files
          configFile := by
  have hidem : (generateAwsConfigFile.loop appCfg accounts
      (generateAwsConfigFile.loop appCfg accounts awsConfig).1).1 =
      (generateAwsConfigFile.loop appCfg accounts awsConfig).1 := by
    rw [generateAwsConfigFile.loop_sections appCfg accounts awsConfig,
      generateAwsConfigFile.loop_sections]
    simp only []
    have hpresent : ∀ y ∈ accounts, sectionOf y ∈
        ((ensureAll accounts awsConfig.sections).map (applyProfiles appCfg accounts)).map
          Section.name := by
      intro y hy
      rw [List.map_map]
      have : (Section.name ∘ applyProfiles appCfg accounts) = Section.name := by
        funext s
        simp only [Function.comp, applyProfiles_name]
      rw [this]
      exact mem_names_ensureAll accounts _ y hy
    rw [ensureAll_of_present accounts _ hpresent, List.map_map]
    congr 1
    apply List.map_congr_left
    intro s _
    exact applyProfiles_idem appCfg accounts s
  refine ⟨hidem, ?_⟩
  intro ssoClient token configFile diff d page hpage hparse hlist hok1 hok2
  subst hpage
  have h1 := generateAwsConfigFile_success ssoClient token configFile diff appCfg d awsConfig
    page hparse hlist hok1
  have h2 := generateAwsConfigFile_success ssoClient token configFile diff appCfg
    (generateAwsConfigFile ssoClient token configFile diff appCfg d).2.1 _
    page h1 hlist hok2
  rw [h2, h1]
  exact congrArg (fun p => some (FileContent.config p)) hidem

/-- Witness of `generateAwsConfigFile_idempotent`: a second run over `Prod`
and `Dev` leaves the config of the first run. -/
theorem generateAwsConfigFile_idempotent_witness :
    (generateAwsConfigFile (onePageClient [prodAccount, devAccount]) (some "tok")
      "/home/u/.aws/config" false sampleAppCfg
      (generateAwsConfigFile (onePageClient [prodAccount, devAccount]) (some "tok")
        "/home/u/.aws/config" false sampleAppCfg (diskWith withOldProd)).2.1).2.1.files
        "/home/u/.aws/config" =
      (generateAwsConfigFile (onePageClient [prodAccount, devAccount]) (some "tok")
        "/home/u/.aws/config" false sampleAppCfg (diskWith withOldProd)).2.1.files
        "/home/u/.aws/config" :=
  (generateAwsConfigFile_idempotent sampleAppCfg [prodAccount, devAccount] withOldProd).2
    (onePageClient [prodAccount, devAccount]) (some "tok") "/home/u/.aws/config" false
    (diskWith withOldProd) ⟨[prodAccount, devAccount], none⟩ rfl (by decide) rfl (by decide)
    (by decide)

/-! ## Failures of the generate command: claims -/

theorem ne_append_new (s : String) : ¬ s = s ++ ".new" := by
  intro h
  have hl := congrArg String.length h
  rw [String.length_append] at hl
  have h4 : (".new" : String).length = 4 := by decide
  omega

theorem countP_isRename_loop (appCfg : appconfig.Config)
    (accounts : List types.AccountInfo) (awsConfig : ConfigParser) :
    (generateAwsConfigFile.loop appCfg accounts awsConfig).2.countP Event.isRename = 0 := by
  rw [List.countP_eq_zero]
  intro e he
  obtain ⟨n, hn⟩ := generateAwsConfigFile.loop_prints appCfg accounts awsConfig e he
  subst hn
  simp [Event.isRename]

/-- C21: whenever `generateAwsConfigFile` does not return nil (`ListAccounts`
failed, saving the ".new" file failed, the rename failed, or the file did
not parse), the content at `configFile` is what it was; after a `ListAccounts`
or save failure no rename is attempted; and the content at `configFile`
changes only in a run whose trace holds the rename of "<configFile>.new"
onto it. -/
theorem generateAwsConfigFile_failure_keeps_original (ssoClient : SSOClient)
    (token : Option String) (configFile : String) (diff : Bool) (appCfg : appconfig.Config)
    (d : Disk) :
    ((generateAwsConfigFile ssoClient token configFile diff appCfg d).1 ≠
        Outcome.returned none →
      (generateAwsConfigFile ssoClient token configFile diff appCfg d).2.1.files configFile =
        d.files configFile) ∧
    (((∃ err, ssoClient.ListAccounts ⟨token, none, none⟩ = .error err) ∨
        (∃ failure, d.saveError (configFile ++ ".new") = some failure)) →
      (generateAwsConfigFile ssoClient token configFile diff appCfg d).2.2.countP
        Event.isRename = 0) ∧
    ((generateAwsConfigFile ssoClient token configFile diff appCfg d).2.1.files configFile ≠
        d.files configFile →
      Event.rename (configFile ++ ".new") configFile ∈
        (generateAwsConfigFile ssoClient token configFile diff appCfg d).2.2) := by
  have hne := ne_append_new configFile
  have hloop := countP_isRename_loop appCfg
  have hdiff : ∀ (d : Disk) (f1 f2 : String),
      (showFileDiff d f1 f2).countP Event.isRename = 0 := by
    intro d f1 f2
    unfold showFileDiff
    split
    · rfl
    · split <;> rfl
  cases h1 : configparser.NewConfigParserFromFile d configFile with
  | error err => simp [generateAwsConfigFile, h1, Event.isRename]
  | ok awsConfig =>
    cases h2 : ssoClient.ListAccounts ⟨token, none, none⟩ with
    | error err => simp [generateAwsConfigFile, h1, h2, Event.isRename]
    | ok page =>
      cases h3 : d.saveError (configFile ++ ".new") with
      | some failure =>
        simp [generateAwsConfigFile, h1, h2, h3, Disk.write, hne, List.countP_cons,
          List.countP_append, hloop, Event.isRename]
      | none =>
        cases h4 : d.renameError (configFile ++ ".new") configFile <;>
          cases diff <;>
          simp [generateAwsConfigFile, h1, h2, h3, h4, Disk.write, Disk.rename, hne]

/-- Witness of `generateAwsConfigFile_failure_keeps_original`: the rename
fails, and the config file still holds `[default]` only. -/
theorem generateAwsConfigFile_failure_keeps_original_witness :
    (generateAwsConfigFile (onePageClient [prodAccount]) (some "tok") "/home/u/.aws/config"
      false sampleAppCfg (renameFailsDisk defaultOnly)).1 =
      Outcome.returned (some "failed to rename config file: permission denied") ∧
    (generateAwsConfigFile (onePageClient [prodAccount]) (some "tok") "/home/u/.aws/config"
      false sampleAppCfg (renameFailsDisk defaultOnly)).2.1.files "/home/u/.aws/config" =
      some (FileContent.config defaultOnly) :=
  ⟨by decide,
    (generateAwsConfigFile_failure_keeps_original (onePageClient [prodAccount]) (some "tok")
      "/home/u/.aws/config" false sampleAppCfg (renameFailsDisk defaultOnly)).1 (by decide)⟩

/-- C22 fails on the code: when the config file is missing (or does not
parse), `generateAwsConfigFile` does not return an error to its caller:
`log.Fatal` ends the process with status 1 inside it, the `return err` that
follows is never reached, and `cmd.Run` does not return.  The rest holds: no
`ListAccounts` call is made and neither file is created. -/
theorem generateAwsConfigFile_exits_on_missing_config :
    (generateAwsConfigFile (onePageClient [prodAccount]) (some "tok") "/home/u/.aws/config"
      false sampleAppCfg emptyDisk).1 = Outcome.exited 1 ∧
    (generateAwsConfigFile (onePageClient [prodAccount]) (some "tok") "/home/u/.aws/config"
      false sampleAppCfg emptyDisk).2.2 =
      [Event.parseConfigFile "/home/u/.aws/config",
        Event.logFatal "open /home/u/.aws/config: no such file or directory"] ∧
    (tokenCmd.Run [] emptyDisk).1 = Outcome.exited 1 ∧
    (tokenCmd.Run [] brokenConfigDisk).1 = Outcome.exited 1 ∧
    (tokenCmd.Run [] emptyDisk).2.1.files "/home/u/.aws/config" = none ∧
    (tokenCmd.Run [] emptyDisk).2.1.files "/home/u/.aws/config.new" = none := by
  decide

/-! ## The application configuration: claims -/

/-- C23: `Config.Validate` returns no error exactly when `SSO.StartURL`,
`SSO.Region`, `AWS.DefaultRegion` and `AWS.ConfigFile` are all non-empty
(`SSO.Role` plays no part); otherwise it returns the error of the first empty
field in that order. -/
theorem Validate_first_empty_field (c : appconfig.Config) :
    (c.Validate = none ↔
      c.SSO.StartURL ≠ "" ∧ c.SSO.Region ≠ "" ∧ c.AWS.DefaultRegion ≠ "" ∧
        c.AWS.ConfigFile ≠ "") ∧
    (c.SSO.StartURL = "" → c.Validate = some "SSO start URL is required") ∧
    (c.SSO.StartURL ≠ "" → c.SSO.Region = "" →
      c.Validate = some "SSO region is required") ∧
    (c.SSO.StartURL ≠ "" → c.SSO.Region ≠ "" → c.AWS.DefaultRegion = "" →
      c.Validate = some "AWS default region is required") ∧
    (c.SSO.StartURL ≠ "" → c.SSO.Region ≠ "" → c.AWS.DefaultRegion ≠ "" →
      c.AWS.ConfigFile = "" → c.Validate = some "AWS config file path is required") := by
  unfold appconfig.Config.Validate appconfig.SSOConfig.Validate appconfig.AWSConfig.Validate
  by_cases h1 : c.SSO.StartURL = "" <;> by_cases h2 : c.SSO.Region = "" <;>
    by_cases h3 : c.AWS.DefaultRegion = "" <;> by_cases h4 : c.AWS.ConfigFile = "" <;>
    simp [h1, h2, h3, h4]

/-- Witness of `Validate_first_empty_field`: a config without a role is
valid, and a config without a region is refused for the region. -/
theorem Validate_first_empty_field_witness :
    appconfig.Config.Validate
      ⟨⟨"https://x.awsapps.com/start", "us-west-2", ""⟩, ⟨"us-east-1", "/home/u/.aws/config"⟩⟩ =
      none ∧
    appconfig.Config.Validate
      ⟨⟨"https://x.awsapps.com/start", "", "Admin"⟩, ⟨"", "/home/u/.aws/config"⟩⟩ =
      some "SSO region is required" :=
  ⟨(Validate_first_empty_field
      ⟨⟨"https://x.awsapps.com/start", "us-west-2", ""⟩,
        ⟨"us-east-1", "/home/u/.aws/config"⟩⟩).1.mpr (by decide),
    (Validate_first_empty_field
      ⟨⟨"https://x.awsapps.com/start", "", "Admin"⟩, ⟨"", "/home/u/.aws/config"⟩⟩).2.2.1
      (by decide) rfl⟩

theorem IsValidKey_iff (key : String) :
    shared.IsValidKey key = true ↔
      key = "sso.start_url" ∨ key = "sso.region" ∨ key = "sso.role" ∨
        key = "aws.default_region" ∨ key = "aws.config_file" := by
  simp [shared.IsValidKey, shared.ValidKeys, shared.KeySSOStartURL, shared.KeySSORegion,
    shared.KeySSORole, shared.KeyAWSDefaultRegion, shared.KeyAWSConfigFile]

/-- C24: for a valid key, `SetConfigValue` succeeds, `GetConfigValue` of the
same key then returns the value set, and `GetConfigValue` of every other
valid key returns what it returned before; for a key that is not valid, both
functions return the error "unknown configuration key: <key>" and the config
is as it was. -/
theorem SetConfigValue_GetConfigValue (c : appconfig.Config) (k v : String) :
    (shared.IsValidKey k = true →
      (shared.SetConfigValue c k v).2 = none ∧
      shared.GetConfigValue (shared.SetConfigValue c k v).1 k = (v, none) ∧
      ∀ k', shared.IsValidKey k' = true → k' ≠ k →
        shared.GetConfigValue (shared.SetConfigValue c k v).1 k' =
          shared.GetConfigValue c k') ∧
    (shared.IsValidKey k = false →
      shared.GetConfigValue c k = ("", some ("unknown configuration key: " ++ k)) ∧
      shared.SetConfigValue c k v = (c, some ("unknown configuration key: " ++ k))) := by
  constructor
  · intro hk
    rw [IsValidKey_iff] at hk
    refine ⟨?_, ?_, ?_⟩
    · rcases hk with h | h | h | h | h <;> subst h <;>
        simp [shared.SetConfigValue, shared.KeySSOStartURL, shared.KeySSORegion,
          shared.KeySSORole, shared.KeyAWSDefaultRegion, shared.KeyAWSConfigFile]
    · rcases hk with h | h | h | h | h <;> subst h <;>
        simp [shared.SetConfigValue, shared.GetConfigValue, shared.KeySSOStartURL,
          shared.KeySSORegion, shared.KeySSORole, shared.KeyAWSDefaultRegion,
          shared.KeyAWSConfigFile]
    · intro k' hk' hne
      rw [IsValidKey_iff] at hk'
      rcases hk with h | h | h | h | h <;> subst h <;>
        rcases hk' with h' | h' | h' | h' | h' <;> subst h' <;>
        first
          | exact absurd rfl hne
          | simp [shared.SetConfigValue, shared.GetConfigValue, shared.KeySSOStartURL,
              shared.KeySSORegion, shared.KeySSORole, shared.KeyAWSDefaultRegion,
              shared.KeyAWSConfigFile]
  · intro hk
    have hnot : ¬ (k = "sso.start_url" ∨ k = "sso.region" ∨ k = "sso.role" ∨
        k = "aws.default_region" ∨ k = "aws.config_file") := by
      rw [← IsValidKey_iff, hk]
      simp
    simp only [not_or] at hnot
    obtain ⟨h1, h2, h3, h4, h5⟩ := hnot
    simp [shared.SetConfigValue, shared.GetConfigValue, shared.KeySSOStartURL,
      shared.KeySSORegion, shared.KeySSORole, shared.KeyAWSDefaultRegion,
      shared.KeyAWSConfigFile, h1, h2, h3, h4, h5]

/-- Witness of `SetConfigValue_GetConfigValue`: setting `sso.role` is read
back and leaves `sso.region`; the key `sso.rol` is refused. -/
theorem SetConfigValue_GetConfigValue_witness :
    shared.GetConfigValue (shared.SetConfigValue sampleAppCfg "sso.role" "ReadOnly").1
      "sso.role" = ("ReadOnly", none) ∧
    shared.GetConfigValue (shared.SetConfigValue sampleAppCfg "sso.role" "ReadOnly").1
      "sso.region" = shared.GetConfigValue sampleAppCfg "sso.region" ∧
    shared.SetConfigValue sampleAppCfg "sso.rol" "ReadOnly" =
      (sampleAppCfg, some "unknown configuration key: sso.rol") :=
  ⟨((SetConfigValue_GetConfigValue sampleAppCfg "sso.role" "ReadOnly").1 (by decide)).2.1,
    ((SetConfigValue_GetConfigValue sampleAppCfg "sso.role" "ReadOnly").1 (by decide)).2.2
      "sso.region" (by decide) (by decide),
    ((SetConfigValue_GetConfigValue sampleAppCfg "sso.rol" "ReadOnly").2 (by decide)).2⟩

theorem append_ne_empty_of_left (s t : String) (h : s ≠ "") : s ++ t ≠ "" := by
  intro he
  have hd := congrArg String.data he
  rw [String.data_append] at hd
  have hs : s.data = [] := (List.append_eq_nil.mp hd).1
  exact h (String.ext hs)

theorem defaultConfigFile_ne_empty (home : String) :
    filepath.JoinAll [home, ".aws", "config"] ≠ "" := by
  unfold filepath.JoinAll
  by_cases h : home = ""
  · subst h
    decide
  · have hf : ([home, ".aws", "config"].filter (fun e => decide (e ≠ ""))) =
        [home, ".aws", "config"] := by
      simp [List.filter, h]
    rw [hf]
    simp only [List.foldl]
    exact append_ne_empty_of_left _ _
      (append_ne_empty_of_left _ _ (append_ne_empty_of_left _ _
        (append_ne_empty_of_left _ _ h)))

/-- C28: after `SetDefaults`, every field that was non-empty is unchanged,
every field that was empty holds its default (for `AWS.ConfigFile` the join
of the home directory, ".aws" and "config"), `Validate` returns no error, and
a second `SetDefaults` changes nothing. -/
theorem SetDefaults_fills_and_validates (home : String) (c : appconfig.Config) :
    ((c.SetDefaults home).SSO.StartURL =
        if c.SSO.StartURL = "" then "https://your-sso-portal.awsapps.com/start"
        else c.SSO.StartURL) ∧
    ((c.SetDefaults home).SSO.Region =
        if c.SSO.Region = "" then "us-east-1" else c.SSO.Region) ∧
    ((c.SetDefaults home).SSO.Role =
        if c.SSO.Role = "" then "AdministratorAccess" else c.SSO.Role) ∧
    ((c.SetDefaults home).AWS.DefaultRegion =
        if c.AWS.DefaultRegion = "" then "us-east-1" else c.AWS.DefaultRegion) ∧
    ((c.SetDefaults home).AWS.ConfigFile =
        if c.AWS.ConfigFile = "" then filepath.JoinAll [home, ".aws", "config"]
        else c.AWS.ConfigFile) ∧
    (c.SetDefaults home).Validate = none ∧
    (c.SetDefaults home).SetDefaults home = c.SetDefaults home := by
  have hj := defaultConfigFile_ne_empty home
  obtain ⟨⟨u, r, ro⟩, ⟨dr, cf⟩⟩ := c
  by_cases h1 : u = "" <;> by_cases h2 : r = "" <;> by_cases h3 : ro = "" <;>
    by_cases h4 : dr = "" <;> by_cases h5 : cf = "" <;>
    simp [appconfig.Config.SetDefaults, appconfig.SSOConfig.SetDefaults,
      appconfig.AWSConfig.SetDefaults, appconfig.Config.Validate,
      appconfig.SSOConfig.Validate, appconfig.AWSConfig.Validate, h1, h2, h3, h4, h5, hj]

/-! ## The pace and the deadline of polling: claims -/

theorem paced_quiet (seconds : Nat) (rested : Bool) (rest : List Event)
    (h : ∀ e ∈ rest, e.isSleep = false ∧ e.isCreateToken = false) :
    paced seconds rested rest = true := by
  induction rest with
  | nil => rfl
  | cons e rest ih =>
    have he := h e (List.mem_cons_self _ _)
    simp only [paced, he.1, he.2, Bool.false_eq_true, if_false]
    exact ih (fun x hx => h x (List.mem_cons_of_mem _ hx))

theorem paced_append_quiet (seconds : Nat) (rested : Bool) (l rest : List Event)
    (h : ∀ e ∈ rest, e.isSleep = false ∧ e.isCreateToken = false) :
    paced seconds rested (l ++ rest) = paced seconds rested l := by
  induction l generalizing rested with
  | nil => simp only [List.nil_append, paced, paced_quiet seconds rested rest h]
  | cons e l ih => simp only [List.cons_append, paced, List.append_eq, ih]

theorem pollForToken.loop_paced (client : SSOOIDCClient) (input : CreateTokenInput)
    (attempts : List Nat) (v : PollVars) :
    paced 5 true (pollForToken.loop client input attempts v).2 = true := by
  induction attempts generalizing v with
  | nil => rfl
  | cons a attempts ih =>
    unfold pollForToken.loop
    cases hr : client.CreateToken a input with
    | ok token => simp [paced, Event.isCreateToken, Event.isSleep]
    | error err =>
      by_cases hp : isPending err = true
      · have := ih ⟨none, some err⟩
        simp only [hp, if_true]
        split <;> simp [paced, Event.isCreateToken, Event.isSleep, interval, this]
      · simp [hp, paced, Event.isCreateToken, Event.isSleep]

theorem pendingRounds_range (input : CreateTokenInput) (n attempt : Nat) :
    pendingRounds input (List.range' attempt n) = fiveSecondRounds input attempt n := by
  induction n generalizing attempt with
  | zero => rfl
  | succ n ih =>
    rw [List.range'_succ, pendingRounds, pendingRound, fiveSecondRounds, ih]
    simp [interval, maxAttempts]

theorem count_sleep_fiveSecondRounds (input : CreateTokenInput) (n attempt : Nat) :
    (fiveSecondRounds input attempt n).count (Event.sleep 5) = n := by
  induction n generalizing attempt with
  | zero => rfl
  | succ n ih =>
    rw [fiveSecondRounds]
    split <;> simp [List.count_cons, ih]

theorem pollForToken_trace (client : SSOOIDCClient) (register : RegisterClientOutput)
    (deviceAuth : StartDeviceAuthorizationOutput) :
    ∃ rest, (pollForToken client register deviceAuth).2 =
        Event.withTimeout 10 :: ((pollForToken.loop client
          (pollForToken.input register deviceAuth) (List.range' 1 maxAttempts)
          ⟨none, none⟩).2 ++ (rest ++ [Event.cancel])) ∧
      ∀ e ∈ rest, e.isSleep = false ∧ e.isCreateToken = false ∧ e.isWithTimeout = false ∧
        e.isCancel = false := by
  unfold pollForToken
  cases h : (pollForToken.loop client (pollForToken.input register deviceAuth)
      (List.range' 1 maxAttempts) ⟨none, none⟩).1.err with
  | none => exact ⟨[], by simp [h], by simp⟩
  | some err =>
    by_cases hc : strings.Contains err "authorization_pending" = true
    · exact ⟨[Event.print Notice.authorizationTimeout], by simp [h, hc],
        by simp [Event.isSleep, Event.isCreateToken, Event.isWithTimeout, Event.isCancel]⟩
    · exact ⟨[], by simp [h, hc], by simp⟩

theorem pollForToken.loop_not_pending (client : SSOOIDCClient) (input : CreateTokenInput)
    (attempt : Nat) (attempts : List Nat) (v : PollVars)
    (h : pendingResponse (client.CreateToken attempt input) = false) :
    ∃ notice, (pollForToken.loop client input (attempt :: attempts) v).2 =
      [Event.createToken input, Event.print notice] := by
  unfold pollForToken.loop
  cases hr : client.CreateToken attempt input with
  | ok token => exact ⟨_, rfl⟩
  | error err =>
    rw [hr] at h
    simp only [pendingResponse] at h
    simp only [h, Bool.false_eq_true, if_false]
    exact ⟨_, rfl⟩

theorem pollForToken.loop_quiet (client : SSOOIDCClient) (input : CreateTokenInput)
    (attempts : List Nat) (v : PollVars) :
    ∀ e ∈ (pollForToken.loop client input attempts v).2,
      e.isWithTimeout = false ∧ e.isCancel = false := by
  induction attempts generalizing v with
  | nil => simp [pollForToken.loop]
  | cons a attempts ih =>
    unfold pollForToken.loop
    cases hr : client.CreateToken a input with
    | ok token => simp [Event.isWithTimeout, Event.isCancel]
    | error err =>
      by_cases hp : isPending err = true
      · have := ih ⟨none, some err⟩
        simp only [hp, if_true]
        split <;> simp [Event.isWithTimeout, Event.isCancel] <;> exact this
      · simp [hp, Event.isWithTimeout, Event.isCancel]

/-- C26: in `pollForToken` the trace keeps the pace of 5 seconds: every
`CreateToken` call but the first comes after a sleep made since the call
before it, every sleep lasts 5 seconds and at most one sleep is made after a
call.  When call `k` receives the first response that is not pending-class (a
success or a fatal error), the trace is `k - 1` rounds of a call and one
sleep of 5 seconds, then call `k` and no sleep after it; when all 30
responses are pending-class, the trace is 30 such rounds and no further
call. -/
theorem pollForToken_sleeps_between_calls (client : SSOOIDCClient)
    (register : RegisterClientOutput) (deviceAuth : StartDeviceAuthorizationOutput) :
    paced 5 true (pollForToken client register deviceAuth).2 = true ∧
    (∀ e ∈ (pollForToken client register deviceAuth).2, e.isSleep = true →
      e = Event.sleep 5) ∧
    (∀ k, 1 ≤ k → k ≤ 30 →
      (∀ j, 1 ≤ j → j < k → pendingResponse
        (client.CreateToken j (pollForToken.input register deviceAuth)) = true) →
      pendingResponse (client.CreateToken k (pollForToken.input register deviceAuth)) = false →
      ∃ rest, (pollForToken client register deviceAuth).2 =
          Event.withTimeout 10 ::
            (fiveSecondRounds (pollForToken.input register deviceAuth) 1 (k - 1) ++
              Event.createToken (pollForToken.input register deviceAuth) :: rest) ∧
        (∀ e ∈ rest, e.isSleep = false ∧ e.isCreateToken = false) ∧
        (pollForToken client register deviceAuth).2.count (Event.sleep 5) = k - 1) ∧
    ((∀ j, 1 ≤ j → j ≤ 30 → pendingResponse
        (client.CreateToken j (pollForToken.input register deviceAuth)) = true) →
      ∃ rest, (pollForToken client register deviceAuth).2 =
          Event.withTimeout 10 ::
            (fiveSecondRounds (pollForToken.input register deviceAuth) 1 30 ++ rest) ∧
        (∀ e ∈ rest, e.isSleep = false ∧ e.isCreateToken = false) ∧
        (pollForToken client register deviceAuth).2.count (Event.sleep 5) = 30) := by
  obtain ⟨rest, htrace, hrest⟩ := pollForToken_trace client register deviceAuth
  have hquiet : ∀ e ∈ rest ++ [Event.cancel], e.isSleep = false ∧ e.isCreateToken = false := by
    intro e he
    rcases List.mem_append.mp he with h | h
    · exact ⟨(hrest e h).1, (hrest e h).2.1⟩
    · simp only [List.mem_singleton] at h
      subst h
      exact ⟨rfl, rfl⟩
  have hcount : ∀ l : List Event, (∀ e ∈ l, e.isSleep = false ∧ e.isCreateToken = false) →
      l.count (Event.sleep 5) = 0 := by
    intro l hl
    rw [List.count_eq_zero]
    intro hmem
    have := (hl _ hmem).1
    simp [Event.isSleep] at this
  have hpaced : paced 5 true (pollForToken client register deviceAuth).2 = true := by
    rw [htrace]
    have : paced 5 true (Event.withTimeout 10 :: ((pollForToken.loop client
        (pollForToken.input register deviceAuth) (List.range' 1 maxAttempts)
        ⟨none, none⟩).2 ++ (rest ++ [Event.cancel]))) =
        paced 5 true ((pollForToken.loop client
        (pollForToken.input register deviceAuth) (List.range' 1 maxAttempts)
        ⟨none, none⟩).2 ++ (rest ++ [Event.cancel])) := by
      simp [paced, Event.isCreateToken, Event.isSleep]
    rw [this, paced_append_quiet _ _ _ _ hquiet]
    exact pollForToken.loop_paced _ _ _ _
  have hsleeps : ∀ (rested : Bool) (l : List Event), paced 5 rested l = true →
      ∀ e ∈ l, e.isSleep = true → e = Event.sleep 5 := by
    intro rested l
    induction l generalizing rested with
    | nil => intro _ e he; simp at he
    | cons x l ih =>
      intro hp e he hs
      rcases List.mem_cons.mp he with h | h
      · subst h
        cases e with
        | sleep d =>
          simp [paced, Event.isCreateToken, Event.isSleep] at hp
          rw [hp.1.2]
        | _ => simp [Event.isSleep] at hs
      · unfold paced at hp
        by_cases hc : x.isCreateToken = true
        · rw [if_pos hc] at hp
          simp only [Bool.and_eq_true] at hp
          exact ih _ hp.2 e h hs
        · rw [if_neg hc] at hp
          by_cases hx : x.isSleep = true
          · rw [if_pos hx] at hp
            simp only [Bool.and_eq_true] at hp
            exact ih _ hp.2 e h hs
          · rw [if_neg hx] at hp
            exact ih _ hp e h hs
  refine ⟨hpaced, hsleeps true _ hpaced, ?_, ?_⟩
  · intro k h1 hk hpend hlast
    rw [htrace, range_split_at maxAttempts k h1 hk,
      pollForToken.loop_pending_rounds client _ _ k _ (pending_before client _ k hpend)]
    obtain ⟨notice, hn⟩ := pollForToken.loop_not_pending client
      (pollForToken.input register deviceAuth) k (List.range' (k + 1) (maxAttempts - k))
      ⟨none, none⟩ hlast
    simp only [hn, pendingRounds_range]
    have hq : ∀ e ∈ Event.print notice :: (rest ++ [Event.cancel]),
        e.isSleep = false ∧ e.isCreateToken = false := by
      intro e he
      rcases List.mem_cons.mp he with h | h
      · subst h
        exact ⟨rfl, rfl⟩
      · exact hquiet e h
    refine ⟨Event.print notice :: (rest ++ [Event.cancel]), by simp, hq, ?_⟩
    have hc' := hcount _ hquiet
    simp only [List.count_cons, List.count_append, count_sleep_fiveSecondRounds, hc']
    simp
  · intro hall
    have hsplit : List.range' 1 maxAttempts = List.range' 1 29 ++ [30] := by decide
    have h30 := hall 30 (by decide) (by decide)
    cases hr : client.CreateToken 30 (pollForToken.input register deviceAuth) with
    | ok token => rw [hr] at h30; simp [pendingResponse] at h30
    | error err =>
      rw [hr] at h30
      simp only [pendingResponse] at h30
      have hpre : ∀ a ∈ List.range' 1 29, pendingResponse
          (client.CreateToken a (pollForToken.input register deviceAuth)) = true := by
        intro a ha
        rw [List.mem_range'_1] at ha
        exact hall a ha.1 (by omega)
      have hloop := pollForToken.loop_all_pending client
        (pollForToken.input register deviceAuth) (List.range' 1 29) 30 err hpre hr h30
        ⟨none, none⟩
      have hback : List.range' 1 29 ++ [30] = List.range' 1 30 := by decide
      rw [htrace, hsplit, hloop, hback, pendingRounds_range]
      refine ⟨rest ++ [Event.cancel], rfl, hquiet, ?_⟩
      have hc := hcount _ hquiet
      rw [List.count_cons, List.count_append, count_sleep_fiveSecondRounds, hc]
      simp

/-- Witness of `pollForToken_sleeps_between_calls`: one pending-class
response, then a token at the second call, 5 seconds after the first. -/
theorem pollForToken_sleeps_between_calls_witness :
    ∃ rest, (pollForToken (scriptedClient grantedAtSecond) ⟨some "id", some "secret"⟩
        ⟨some "device", some "https://device.sso.example/"⟩).2 =
        Event.withTimeout 10 ::
          (fiveSecondRounds (pollForToken.input ⟨some "id", some "secret"⟩
              ⟨some "device", some "https://device.sso.example/"⟩) 1 (2 - 1) ++
            Event.createToken (pollForToken.input ⟨some "id", some "secret"⟩
              ⟨some "device", some "https://device.sso.example/"⟩) :: rest) ∧
      (∀ e ∈ rest, e.isSleep = false ∧ e.isCreateToken = false) ∧
      (pollForToken (scriptedClient grantedAtSecond) ⟨some "id", some "secret"⟩
        ⟨some "device", some "https://device.sso.example/"⟩).2.count (Event.sleep 5) =
        2 - 1 :=
  (pollForToken_sleeps_between_calls (scriptedClient grantedAtSecond)
    ⟨some "id", some "secret"⟩
    ⟨some "device", some "https://device.sso.example/"⟩).2.2.1 2 (by decide) (by decide)
    (by
      intro j h1 h2
      have hj : j = 1 := by omega
      subst hj
      decide)
    (by decide)

/-- C27 fails on the code: `pollForToken` creates one timeout context of 10 seconds
before the loop and releases it once, at the end: whatever the client
answers, the trace is the creation, then events among which no context is
created or released, then the release.  All 30 calls of a backend that keeps
asking to slow down run under that one context; and a user who approves 10
seconds after the start gets a token from the backend at the third call, but
not through the shared deadline, which has passed by then. -/
theorem pollForToken_shares_one_deadline :
    (∀ (client : SSOOIDCClient) (register : RegisterClientOutput)
      (deviceAuth : StartDeviceAuthorizationOutput), ∃ middle,
      (pollForToken client register deviceAuth).2 =
        Event.withTimeout 10 :: (middle ++ [Event.cancel]) ∧
      ∀ e ∈ middle, e.isWithTimeout = false ∧ e.isCancel = false) ∧
    (pollForToken (scriptedClient alwaysSlowDown) ⟨some "id", some "secret"⟩
      ⟨some "device", some "https://device.sso.example/"⟩).2.countP Event.isCreateToken = 30 ∧
    (pollForToken (scriptedClient alwaysSlowDown) ⟨some "id", some "secret"⟩
      ⟨some "device", some "https://device.sso.example/"⟩).2.countP Event.isWithTimeout = 1 ∧
    (pollForToken (scriptedClient grantedAtThird) ⟨some "id", some "secret"⟩
      ⟨some "device", some "https://device.sso.example/"⟩).1 = some "fresh-token" ∧
    (pollForToken (scriptedClient (underDeadline 10 grantedAtThird)) ⟨some "id", some "secret"⟩
      ⟨some "device", some "https://device.sso.example/"⟩).1 = none := by
  refine ⟨?_, ?_, ?_, by decide, by decide⟩
  · intro client register deviceAuth
    obtain ⟨rest, htrace, hrest⟩ := pollForToken_trace client register deviceAuth
    refine ⟨(pollForToken.loop client (pollForToken.input register deviceAuth)
      (List.range' 1 maxAttempts) ⟨none, none⟩).2 ++ rest, ?_, ?_⟩
    · rw [htrace, List.append_assoc]
    · intro e he
      rcases List.mem_append.mp he with h | h
      · exact pollForToken.loop_quiet _ _ _ _ e h
      · exact ⟨(hrest e h).2.2.1, (hrest e h).2.2.2⟩
  · decide
  · decide

/-! ## The pager command: claims -/

theorem strings.containsList_singleton (c : Char) (l : List Char) :
    strings.containsList l [c] = true ↔ c ∈ l := by
  induction l with
  | nil => simp [strings.containsList]
  | cons x xs ih =>
    simp only [strings.containsList, Bool.or_eq_true, ih, List.mem_cons]
    constructor
    · rintro (h | h)
      · left
        simp [List.isPrefixOf] at h
        exact h
      · exact Or.inr h
    · rintro (h | h)
      · left
        subst h
        simp [List.isPrefixOf]
      · exact Or.inr h

theorem strings.lastIndexList_take (c : Char) (l : List Char) (i : Nat)
    (h : strings.lastIndexList c l = some i) : ∃ pre, l.take (i + 1) = pre ++ [c] := by
  induction l generalizing i with
  | nil => simp [strings.lastIndexList] at h
  | cons x xs ih =>
    unfold strings.lastIndexList at h
    cases hx : strings.lastIndexList c xs with
    | some j =>
      simp only [hx, Option.some.injEq] at h
      subst h
      obtain ⟨pre, hpre⟩ := ih j hx
      exact ⟨x :: pre, by simp [List.take_succ_cons, hpre]⟩
    | none =>
      simp only [hx] at h
      by_cases hc : x = c
      · simp only [hc, if_true, Option.some.injEq] at h
        subst h
        exact ⟨[], by simp [hc]⟩
      · simp [hc] at h

theorem pager.dangerous_of_mem (arg : String) (c : Char)
    (hc : c ∈ pager.dangerousCharacters) (h : c ∈ arg.data) :
    pager.containsDangerousChars arg = true := by
  have hcontains : strings.Contains arg (String.singleton c) = true :=
    (strings.containsList_singleton c arg.data).mpr h
  have hall : ∀ d ∈ pager.dangerousCharacters, String.singleton d ∈
      [";", "&", "|", "\x60", "$", "(", ")", "\x7b", "\x7d",
        "<", ">", "!", "*", "?", "[", "]", "~", "^"] := by decide
  unfold pager.containsDangerousChars
  rw [List.any_eq_true]
  exact ⟨String.singleton c, hall c hc, hcontains⟩

theorem pager.isValidPagerCommand_plain (lookPath : String → Bool) (pagerCmd first : String)
    (rest : List String) (hf : strings.Fields pagerCmd = first :: rest)
    (hi : strings.LastIndex first '/' = none)
    (ha : pager.allowedPagers.contains first = true)
    (hd : rest.any pager.containsDangerousChars = false) :
    pager.isValidPagerCommand lookPath pagerCmd = lookPath first := by
  unfold pager.isValidPagerCommand
  rw [hf]
  simp only [hi, ha, hd]
  cases lookPath first <;> rfl

theorem pager.loop_valid (lookPath : String → Bool) :
    pager.getPagerCommand.loop lookPath ["less -R", "less", "more", "cat"] = "" ∨
      pager.isValidPagerCommand lookPath
        (pager.getPagerCommand.loop lookPath ["less -R", "less", "more", "cat"]) = true := by
  have f1 : strings.Fields "less -R" = ["less", "-R"] := by decide
  have f2 : strings.Fields "less" = ["less"] := by decide
  have f3 : strings.Fields "more" = ["more"] := by decide
  have f4 : strings.Fields "cat" = ["cat"] := by decide
  have v1 : pager.isValidPagerCommand lookPath "less -R" = lookPath "less" :=
    pager.isValidPagerCommand_plain lookPath _ _ _ f1 (by decide) (by decide) (by decide)
  have v2 : pager.isValidPagerCommand lookPath "less" = lookPath "less" :=
    pager.isValidPagerCommand_plain lookPath _ _ _ f2 (by decide) (by decide) (by decide)
  have v3 : pager.isValidPagerCommand lookPath "more" = lookPath "more" :=
    pager.isValidPagerCommand_plain lookPath _ _ _ f3 (by decide) (by decide) (by decide)
  have v4 : pager.isValidPagerCommand lookPath "cat" = lookPath "cat" :=
    pager.isValidPagerCommand_plain lookPath _ _ _ f4 (by decide) (by decide) (by decide)
  simp only [pager.getPagerCommand.loop, f1, f2, f3, f4]
  cases h1 : lookPath "less" <;> cases h3 : lookPath "more" <;> cases h4 : lookPath "cat" <;>
    simp [v1, v2, v3, v4, h1, h3, h4]

/-- C29: a pager command accepted by `isValidPagerCommand` has a first word
that `exec.LookPath` finds and that is a directory prefix (empty, or ending
in a slash) followed by one of less, more, most, cat, bat, pg, pager, and no
other word of it contains one of the 18 dangerous characters.  What
`getPagerCommand` returns is empty or accepted by `isValidPagerCommand`: it
is `PAGER` when that is accepted, else `AWS_SSO_CONFIG_PAGER` when that is
accepted, else what the loop over the four built-in pagers finds. -/
theorem getPagerCommand_returns_checked_pager (getenv : String → String)
    (lookPath : String → Bool) :
    (∀ pagerCmd, pager.isValidPagerCommand lookPath pagerCmd = true →
      ∃ first rest dir name, strings.Fields pagerCmd = first :: rest ∧
        lookPath first = true ∧ first = dir ++ name ∧
        (dir = "" ∨ ∃ parent, dir = parent ++ "/") ∧
        name ∈ ["less", "more", "most", "cat", "bat", "pg", "pager"] ∧
        ∀ arg ∈ rest, ∀ c ∈ pager.dangerousCharacters, c ∉ arg.data) ∧
    (pager.getPagerCommand getenv lookPath = "" ∨
      pager.isValidPagerCommand lookPath (pager.getPagerCommand getenv lookPath) = true) ∧
    (pager.isValidPagerCommand lookPath (getenv "PAGER") = true →
      pager.getPagerCommand getenv lookPath = getenv "PAGER") ∧
    (pager.isValidPagerCommand lookPath (getenv "PAGER") = false →
      pager.isValidPagerCommand lookPath (getenv "AWS_SSO_CONFIG_PAGER") = true →
      pager.getPagerCommand getenv lookPath = getenv "AWS_SSO_CONFIG_PAGER") ∧
    (pager.isValidPagerCommand lookPath (getenv "PAGER") = false →
      pager.isValidPagerCommand lookPath (getenv "AWS_SSO_CONFIG_PAGER") = false →
      pager.getPagerCommand getenv lookPath ∈ ["less -R", "less", "more", "cat", ""]) := by
  have hempty : pager.isValidPagerCommand lookPath "" = false := by
    unfold pager.isValidPagerCommand
    have : strings.Fields "" = [] := by decide
    rw [this]
  have hne : ∀ s, pager.isValidPagerCommand lookPath s = true → s ≠ "" := by
    intro s hs e
    rw [e, hempty] at hs
    exact Bool.false_ne_true hs
  refine ⟨?_, ?_, ?_, ?_, ?_⟩
  · intro pagerCmd hvalid
    unfold pager.isValidPagerCommand at hvalid
    cases hf : strings.Fields pagerCmd with
    | nil => simp [hf] at hvalid
    | cons first rest =>
      simp only [hf] at hvalid
      cases hl : lookPath first with
      | false => simp [hl] at hvalid
      | true =>
        simp only [hl, Bool.not_true, Bool.false_eq_true, if_false] at hvalid
        have hargs : ∀ arg ∈ rest, ∀ c ∈ pager.dangerousCharacters, c ∉ arg.data := by
          intro arg harg c hc hmem
          have hd := pager.dangerous_of_mem arg c hc hmem
          have hany : rest.any pager.containsDangerousChars = true :=
            List.any_eq_true.mpr ⟨arg, harg, hd⟩
          simp [hany] at hvalid
        cases hi : strings.LastIndex first '/' with
        | none =>
          simp only [hi] at hvalid
          refine ⟨first, rest, "", first, rfl, hl, by simp, Or.inl rfl, ?_, hargs⟩
          cases ha : pager.allowedPagers.contains first with
          | true => simpa [pager.allowedPagers] using ha
          | false =>
            rw [ha] at hvalid
            simp at hvalid
        | some i =>
          simp only [hi] at hvalid
          obtain ⟨pre, hpre⟩ := strings.lastIndexList_take '/' first.data i hi
          refine ⟨first, rest, String.mk (first.data.take (i + 1)),
            String.mk (first.data.drop (i + 1)), rfl, hl, ?_, Or.inr ⟨String.mk pre, ?_⟩, ?_,
            hargs⟩
          · apply String.ext
            simp
          · apply String.ext
            simp [hpre]
          · cases ha : pager.allowedPagers.contains (String.mk (first.data.drop (i + 1))) with
            | true => simpa [pager.allowedPagers] using ha
            | false =>
              rw [ha] at hvalid
              simp at hvalid
  · unfold pager.getPagerCommand
    by_cases h1 : pager.isValidPagerCommand lookPath (getenv "PAGER") = true
    · simp [h1, hne _ h1]
    · by_cases h2 : pager.isValidPagerCommand lookPath (getenv "AWS_SSO_CONFIG_PAGER") = true
      · simp [h1, h2, hne _ h2]
      · simp only [h1, h2, Bool.false_eq_true, and_false, if_false]
        exact pager.loop_valid lookPath
  · intro h1
    unfold pager.getPagerCommand
    simp [h1, hne _ h1]
  · intro h1 h2
    unfold pager.getPagerCommand
    simp [h1, h2, hne _ h2]
  · intro h1 h2
    unfold pager.getPagerCommand
    have f1 : strings.Fields "less -R" = ["less", "-R"] := by decide
    have f2 : strings.Fields "less" = ["less"] := by decide
    have f3 : strings.Fields "more" = ["more"] := by decide
    have f4 : strings.Fields "cat" = ["cat"] := by decide
    simp only [h1, h2, Bool.false_eq_true, and_false, if_false, pager.getPagerCommand.loop,
      f1, f2, f3, f4]
    cases lookPath "less" <;> cases lookPath "more" <;> cases lookPath "cat" <;> simp

/-- Witness of `getPagerCommand_returns_checked_pager`: with every program on
the path, `/usr/bin/less -R` is accepted and is what `PAGER` gives. -/
theorem getPagerCommand_returns_checked_pager_witness :
    (∃ first rest dir name, strings.Fields "/usr/bin/less -R" = first :: rest ∧
        (fun _ => true) first = true ∧ first = dir ++ name ∧
        (dir = "" ∨ ∃ parent, dir = parent ++ "/") ∧
        name ∈ ["less", "more", "most", "cat", "bat", "pg", "pager"] ∧
        ∀ arg ∈ rest, ∀ c ∈ pager.dangerousCharacters, c ∉ arg.data) ∧
    pager.getPagerCommand (pager.pagerOnly "/usr/bin/less -R") (fun _ => true) =
      pager.pagerOnly "/usr/bin/less -R" "PAGER" :=
  ⟨(getPagerCommand_returns_checked_pager (pager.pagerOnly "/usr/bin/less -R")
      (fun _ => true)).1 "/usr/bin/less -R" (by decide),
    (getPagerCommand_returns_checked_pager (pager.pagerOnly "/usr/bin/less -R")
      (fun _ => true)).2.2.1 (by decide)⟩

/-! ## The account id of the repository: claims -/

theorem validateAccountID.loop_find (lines : List String) :
    validateAccountID.loop lines =
      ((lines.find? isAccountIDLine).map accountIDOfLine).getD "" := by
  induction lines with
  | nil => rfl
  | cons line lines ih =>
    rw [List.find?_cons]
    rcases hf : strings.Fields line with _ | ⟨f0, _ | ⟨f1, _ | ⟨f2, rest⟩⟩⟩
    · have h1 : isAccountIDLine line = false := by simp [isAccountIDLine, hf]
      simp [validateAccountID.loop, hf, h1, ih]
    · have h1 : isAccountIDLine line = false := by simp [isAccountIDLine, hf]
      simp [validateAccountID.loop, hf, h1, ih]
    · have h1 : isAccountIDLine line = false := by simp [isAccountIDLine, hf]
      simp [validateAccountID.loop, hf, h1, ih]
    · have h2 : accountIDOfLine line = strings.Trim f2 "\x22" := by
        simp [accountIDOfLine, hf]
      by_cases h0 : f0 = "account_id"
      · have h1 : isAccountIDLine line = true := by simp [isAccountIDLine, hf, h0]
        simp [validateAccountID.loop, hf, h1, h2, h0]
      · have h1 : isAccountIDLine line = false := by simp [isAccountIDLine, hf, h0]
        simp [validateAccountID.loop, hf, h1, h0, ih]

theorem bufio.tokens_of_short_lines (content : String)
    (h : ∀ line ∈ bufio.rawLines [] content.data,
      bufio.byteLen line < bufio.MaxScanTokenSize) :
    bufio.Scanner.tokens content = contentLines content := by
  unfold bufio.Scanner.tokens contentLines
  congr 1
  rw [List.takeWhile_eq_self_iff]
  intro line hline
  simpa using h line hline

theorem bufio.rawLines_replicate (n : Nat) (x : Char) (hx : x ≠ Char.ofNat 10)
    (cur rest : List Char) :
    bufio.rawLines cur (List.replicate n x ++ Char.ofNat 10 :: rest) =
      (cur.reverse ++ List.replicate n x) :: bufio.rawLines [] rest := by
  induction n generalizing cur with
  | zero => simp [bufio.rawLines]
  | succ n ih =>
    rw [List.replicate_succ, List.cons_append, bufio.rawLines, if_neg hx, ih]
    simp

theorem bufio.byteLen_replicate (n : Nat) (x : Char) :
    bufio.byteLen (List.replicate n x) = n * x.utf8Size := by
  induction n with
  | zero => simp [bufio.byteLen]
  | succ n ih =>
    unfold bufio.byteLen at ih ⊢
    rw [List.replicate_succ, List.map_cons, List.sum_cons, ih]
    ring

theorem strings.fieldsList_replicate (n : Nat) (x : Char) (hx : unicode.IsSpace x = false)
    (cur : List Char) : (strings.fieldsList cur (List.replicate n x)).length ≤ 1 := by
  induction n generalizing cur with
  | zero =>
    simp only [List.replicate_zero, strings.fieldsList]
    split <;> simp
  | succ n ih =>
    rw [List.replicate_succ, strings.fieldsList]
    simp only [hx, Bool.false_eq_true, if_false]
    exact ih _

theorem bufio.dropCR_replicate (n : Nat) (x : Char) (hx : x ≠ Char.ofNat 13) :
    bufio.dropCR (List.replicate n x) = List.replicate n x := by
  unfold bufio.dropCR
  cases n with
  | zero => simp
  | succ n =>
    have : (List.replicate (n + 1) x).getLast? = some x := by
      rw [List.getLast?_eq_getLast _ (by simp)]
      simp
    rw [this, if_neg (by simpa using hx)]

theorem isAccountIDLine_of_few_fields (line : String)
    (h : (strings.Fields line).length ≤ 1) : isAccountIDLine line = false := by
  unfold isAccountIDLine
  rcases hf : strings.Fields line with _ | ⟨f0, _ | ⟨f1, _ | ⟨f2, rest⟩⟩⟩
  · rfl
  · rfl
  · rfl
  · rw [hf] at h
    simp at h

theorem validateAccountID_undetermined (osOpen : String → Option String)
    (accountID rootDir content : String)
    (h : osOpen (filepath.JoinAll [rootDir, "terragrunt.hcl"]) = some content)
    (hnone : (bufio.Scanner.tokens content).find? isAccountIDLine = none) :
    validateAccountID osOpen accountID rootDir =
      some ("could not determine account id from " ++
        filepath.JoinAll [rootDir, "terragrunt.hcl"]) := by
  simp [validateAccountID, h, validateAccountID.loop_find, hnone]

/-- C30, amended: `validateAccountID` reports "could not find
terragrunt.hcl" when the file cannot be opened.  Otherwise it decides on the
lines that the scanner gives, which are all the lines of the content when
each of them is shorter than 65536 bytes: it returns no error iff there is a
first such line with at least three fields and first field "account_id", and
the third field of that line without its double quotes is non-empty and equal
to the given account id; it reports "could not determine account id" when
there is no such line or that value is empty, and "did not match entry" when
the value is non-empty and differs. -/
theorem validateAccountID_checks_first_scanned_entry (osOpen : String → Option String)
    (accountID rootDir : String) :
    (osOpen (filepath.JoinAll [rootDir, "terragrunt.hcl"]) = none →
      validateAccountID osOpen accountID rootDir =
        some ("could not find terragrunt.hcl at root of git repo " ++ rootDir)) ∧
    (∀ content, osOpen (filepath.JoinAll [rootDir, "terragrunt.hcl"]) = some content →
      (validateAccountID osOpen accountID rootDir = none ↔
        ∃ line, (bufio.Scanner.tokens content).find? isAccountIDLine = some line ∧
          accountIDOfLine line ≠ "" ∧ accountIDOfLine line = accountID) ∧
      (((bufio.Scanner.tokens content).find? isAccountIDLine = none ∨
          ∃ line, (bufio.Scanner.tokens content).find? isAccountIDLine = some line ∧
            accountIDOfLine line = "") →
        validateAccountID osOpen accountID rootDir =
          some ("could not determine account id from " ++
            filepath.JoinAll [rootDir, "terragrunt.hcl"])) ∧
      (∀ line, (bufio.Scanner.tokens content).find? isAccountIDLine = some line →
        accountIDOfLine line ≠ "" → accountIDOfLine line ≠ accountID →
        validateAccountID osOpen accountID rootDir =
          some ("account id " ++ accountID ++
            " determined from profile did not match entry in terragrunt file " ++
            filepath.JoinAll [rootDir, "terragrunt.hcl"])) ∧
      ((∀ line ∈ bufio.rawLines [] content.data,
          bufio.byteLen line < bufio.MaxScanTokenSize) →
        bufio.Scanner.tokens content = contentLines content)) := by
  refine ⟨?_, ?_⟩
  · intro h
    simp [validateAccountID, h]
  · intro content h
    refine ⟨?_, ?_, ?_, bufio.tokens_of_short_lines content⟩
    · simp only [validateAccountID, h, validateAccountID.loop_find]
      cases hfind : (bufio.Scanner.tokens content).find? isAccountIDLine with
      | none => simp
      | some line =>
        by_cases he : accountIDOfLine line = ""
        · simp [he]
        · by_cases ha : accountIDOfLine line = accountID
          · simp [he, ha]
          · simp [he, ha]
    · intro hcase
      simp only [validateAccountID, h, validateAccountID.loop_find]
      rcases hcase with hnone | ⟨line, hline, he⟩
      · simp [hnone]
      · simp [hline, he]
    · intro line hline he ha
      simp [validateAccountID, h, validateAccountID.loop_find, hline, he, ha]

/-- Witness of `validateAccountID_checks_first_scanned_entry`: the file of
the tests is accepted for the account id it holds. -/
theorem validateAccountID_checks_first_scanned_entry_witness :
    validateAccountID (fun _ => some sampleTerragrunt) "123456789012" "/repo" = none ∧
    (bufio.Scanner.tokens sampleTerragrunt).find? isAccountIDLine =
      some "  account_id = \x22123456789012\x22" ∧
    validateAccountID (fun _ => some sampleTerragrunt) "987654321098" "/repo" =
      some ("account id " ++ "987654321098" ++
        " determined from profile did not match entry in terragrunt file " ++
        filepath.JoinAll ["/repo", "terragrunt.hcl"]) :=
  ⟨((validateAccountID_checks_first_scanned_entry (fun _ => some sampleTerragrunt)
      "123456789012" "/repo").2 sampleTerragrunt rfl).1.mpr
      ⟨"  account_id = \x22123456789012\x22", by decide, by decide, by decide⟩,
    by decide,
    ((validateAccountID_checks_first_scanned_entry (fun _ => some sampleTerragrunt)
      "987654321098" "/repo").2 sampleTerragrunt rfl).2.2.1
      "  account_id = \x22123456789012\x22" (by decide) (by decide) (by decide)⟩

/-- C30, as stated, fails: in a `terragrunt.hcl` whose first line has 65536
bytes, the first line with at least three fields and first field "account_id"
is the second line, and its third field without the double quotes is the
account id 123456789012; yet `validateAccountID` of that account id reports
that it could not determine the account id, because the scanner stops at the
first line. -/
theorem validateAccountID_stops_at_long_line :
    (contentLines longLineTerragrunt).find? isAccountIDLine =
      some "account_id = \x22123456789012\x22" ∧
    accountIDOfLine "account_id = \x22123456789012\x22" = "123456789012" ∧
    validateAccountID (fun _ => some longLineTerragrunt) "123456789012" "/repo" =
      some "could not determine account id from /repo/terragrunt.hcl" := by
  have hx : 'x' ≠ Char.ofNat 10 := by decide
  have hraw : bufio.rawLines [] longLineTerragrunt.data =
      List.replicate bufio.MaxScanTokenSize 'x' ::
        bufio.rawLines [] "account_id = \x22123456789012\x22".data := by
    have := bufio.rawLines_replicate bufio.MaxScanTokenSize 'x' hx []
      "account_id = \x22123456789012\x22".data
    simpa [longLineTerragrunt] using this
  have hlast : bufio.rawLines [] "account_id = \x22123456789012\x22".data =
      ["account_id = \x22123456789012\x22".data] := by decide
  have hlen : bufio.byteLen (List.replicate bufio.MaxScanTokenSize 'x') =
      bufio.MaxScanTokenSize := by
    rw [bufio.byteLen_replicate]
    have : 'x'.utf8Size = 1 := by decide
    rw [this, Nat.mul_one]
  have hfirst : isAccountIDLine (String.mk (List.replicate bufio.MaxScanTokenSize 'x')) =
      false :=
    isAccountIDLine_of_few_fields _
      (strings.fieldsList_replicate bufio.MaxScanTokenSize 'x' (by decide) [])
  have hsecond : isAccountIDLine "account_id = \x22123456789012\x22" = true := by decide
  have hdrop : String.mk (bufio.dropCR "account_id = \x22123456789012\x22".data) =
      "account_id = \x22123456789012\x22" := by decide
  have hjoin : filepath.JoinAll ["/repo", "terragrunt.hcl"] = "/repo/terragrunt.hcl" := by
    decide
  refine ⟨?_, by decide, ?_⟩
  · unfold contentLines
    rw [hraw, hlast, List.map_cons, List.map_cons, List.map_nil,
      bufio.dropCR_replicate _ _ (by decide), hdrop, List.find?_cons, hfirst,
      List.find?_cons, hsecond]
  · have htokens : bufio.Scanner.tokens longLineTerragrunt = [] := by
      unfold bufio.Scanner.tokens
      rw [hraw, List.takeWhile_cons, hlen]
      simp
    rw [validateAccountID_undetermined (fun _ => some longLineTerragrunt) "123456789012"
      "/repo" longLineTerragrunt rfl (by rw [htokens]; rfl), hjoin]
    decide

/-! ## Writing a section: claims -/

theorem configparser.withSection_withSection (p : configparser.ConfigParser)
    (sectionName : String) (o1 o2 : String → Option String) :
    (p.withSection sectionName o1).withSection sectionName o2 =
      p.withSection sectionName o2 := by
  unfold configparser.ConfigParser.withSection
  congr 1
  funext name
  by_cases h : name = sectionName <;> simp [h]

theorem configparser.withSection_self (p : configparser.ConfigParser)
    (sectionName : String) (options : String → Option String)
    (h : p.config sectionName = some options) : p.withSection sectionName options = p := by
  cases p with
  | mk toLower config defaults =>
    unfold configparser.ConfigParser.withSection
    congr 1
    funext name
    by_cases hn : name = sectionName
    · subst hn
      simp only [if_true]
      exact h.symm
    · simp [hn]

theorem WriteSectionToConfig_loop_writes (p : configparser.ConfigParser)
    (sectionName : String) (hs : sectionName ≠ configparser.defaultSectionName)
    (values : List (String × String)) (options : String → Option String) :
    ConfigGenerator.WriteSectionToConfig.loop sectionName values
        (p.withSection sectionName options) =
      (none, p.withSection sectionName (p.addAll values options)) := by
  induction values generalizing options with
  | nil => rfl
  | cons kv values ih =>
    obtain ⟨key, value⟩ := kv
    have hset : (p.withSection sectionName options).Set sectionName key value =
        .ok (p.withSection sectionName (p.add options key value)) := by
      unfold configparser.ConfigParser.Set
      rw [if_neg hs]
      have hc : (p.withSection sectionName options).config sectionName = some options := by
        simp [configparser.ConfigParser.withSection]
      rw [hc]
      simp only []
      rw [configparser.withSection_withSection]
      rfl
    simp only [ConfigGenerator.WriteSectionToConfig.loop, hset]
    rw [ih]
    rfl

theorem configparser.addAll_other (p : configparser.ConfigParser)
    (values : List (String × String)) (options : String → Option String) (lookupKey : String)
    (h : ∀ key ∈ values.map Prod.fst, p.safeKey key ≠ lookupKey) :
    p.addAll values options lookupKey = options lookupKey := by
  induction values generalizing options with
  | nil => rfl
  | cons kv values ih =>
    have hne : ¬ lookupKey = p.safeKey kv.1 :=
      fun e => h kv.1 (by simp) e.symm
    have ht : ∀ key ∈ values.map Prod.fst, p.safeKey key ≠ lookupKey :=
      fun key hk => h key (by simp only [List.map_cons, List.mem_cons]; exact Or.inr hk)
    show p.addAll values (p.add options kv.1 kv.2) lookupKey = options lookupKey
    rw [ih _ ht]
    simp [configparser.ConfigParser.add, hne]

theorem configparser.addAll_mem (p : configparser.ConfigParser)
    (values : List (String × String)) (options : String → Option String) (key value : String)
    (hkeys : (values.map Prod.fst).Nodup) (hmem : (key, value) ∈ values)
    (hone : ∀ key2 value2, (key2, value2) ∈ values → p.safeKey key2 = p.safeKey key →
      key2 = key) :
    p.addAll values options (p.safeKey key) = some (strings.TrimSpace value) := by
  induction values generalizing options with
  | nil => simp at hmem
  | cons kv values ih =>
    simp only [List.map_cons, List.nodup_cons] at hkeys
    show p.addAll values (p.add options kv.1 kv.2) (p.safeKey key) = _
    rcases List.mem_cons.mp hmem with h | h
    · subst h
      have hrest : ∀ key2 ∈ values.map Prod.fst, p.safeKey key2 ≠ p.safeKey key := by
        intro key2 hk2 he
        obtain ⟨kv2, hkv2, hfst⟩ := List.mem_map.mp hk2
        have : key2 = key := hone key2 kv2.2
          (List.mem_cons_of_mem _ (by rw [← hfst]; exact hkv2)) he
        exact hkeys.1 (this ▸ hk2)
      rw [configparser.addAll_other p values _ _ hrest]
      simp [configparser.ConfigParser.add]
    · exact ih _ hkeys.2 h
        (fun key2 value2 h2 he => hone key2 value2 (List.mem_cons_of_mem _ h2) he)

/-- C25, as stated, fails: on a parser that holds `[profile Prod]` with
`region = us-east-1`, writing `sso_role_name` with a value that has a blank
on either side returns without error, and the key then reads without the
blanks, not exactly as given; writing `Region` returns without error, and the
key `region`, which is not a key of the map, then reads the new value.  (With
the section name `DEFAULT` the call returns the error of `AddSection`.) -/
theorem WriteSectionToConfig_trims_and_folds_case :
    (ConfigGenerator.WriteSectionToConfig ⟨"https://test.com", "us-west-2", "us-east-1"⟩
      prodParser "profile Prod" [("sso_role_name", " Admin ")]).1 = none ∧
    (ConfigGenerator.WriteSectionToConfig ⟨"https://test.com", "us-west-2", "us-east-1"⟩
      prodParser "profile Prod" [("sso_role_name", " Admin ")]).2.Get "profile Prod"
        "sso_role_name" = some "Admin" ∧
    prodParser.Get "profile Prod" "region" = some "us-east-1" ∧
    (ConfigGenerator.WriteSectionToConfig ⟨"https://test.com", "us-west-2", "us-east-1"⟩
      prodParser "profile Prod" [("Region", "eu-west-1")]).1 = none ∧
    (ConfigGenerator.WriteSectionToConfig ⟨"https://test.com", "us-west-2", "us-east-1"⟩
      prodParser "profile Prod" [("Region", "eu-west-1")]).2.Get "profile Prod" "region" =
      some "eu-west-1" ∧
    (ConfigGenerator.WriteSectionToConfig ⟨"https://test.com", "us-west-2", "us-east-1"⟩
      prodParser "DEFAULT" []).1.isSome = true := by
  decide

/-- C25, amended: after `WriteSectionToConfig(parser, s, values)` has returned
without error, section `s` exists; every key of `values` that no other key of
`values` equals up to case and surrounding white space reads its given value
without the white space around it; when `s` was there before, every key that
equals no key of `values` up to case and surrounding white space reads as
before; and every other section is there or not as before and reads as
before.  This holds for an empty `values` too, in which case the section is
still created. -/
theorem WriteSectionToConfig_writes_trimmed_values (g : ConfigGenerator)
    (configParser : configparser.ConfigParser) (sectionName : String)
    (values : List (String × String))
    (hkeys : (values.map Prod.fst).Nodup)
    (hok : (g.WriteSectionToConfig configParser sectionName values).1 = none) :
    (g.WriteSectionToConfig configParser sectionName values).2.HasSection sectionName = true ∧
    (∀ key value, (key, value) ∈ values →
      (∀ key2 value2, (key2, value2) ∈ values →
        configParser.safeKey key2 = configParser.safeKey key → key2 = key) →
      (g.WriteSectionToConfig configParser sectionName values).2.Get sectionName key =
        some (strings.TrimSpace value)) ∧
    (configParser.HasSection sectionName = true →
      ∀ key, (∀ key2 ∈ values.map Prod.fst,
          configParser.safeKey key2 ≠ configParser.safeKey key) →
        (g.WriteSectionToConfig configParser sectionName values).2.Get sectionName key =
          configParser.Get sectionName key) ∧
    (∀ other, other ≠ sectionName →
      (g.WriteSectionToConfig configParser sectionName values).2.HasSection other =
        configParser.HasSection other ∧
      ∀ key, (g.WriteSectionToConfig configParser sectionName values).2.Get other key =
        configParser.Get other key) := by
  have hs : sectionName ≠ configparser.defaultSectionName := by
    intro e
    subst e
    simp [ConfigGenerator.WriteSectionToConfig, configparser.ConfigParser.HasSection,
      configparser.ConfigParser.AddSection] at hok
  have hres : ∃ o0, g.WriteSectionToConfig configParser sectionName values =
        (none, configParser.withSection sectionName (configParser.addAll values o0)) ∧
      (configParser.HasSection sectionName = true →
        configParser.config sectionName = some o0) := by
    cases hc : configParser.config sectionName with
    | none =>
      refine ⟨fun _ => none, ?_, ?_⟩
      · simp only [ConfigGenerator.WriteSectionToConfig, configparser.ConfigParser.HasSection,
          configparser.ConfigParser.AddSection, hs, hc, if_false, Option.isSome_none,
          Bool.not_false, if_true, Bool.false_eq_true]
        exact WriteSectionToConfig_loop_writes configParser sectionName hs values _
      · intro h
        simp [configparser.ConfigParser.HasSection, hs, hc] at h
    | some o =>
      refine ⟨o, ?_, fun _ => rfl⟩
      simp only [ConfigGenerator.WriteSectionToConfig, configparser.ConfigParser.HasSection,
        hs, hc, if_false, Option.isSome_some, Bool.not_true, Bool.false_eq_true]
      have hw := configparser.withSection_self configParser sectionName o hc
      have hl := WriteSectionToConfig_loop_writes configParser sectionName hs values o
      rw [hw] at hl
      exact hl
  obtain ⟨o0, hres, hbefore⟩ := hres
  rw [hres]
  have hcfg : (configParser.withSection sectionName
      (configParser.addAll values o0)).config sectionName =
      some (configParser.addAll values o0) := by
    simp [configparser.ConfigParser.withSection]
  refine ⟨?_, ?_, ?_, ?_⟩
  · simp [configparser.ConfigParser.HasSection, hs, hcfg]
  · intro key value hmem hone
    have hval := configparser.addAll_mem configParser values o0 key value hkeys hmem hone
    simp only [configparser.ConfigParser.Get, hs, if_false, hcfg]
    have hk : (configParser.withSection sectionName
        (configParser.addAll values o0)).safeKey key = configParser.safeKey key := rfl
    rw [hk, hval]
  · intro hhas key hother
    have hval := configparser.addAll_other configParser values o0 (configParser.safeKey key)
      hother
    have hc := hbefore hhas
    have hk : (configParser.withSection sectionName
        (configParser.addAll values o0)).safeKey key = configParser.safeKey key := rfl
    simp only [configparser.ConfigParser.Get, hs, if_false, hcfg, hc, hk, hval]
    rfl
  · intro other hne
    have hoc : (configParser.withSection sectionName
        (configParser.addAll values o0)).config other = configParser.config other := by
      simp [configparser.ConfigParser.withSection, hne]
    refine ⟨?_, ?_⟩
    · simp only [configparser.ConfigParser.HasSection, hoc]
    · intro key
      simp only [configparser.ConfigParser.Get, hoc]
      rfl

/-- Witness of `WriteSectionToConfig_writes_trimmed_values`: two keys written
into the existing `[profile Prod]`; the role reads without its blanks, and
`output` reads as before. -/
theorem WriteSectionToConfig_writes_trimmed_values_witness :
    (ConfigGenerator.WriteSectionToConfig ⟨"https://test.com", "us-west-2", "us-east-1"⟩
      prodParser "profile Prod"
      [("sso_role_name", " Admin "), ("region", "us-west-1")]).2.Get
        "profile Prod" "sso_role_name" = some (strings.TrimSpace " Admin ") ∧
    strings.TrimSpace " Admin " = "Admin" ∧
    (ConfigGenerator.WriteSectionToConfig ⟨"https://test.com", "us-west-2", "us-east-1"⟩
      prodParser "profile Prod"
      [("sso_role_name", " Admin "), ("region", "us-west-1")]).2.Get
        "profile Prod" "output" = prodParser.Get "profile Prod" "output" ∧
    (ConfigGenerator.WriteSectionToConfig ⟨"https://test.com", "us-west-2", "us-east-1"⟩
      prodParser "profile empty" []).2.HasSection "profile empty" = true :=
  ⟨(WriteSectionToConfig_writes_trimmed_values ⟨"https://test.com", "us-west-2", "us-east-1"⟩
      prodParser "profile Prod" [("sso_role_name", " Admin "), ("region", "us-west-1")]
      (by decide) (by decide)).2.1 "sso_role_name" " Admin " (by decide)
      (by
        intro key2 value2 hmem he
        simp only [List.mem_cons, Prod.mk.injEq, List.mem_singleton, List.not_mem_nil,
          or_false] at hmem
        rcases hmem with ⟨h, _⟩ | ⟨h, _⟩
        · exact h
        · subst h
          exact absurd he (by decide)),
    by decide,
    (WriteSectionToConfig_writes_trimmed_values ⟨"https://test.com", "us-west-2", "us-east-1"⟩
      prodParser "profile Prod" [("sso_role_name", " Admin "), ("region", "us-west-1")]
      (by decide) (by decide)).2.2.1 (by decide) "output"
      (by
        intro key2 hmem
        simp only [List.map_cons, List.map_nil, List.mem_cons, List.mem_singleton,
          List.not_mem_nil, or_false] at hmem
        rcases hmem with h | h <;> subst h <;> decide),
    (WriteSectionToConfig_writes_trimmed_values ⟨"https://test.com", "us-west-2", "us-east-1"⟩
      prodParser "profile empty" [] (by decide) (by decide)).1⟩

end AwsSsoConfig
